import Mathlib

/-!
# a11y-web-analyzer: report builder, enrichment client, job store and pipeline

Shallow embedding of `backend/internal/translator` (`ai_client.go`,
`processor.go`, `translator.go`), of the data model in `backend/internal/domain`,
of the example truncation of `backend/internal/service/pdf_generator.go`, of the
jobs and their store in `backend/internal/service` (`job.go`, `storage.go`), and of
the delete endpoint of `backend/internal/api/handler.go`.

The store holds pointers to jobs. It is modelled with a heap of job objects, and the
goroutine of `ProcessAnalysis` as a machine that runs one statement at a time, so
that the states between two statements can be looked at.

Go strings are modelled as lists of Unicode code points (`Str`). Every string
the program handles is decoded from JSON, so it is valid UTF-8; all searches
are for valid UTF-8 patterns, so byte offsets of matches fall on code point
boundaries. Byte lengths (`len(s)` in Go) are taken on the UTF-8 encoding.
-/

namespace A11y

/-- A Go string, as its sequence of code points. -/
abbrev Str := List Char

/-! ## Library functions of package `strings`, `unicode`, `fmt`, `regexp` -/

/-- The predicate `unicode.IsSpace`: the code points with the White_Space property. -/
def isSpace (c : Char) : Bool :=
  c = '\t' || c = '\n' || c.toNat = 0x0B || c.toNat = 0x0C || c = '\r' || c = ' ' ||
  c.toNat = 0x85 || c.toNat = 0xA0 || c.toNat = 0x1680 ||
  (0x2000 ≤ c.toNat && c.toNat ≤ 0x200A) ||
  c.toNat = 0x2028 || c.toNat = 0x2029 || c.toNat = 0x202F || c.toNat = 0x205F ||
  c.toNat = 0x3000

/-- The function `strings.TrimSpace`: drops leading and trailing white space. -/
def TrimSpace (s : Str) : Str :=
  (s.dropWhile isSpace).rdropWhile isSpace

/-- The function `strings.HasPrefix`. -/
def HasPrefix (s pre : Str) : Bool :=
  pre.isPrefixOf s

/-- The function `strings.TrimPrefix`. -/
def TrimPrefix (s pre : Str) : Str :=
  if HasPrefix s pre then s.drop pre.length else s

/-- The function `strings.Index`: offset of the first occurrence of `sub` in `s`
(`none` stands for Go's `-1`). -/
def Index : Str → Str → Option Nat
  | [], sub => if sub.isPrefixOf [] then some 0 else none
  | c :: cs, sub =>
    if sub.isPrefixOf (c :: cs) then some 0
    else (Index cs sub).map (· + 1)

/-- The loop of `strings.Split` for a non-empty separator: cut at the first
occurrence of `sep`, go on after it. Each cut removes at least one code point,
so `s.length` rounds always suffice. -/
def splitLoop (sep : Str) : Nat → Str → List Str
  | 0, s => [s]
  | fuel + 1, s =>
    match Index s sep with
    | none => [s]
    | some m => s.take m :: splitLoop sep fuel (s.drop (m + sep.length))

/-- The function `strings.Split` (for a non-empty separator). -/
def Split (s sep : Str) : List Str :=
  splitLoop sep s.length s

/-- The verb `%d` of `fmt.Sprintf` on a non-negative integer. -/
def fmtInt (n : Nat) : Str :=
  Nat.toDigits 10 n

/-- The value of a decimal digit. -/
def digitVal (c : Char) : Nat := c.toNat - 48

/-- The number a string of decimal digits stands for. -/
def digitsVal (l : Str) : Nat :=
  l.foldl (fun acc c => 10 * acc + digitVal c) 0

/-- The call `regexp.ReplaceAllString` for a pattern `[class]+`: every maximal run
of code points of the class is replaced by `rep`. The flag says whether the
previous code point was in the class. -/
def replaceRunsAux (cls : Char → Bool) (rep : Str) : Bool → Str → Str
  | _, [] => []
  | inRun, c :: cs =>
    if cls c then
      if inRun then replaceRunsAux cls rep true cs
      else rep ++ replaceRunsAux cls rep true cs
    else c :: replaceRunsAux cls rep false cs

/-- Replace every maximal run of the class by `rep`. -/
def replaceRuns (cls : Char → Bool) (rep : Str) (s : Str) : Str :=
  replaceRunsAux cls rep false s

/-- The backtick. -/
def backtick : Char := Char.ofNat 0x60

/-- The form feed. -/
def formFeed : Char := Char.ofNat 0x0C

/-- The class of the pattern `\*+`. -/
def isStar (c : Char) : Bool := c = '*'

/-- The class of the pattern "[_~`#]+". -/
def isMark (c : Char) : Bool := c = '_' || c = '~' || c.toNat = 0x60 || c = '#'

/-- The class `\s` of Go regular expressions: tab, newline, form feed, carriage
return, space. -/
def isReSpace (c : Char) : Bool :=
  c = '\t' || c = '\n' || c.toNat = 0x0C || c = '\r' || c = ' '

/-! ## `processor.go`: the formatting sanitizer -/

/-- The method `Processor.cleanFormatting`. -/
def cleanFormatting (text : Str) : Str :=
  let text := replaceRuns isStar [] text
  let text := replaceRuns isMark [] text
  let text := TrimSpace text
  replaceRuns isReSpace [' '] text

/-! ## `domain/axe.go`, `domain/report.go`: the data model -/

/-- The type `domain.AxeRelated`. -/
structure AxeRelated where
  HTML : Str
  Target : List Str
  deriving DecidableEq, Repr

/-- The type `domain.AxeCheck` (its untyped `Data` payload is never read and is left out). -/
structure AxeCheck where
  ID : Str
  RelatedNodes : List AxeRelated
  Impact : Str
  Message : Str
  deriving DecidableEq, Repr

/-- The type `domain.AxeNode`: one affected element. -/
structure AxeNode where
  Any : List AxeCheck
  All : List AxeCheck
  None : List AxeCheck
  Impact : Str
  HTML : Str
  Target : List Str
  FailureSummary : Str
  deriving DecidableEq, Repr

/-- The type `domain.AxeViolation`: one finding. -/
structure AxeViolation where
  ID : Str
  Impact : Str
  Tags : List Str
  Description : Str
  Help : Str
  HelpURL : Str
  Nodes : List AxeNode
  deriving DecidableEq, Repr

/-- The type `domain.Issue`. -/
structure Issue where
  ID : Str
  Impact : Str
  Title : Str
  Description : Str
  HowToFix : Str
  AffectedElements : Nat
  Tags : List Str
  HelpURL : Str
  Examples : List Str
  deriving DecidableEq, Repr

/-- A Go `map[string]V`, kept as a list of entries with distinct keys in order of
insertion. -/
abbrev GoMap (V : Type) := List (Str × V)

/-- The lookup `m[k]` with its presence flag. -/
def GoMap.get {V : Type} (m : GoMap V) (k : Str) : Option V :=
  match m with
  | [] => none
  | (k', v) :: rest => if k' = k then some v else GoMap.get rest k

/-- The assignment `m[k] = v`. -/
def GoMap.set {V : Type} (m : GoMap V) (k : Str) (v : V) : GoMap V :=
  match m with
  | [] => [(k, v)]
  | (k', v') :: rest => if k' = k then (k, v) :: rest else (k', v') :: GoMap.set rest k v

/-- The keys of a map. -/
def GoMap.keys {V : Type} (m : GoMap V) : List Str :=
  m.map Prod.fst

/-- The type `domain.ReportSummary`. -/
structure ReportSummary where
  TotalIssues : Nat
  Critical : Nat
  Serious : Nat
  Moderate : Nat
  Minor : Nat
  ImpactScores : GoMap Nat
  deriving DecidableEq, Repr

/-- The type `domain.Report` (`CreatedAt` is never assigned by the builder and is left out). -/
structure Report where
  ID : Str
  URL : Str
  Summary : ReportSummary
  IssuesByImpact : GoMap (List Issue)
  Recommendations : List Str
  deriving DecidableEq, Repr

/-! ## `processor.go`: tables -/

/-- The table `titleTranslations` of `translateTitle`. -/
def titleTranslations : GoMap Str :=
  [ ("aria-hidden-focus".toList, "ARIA-скрытые элементы не должны получать фокус".toList),
    ("button-name".toList, "Кнопки должны иметь понятный текст".toList),
    ("color-contrast".toList, "Недостаточный контраст цвета".toList),
    ("image-alt".toList, "Изображения должны иметь альтернативный текст".toList),
    ("label".toList, "Элементы формы должны иметь метки".toList),
    ("link-name".toList, "Ссылки должны иметь понятный текст".toList),
    ("html-has-lang".toList, "HTML-элемент должен иметь атрибут lang".toList),
    ("valid-lang".toList, "Атрибут lang должен содержать корректное значение".toList),
    ("document-title".toList, "Документ должен иметь заголовок".toList),
    ("landmark-one-main".toList, "Страница должна содержать один главный landmark".toList),
    ("region".toList, "Контент должен быть в landmark-регионах".toList),
    ("page-has-heading-one".toList, "Страница должна содержать заголовок первого уровня".toList),
    ("bypass".toList,
      "Страница должна иметь возможность пропуска повторяющегося контента".toList),
    ("heading-order".toList, "Заголовки должны следовать в правильном порядке".toList),
    ("list".toList, "Списки должны содержать только элементы li".toList),
    ("listitem".toList, "Элементы списка должны быть внутри ul или ol".toList),
    ("definition-list".toList,
      "Списки определений должны быть правильно структурированы".toList),
    ("dlitem".toList, "Элементы списка определений должны быть внутри dl".toList),
    ("duplicate-id".toList, "ID элементов должны быть уникальными".toList),
    ("duplicate-id-active".toList, "ID активных элементов должны быть уникальными".toList),
    ("duplicate-id-aria".toList, "ID элементов в ARIA должны быть уникальными".toList),
    ("form-field-multiple-labels".toList, "Поля формы не должны иметь несколько меток".toList),
    ("frame-title".toList, "Фреймы должны иметь заголовок".toList),
    ("input-image-alt".toList, "Кнопки-изображения должны иметь альтернативный текст".toList),
    ("meta-refresh".toList, "Не используйте meta refresh".toList),
    ("meta-viewport".toList, "Meta viewport не должен запрещать масштабирование".toList),
    ("object-alt".toList, "Object-элементы должны иметь альтернативный текст".toList),
    ("role-img-alt".toList, "Элементы с role=img должны иметь альтернативный текст".toList),
    ("scrollable-region-focusable".toList,
      "Прокручиваемые области должны быть фокусируемыми".toList),
    ("select-name".toList, "Select-элементы должны иметь доступное имя".toList),
    ("server-side-image-map".toList, "Серверные карты изображений не рекомендуются".toList),
    ("svg-img-alt".toList, "SVG-элементы с role=img должны иметь альтернативный текст".toList),
    ("td-headers-attr".toList,
      "Ячейки таблицы с атрибутом headers должны ссылаться на существующие ячейки".toList),
    ("th-has-data-cells".toList, "Заголовки таблицы должны иметь связанные ячейки данных".toList),
    ("valid-aria-role".toList, "ARIA role должен быть корректным".toList),
    ("video-caption".toList, "Видео должно иметь субтитры".toList),
    ("aria-allowed-attr".toList, "ARIA-атрибуты должны быть разрешены для данной роли".toList),
    ("aria-required-attr".toList, "Обязательные ARIA-атрибуты должны присутствовать".toList),
    ("aria-valid-attr".toList, "ARIA-атрибуты должны быть корректными".toList),
    ("aria-valid-attr-value".toList, "Значения ARIA-атрибутов должны быть корректными".toList) ]

/-- The table `translations` of `translateDescription`. -/
def translations : GoMap Str :=
  [ ("aria-hidden-focus".toList,
      "Элементы со скрытым ARIA не должны получать фокус или содержать элементы с фокусом".toList),
    ("button-name".toList, "Кнопки должны иметь понятный текст".toList),
    ("color-contrast".toList, "Текст должен иметь достаточный контраст с фоном".toList),
    ("image-alt".toList, "Изображения должны иметь альтернативный текст".toList),
    ("label".toList, "Поля форм должны иметь метки".toList),
    ("link-name".toList, "Ссылки должны иметь понятный текст".toList) ]

/-- The table `fixes` of `generateHowToFix`. -/
def fixes : GoMap Str :=
  [ ("aria-hidden-focus".toList,
      "Добавьте tabindex=\"-1\" к элементам с aria-hidden=\"true\" или удалите их из DOM.".toList),
    ("button-name".toList,
      "Добавьте текст внутрь кнопки или используйте aria-label для описания действия.".toList),
    ("color-contrast".toList,
      "Увеличьте контраст между текстом и фоном до соотношения минимум 4.5:1 для обычного текста.".toList),
    ("image-alt".toList, "Добавьте атрибут alt с описанием содержимого изображения.".toList),
    ("label".toList,
      "Добавьте элемент <label> с атрибутом for или оберните поле в <label>.".toList),
    ("link-name".toList, "Добавьте понятный текст в ссылку или используйте aria-label.".toList) ]

/-- The generic fallback sentence of `generateHowToFix`. -/
def genericFix : Str :=
  "Изучите документацию по ссылке для получения рекомендаций по исправлению.".toList

/-- The delimiter between explanation and remediation in an enrichment. -/
def delimiter : Str := "Решение:".toList

/-! ## `ai_client.go` -/

/-- The type `AIClient` (the HTTP client and the endpoint URL play no part here). -/
structure AIClient where
  apiKey : Str
  deriving DecidableEq, Repr

/-- Everything the builder does not decide itself.
`chat k prompt` is the outcome of the `k`-th exchange with the text-generation
service for the user prompt `prompt`: an error (transport failure, unreadable or
malformed body, API error, no choice) or the content of the first choice.
`order k key` is the rank of `key` in the `k`-th `range` over a map, whose
iteration order Go leaves open. -/
structure World where
  chat : Nat → Str → Except Str Str
  order : Nat → Str → Nat

/-- The method `AIClient.mockTranslate`. -/
def AIClient.mockTranslate (_c : AIClient) (_prompt : Str) : Str :=
  ("Это демо-режим. Для полноценной работы с AI установите OPENAI_API_KEY. " ++
    "Проблема требует внимания и исправления согласно стандартам WCAG 2.1.").toList

/-- The opening tag of a reasoning block. -/
def openTag : Str := "<think>".toList

/-- The closing tag of a reasoning block. -/
def closeTag : Str := "</think>".toList

/-- One round of the loop of `removeThinkTags`: `inl` with the text it leaves when
the loop breaks, `inr` with the text for the next round. -/
def removeThinkStep (text : Str) : Str ⊕ Str :=
  match Index text openTag with
  | none => .inl text
  | some startIdx =>
    match Index (text.drop startIdx) closeTag with
    | none => .inl (text.take startIdx)
    | some endIdx =>
      let endIdx := endIdx + (startIdx + closeTag.length)
      .inr (text.take startIdx ++ text.drop endIdx)

/-- The loop of `removeThinkTags`, for at most `fuel` rounds. -/
def removeThinkLoop : Nat → Str → Str
  | 0, text => text
  | fuel + 1, text =>
    match removeThinkStep text with
    | .inl out => out
    | .inr next => removeThinkLoop fuel next

/-- The function `removeThinkTags`. Every round that does not break shortens the
text, so `text.length + 1` rounds are enough for the loop to break. -/
def removeThinkTags (text : Str) : Str :=
  TrimSpace (removeThinkLoop (text.length + 1) text)

/-- The placeholder of `parseBatchResponse` for a slot without text. -/
def needsAttention : Str :=
  "Требует внимания и исправления согласно стандартам WCAG 2.1.".toList

/-- The variables of the line loop of `parseBatchResponse`. -/
structure ParseState where
  results : List Str
  currentIndex : Int
  currentText : Str
  deriving DecidableEq, Repr

/-- The inner loop of `parseBatchResponse`: the first `i` in `1..expectedCount`
such that the trimmed line starts with the numeral of `i` and a dot. -/
def matchNumber (expectedCount : Nat) (line : Str) : Option Nat :=
  (List.range' 1 expectedCount).find?
    (fun i => HasPrefix (TrimSpace line) (fmtInt i ++ ['.']))

/-- The flush `results[currentIndex] = TrimSpace(currentText)` with its guard. -/
def ParseState.flush (expectedCount : Nat) (st : ParseState) : List Str :=
  if 0 ≤ st.currentIndex ∧ st.currentIndex < expectedCount then
    st.results.set st.currentIndex.toNat (TrimSpace st.currentText)
  else st.results

/-- The body of the line loop of `parseBatchResponse`. -/
def parseLine (expectedCount : Nat) (st : ParseState) (line : Str) : ParseState :=
  match matchNumber expectedCount line with
  | some i =>
    let text := TrimPrefix (TrimSpace line) (fmtInt i ++ ['.'])
    { results := st.flush expectedCount
      currentIndex := (i : Int) - 1
      currentText := TrimSpace text }
  | none =>
    if 0 ≤ st.currentIndex then
      { st with currentText := st.currentText ++ [' '] ++ TrimSpace line }
    else st

/-- The variables of `parseBatchResponse` before the first line. -/
def parseInit (expectedCount : Nat) : ParseState :=
  { results := List.replicate expectedCount ([] : Str)
    currentIndex := -1
    currentText := [] }

/-- The method `AIClient.parseBatchResponse`. -/
def parseBatchResponse (content : Str) (expectedCount : Nat) : List Str :=
  let lines := Split content ['\n']
  let st := lines.foldl (parseLine expectedCount) (parseInit expectedCount)
  let results := st.flush expectedCount
  results.map (fun r => if r = [] then needsAttention else r)

/-- The head of the user prompt of `TranslateBatch` for `n` problems. -/
def batchPromptHead (n : Nat) : Str :=
  "Переведи и объясни следующие ".toList ++ fmtInt n ++
  (" проблем доступности веб-сайта.\n" ++
   "Требования к ответу:\n" ++
   "- Язык: русский.\n" ++
   "- Формат: пронумерованный список (1., 2., ...). Для каждой проблемы: сначала краткое описание, затем строка \"Решение: <текст>\".\n" ++
   "- Ответ должен быть ЧИСТЫМ ТЕКСТОМ. Категорически НЕЛЬЗЯ использовать Markdown или символы/теги разметки: звёздочки (* или **), подчёркивания (_), обратные кавычки, тильды (~) или HTML-теги.\n" ++
   "- Не используйте кавычки или другие символы для выделения. Для акцентов используйте ПРОПИСНЫЕ БУКВЫ или метки в квадратных скобках, например [ВАЖНО].\n" ++
   "Начинайте каждый пункт как \"1. <описание>\\n   Решение: <текст>\".\n" ++
   "Проблемы:\n").toList

/-- The user prompt of `TranslateBatch`: the head, then one numbered line per problem. -/
def batchPrompt (violations : List Str) : Str :=
  violations.enum.foldl
    (fun prompt iv => prompt ++ ['\n'] ++ fmtInt (iv.1 + 1) ++ ". ".toList ++ iv.2)
    (batchPromptHead violations.length)

/-- The method `AIClient.TranslateBatch`, as the `call`-th exchange with the service. -/
def AIClient.TranslateBatch (c : AIClient) (w : World) (call : Nat)
    (violations : List Str) : Except Str (List Str) :=
  if violations.length = 0 then .ok []
  else if c.apiKey = [] then .ok (violations.map c.mockTranslate)
  else
    match w.chat call (batchPrompt violations) with
    | .error e => .error e
    | .ok content => .ok (parseBatchResponse (removeThinkTags content) violations.length)

/-- The user prompt of `Translate`: the fixed instructions, then the caller's prompt. -/
def translatePrompt (prompt : Str) : Str :=
  ("Переведи и объясни проблему доступа. Ответ строго на русском языке. " ++
   "Формат ответа: краткий чистый текст. НЕЛЬЗЯ использовать Markdown, звёздочки (* или **), " ++
   "подчёркивания (_), обратные кавычки, тильды или HTML-теги. Если нужно выделить, " ++
   "используй ПРОПИСНЫЕ БУКВЫ или метки в квадратных скобках, например [ВАЖНО]. " ++
   "Начинай ответ по делу и коротко.\n\n").toList ++ prompt

/-- The method `AIClient.Translate`, as the `call`-th exchange with the service. -/
def AIClient.Translate (c : AIClient) (w : World) (call : Nat) (prompt : Str) :
    Except Str Str :=
  if c.apiKey = [] then .ok (c.mockTranslate prompt)
  else
    match w.chat call (translatePrompt prompt) with
    | .error e => .error e
    | .ok responseText => .ok (removeThinkTags responseText)

/-! ## `processor.go`: from a finding to an issue -/

/-- The type `Processor`. -/
structure Processor where
  aiClient : AIClient
  deriving DecidableEq, Repr

/-- The method `Processor.translateTitle`. -/
def translateTitle (title violationID : Str) : Str :=
  match titleTranslations.get violationID with
  | some translated => translated
  | none => cleanFormatting title

/-- The method `Processor.translateDescription`. -/
def translateDescription (violation : AxeViolation) : Str :=
  match translations.get violation.ID with
  | some translated => cleanFormatting translated
  | none => cleanFormatting violation.Description

/-- The method `Processor.generateHowToFix`. -/
def generateHowToFix (violation : AxeViolation) : Str :=
  match fixes.get violation.ID with
  | some fix => fix
  | none =>
    match violation.Nodes with
    | node :: _ =>
      match node.All with
      | check :: _ => check.Message
      | [] => genericFix
    | [] => genericFix

/-- The method `Processor.convertViolationToIssueWithAI`. -/
def convertViolationToIssueWithAI (violation : AxeViolation) (aiDescription : Str) : Issue :=
  let examples := (violation.Nodes.take 3).map AxeNode.HTML
  let description := translateDescription violation
  let howToFix := generateHowToFix violation
  let (description, howToFix) :=
    if aiDescription ≠ [] then
      match Split aiDescription delimiter with
      | [part0, part1] =>
        (cleanFormatting (TrimSpace part0), cleanFormatting (TrimSpace part1))
      | _ => (cleanFormatting aiDescription, howToFix)
    else (description, howToFix)
  let title := translateTitle violation.Help violation.ID
  { ID := violation.ID
    Impact := violation.Impact
    Title := title
    Description := description
    HowToFix := howToFix
    AffectedElements := violation.Nodes.length
    Tags := violation.Tags
    HelpURL := violation.HelpURL
    Examples := examples }

/-- The UTF-8 encoding of a string: the bytes Go's `len` and slicing work on. -/
def utf8 (s : Str) : List UInt8 :=
  s.flatMap String.utf8EncodeChar

/-- The truncation of an example in `PDFGenerator.addIssueCard`, on the bytes of the
example: more than 100 bytes are cut to 100 and the marker `...` is appended. -/
def cardExample (ex : List UInt8) : List UInt8 :=
  if ex.length > 100 then ex.take 100 ++ utf8 "...".toList else ex

/-! ## `processor.go`: batches, summary, recommendations -/

/-- The loop of `createBatches` from index `i`, for at most `fuel` rounds. -/
def createBatchesLoop (violations : List AxeViolation) (batchSize : Nat) :
    Nat → Nat → List (List AxeViolation)
  | 0, _ => []
  | fuel + 1, i =>
    if i < violations.length then
      let stop := if i + batchSize > violations.length then violations.length else i + batchSize
      (violations.take stop).drop i :: createBatchesLoop violations batchSize fuel (i + batchSize)
    else []

/-- The method `Processor.createBatches` (for a positive batch size, where
`len(violations)` rounds are enough for the loop to end). -/
def createBatches (violations : List AxeViolation) (batchSize : Nat) :
    List (List AxeViolation) :=
  createBatchesLoop violations batchSize violations.length 0

/-- The entries of a map in the order the `k`-th `range` statement visits them. -/
def World.range {V : Type} (w : World) (k : Nat) (m : GoMap V) : List (Str × V) :=
  m.insertionSort (fun a b => w.order k a.1 ≤ w.order k b.1)

/-- The two counting maps of `findCommonIssues`: occurrences and title per rule id. -/
def countIssues (w : World) (report : Report) : GoMap Nat × GoMap Str :=
  (w.range 0 report.IssuesByImpact).foldl
    (fun acc entry =>
      entry.2.foldl
        (fun acc issue =>
          (acc.1.set issue.ID ((acc.1.get issue.ID).getD 0 + 1),
           acc.2.set issue.ID issue.Title))
        acc)
    ([], [])

/-- The method `Processor.findCommonIssues`. -/
def findCommonIssues (w : World) (report : Report) : List Str :=
  let counts := countIssues w report
  let common := (w.range 1 counts.1).foldl
    (fun common entry =>
      if entry.2 ≥ 2 then
        common ++ [(counts.2.get entry.1).getD [] ++ " (".toList ++ fmtInt entry.2 ++ [')']]
      else common)
    []
  if common.length > 3 then common.take 3 else common

/-- The positive message of `generateRecommendations`. -/
def positiveMessage : Str :=
  "[OK] Отличная работа! Серьезных проблем с доступностью не обнаружено.".toList

/-- The method `Processor.generateRecommendations`. -/
def generateRecommendations (w : World) (report : Report) : List Str :=
  let recommendations : List Str := []
  let recommendations :=
    if report.Summary.Critical > 0 then
      recommendations ++ ["[!] Обнаружено ".toList ++ fmtInt report.Summary.Critical ++
        " критических проблем. Рекомендуется исправить их в первую очередь.".toList]
    else recommendations
  let recommendations :=
    if report.Summary.Serious > 0 then
      recommendations ++ ["[!!] Найдено ".toList ++ fmtInt report.Summary.Serious ++
        " серьезных проблем, которые могут значительно затруднить использование сайта.".toList]
    else recommendations
  let recommendations :=
    if report.Summary.TotalIssues > 10 then
      recommendations ++
        ["[i] Рекомендуется провести комплексный аудит доступности с участием экспертов.".toList]
    else recommendations
  let commonIssues := findCommonIssues w report
  let recommendations :=
    if commonIssues.length > 0 then
      recommendations ++ ["[*] Частые проблемы: ".toList ++
        ", ".toList.intercalate commonIssues ++
        ". Рассмотрите возможность автоматизации проверок.".toList]
    else recommendations
  if recommendations.length = 0 then recommendations ++ [positiveMessage]
  else recommendations

/-- The statistics update and bucket append of the inner loop of `ProcessViolations`. -/
def addIssue (report : Report) (violation : AxeViolation) (issue : Issue) : Report :=
  let byImpact :=
    if (report.IssuesByImpact.get violation.Impact).isNone then
      report.IssuesByImpact.set violation.Impact []
    else report.IssuesByImpact
  let byImpact :=
    byImpact.set violation.Impact ((byImpact.get violation.Impact).getD [] ++ [issue])
  let scores := report.Summary.ImpactScores.set violation.Impact
    ((report.Summary.ImpactScores.get violation.Impact).getD 0 + 1)
  let summary : ReportSummary :=
    { report.Summary with
      TotalIssues := report.Summary.TotalIssues + 1
      ImpactScores := scores }
  let summary : ReportSummary :=
    if violation.Impact = "critical".toList then
      { summary with Critical := summary.Critical + 1 }
    else if violation.Impact = "serious".toList then
      { summary with Serious := summary.Serious + 1 }
    else if violation.Impact = "moderate".toList then
      { summary with Moderate := summary.Moderate + 1 }
    else if violation.Impact = "minor".toList then
      { summary with Minor := summary.Minor + 1 }
    else summary
  { report with IssuesByImpact := byImpact, Summary := summary }

/-- The prompt `ProcessViolations` builds for one finding. -/
def problemPrompt (violation : AxeViolation) : Str :=
  "Проблема: ".toList ++ violation.ID ++ " - ".toList ++ violation.Help

/-- The body of the batch loop of `ProcessViolations` for the `call`-th batch.
`none` stands for the run-time panic of an index out of range in
`aiDescriptions[i]`. -/
def processBatch (p : Processor) (w : World) (call : Nat) (report : Report)
    (batch : List AxeViolation) : Option Report :=
  let prompts := batch.map problemPrompt
  let aiDescriptions :=
    match p.aiClient.TranslateBatch w call prompts with
    | .ok descriptions => descriptions
    | .error _ => List.replicate batch.length []
  batch.enum.foldlM
    (fun report iv =>
      match aiDescriptions.get? iv.1 with
      | some aiDescription =>
        some (addIssue report iv.2 (convertViolationToIssueWithAI iv.2 aiDescription))
      | none => none)
    report

/-- The four impact levels every report starts with. -/
def impactLevels : List Str :=
  ["critical".toList, "serious".toList, "moderate".toList, "minor".toList]

/-- The report before the first batch. -/
def emptyReport (url jobID : Str) : Report :=
  impactLevels.foldl
    (fun report level =>
      { report with IssuesByImpact := report.IssuesByImpact.set level [] })
    { ID := jobID
      URL := url
      IssuesByImpact := []
      Summary :=
        { TotalIssues := 0, Critical := 0, Serious := 0, Moderate := 0, Minor := 0
          ImpactScores := [] }
      Recommendations := [] }

/-- The method `Processor.ProcessViolations`: the pair of the report and the error
it returns; `none` stands for a run-time panic. -/
def ProcessViolations (p : Processor) (w : World) (url : Str)
    (violations : List AxeViolation) (jobID : Str) : Option (Report × Option Str) :=
  let report := emptyReport url jobID
  let batchSize := 10
  let batches := createBatches violations batchSize
  match batches.enum.foldlM (fun report kb => processBatch p w kb.1 report kb.2) report with
  | none => none
  | some report =>
    some ({ report with Recommendations := generateRecommendations w report }, none)

/-- The number of issues over all buckets of a report. -/
def Report.bucketTotal (report : Report) : Nat :=
  (report.IssuesByImpact.map (fun entry => entry.2.length)).sum

/-! ## The parsing contract, as the specification words it -/

/-- Specification: the item a line opens. The trimmed line matches `^<n>\.`: it starts
with decimal digits followed by a dot, the digits are the numeral of `n`, and `n` is in
`1..N`. -/
def specNumber (N : Nat) (line : Str) : Option Nat :=
  let t := TrimSpace line
  let numeral := t.takeWhile Char.isDigit
  let n := digitsVal numeral
  if (t.drop numeral.length).head? = some '.' ∧ fmtInt n = numeral ∧ 1 ≤ n ∧ n ≤ N then
    some n
  else none

/-- Specification: the reply read from its last line backwards. The result is the text
still to be appended to the item that is open when these lines start, and the items
these lines open, each with its number and accumulated text: the text after the
numeral prefix, then every following line that opens no item, each after one space. -/
def specItems (N : Nat) : List Str → Str × List (Nat × Str)
  | [] => ([], [])
  | line :: rest =>
    match specNumber N line with
    | some n =>
      ([], (n, TrimSpace ((TrimSpace line).drop (fmtInt n ++ ['.']).length)
              ++ (specItems N rest).1) :: (specItems N rest).2)
    | none => ([' '] ++ TrimSpace line ++ (specItems N rest).1, (specItems N rest).2)

/-- Specification: the text of item `n` is stored, trimmed, in slot `n - 1`. -/
def specStore (slots : List Str) (items : List (Nat × Str)) : List Str :=
  items.foldl (fun slots item => slots.set (item.1 - 1) (TrimSpace item.2)) slots

/-- Specification of the parser: the items of the reply are stored in `N` empty slots
(text before the first item is dropped), then every empty slot gets the placeholder. -/
def specParse (content : Str) (N : Nat) : List Str :=
  (specStore (List.replicate N []) (specItems N (Split content ['\n'])).2).map
    (fun text => if text = [] then needsAttention else text)

/-- The reply of exactly `N` lines, line `k` being the numeral of `k`, a dot, a space
and the text `t k`. -/
def numberedReply (N : Nat) (t : Nat → Str) : Str :=
  ['\n'].intercalate ((List.range' 1 N).map (fun k => fmtInt k ++ ". ".toList ++ t k))

/-! ## Invariants used in the proofs -/

/-- The item the line loop of `parseBatchResponse` has open, with the text `cont` that
the coming lines still append to it. -/
def ParseState.pending (st : ParseState) (cont : Str) : List (Nat × Str) :=
  if 0 ≤ st.currentIndex then [(st.currentIndex.toNat + 1, st.currentText ++ cont)] else []

/-- What every state of the line loop of `parseBatchResponse` satisfies: one slot per
expected item, each slot empty or trimmed. -/
def ParseState.ok (expectedCount : Nat) (st : ParseState) : Prop :=
  st.results.length = expectedCount ∧ ∀ r ∈ st.results, TrimSpace r = r

/-- The number of issues over all buckets of a map of buckets. -/
def bucketSum (m : GoMap (List Issue)) : Nat :=
  (m.map (fun entry => entry.2.length)).sum

/-- A report that has counted `n` findings: the total is `n`, the buckets hold `n`
issues, and no severity has two buckets. -/
def Report.counted (report : Report) (n : Nat) : Prop :=
  report.Summary.TotalIssues = n ∧ report.bucketTotal = n ∧
  report.IssuesByImpact.keys.Nodup

/-! ## The parts of a report, named -/

/-- The critical-count warning of `generateRecommendations`. -/
def criticalWarning (n : Nat) : Str :=
  "[!] Обнаружено ".toList ++ fmtInt n ++
    " критических проблем. Рекомендуется исправить их в первую очередь.".toList

/-- The serious-count warning of `generateRecommendations`. -/
def seriousWarning (n : Nat) : Str :=
  "[!!] Найдено ".toList ++ fmtInt n ++
    " серьезных проблем, которые могут значительно затруднить использование сайта.".toList

/-- The expert-audit note of `generateRecommendations`. -/
def expertNote : Str :=
  "[i] Рекомендуется провести комплексный аудит доступности с участием экспертов.".toList

/-- The frequent-issues note of `generateRecommendations` for the entries `common`. -/
def frequentNote (common : List Str) : Str :=
  "[*] Частые проблемы: ".toList ++ ", ".toList.intercalate common ++
    ". Рассмотрите возможность автоматизации проверок.".toList

/-- The warnings and notes of `generateRecommendations`, in the order it appends them,
before the positive message is considered. -/
def recommendationNotes (report : Report) (common : List Str) : List Str :=
  (if 0 < report.Summary.Critical then [criticalWarning report.Summary.Critical] else []) ++
  (if 0 < report.Summary.Serious then [seriousWarning report.Summary.Serious] else []) ++
  (if 10 < report.Summary.TotalIssues then [expertNote] else []) ++
  (if 0 < common.length then [frequentNote common] else [])

/-- An entry of the frequent-issues note: a title and an occurrence count. -/
def commonEntry (title : Str) (count : Nat) : Str :=
  title ++ " (".toList ++ fmtInt count ++ [')']

/-- All issues of a report, bucket after bucket. -/
def Report.allIssues (report : Report) : List Issue :=
  report.IssuesByImpact.flatMap (fun bucket => bucket.2)

/-- The number of issues of a report with rule id `id`, over all buckets. -/
def Report.occurrences (report : Report) (id : Str) : Nat :=
  report.allIssues.countP (fun issue => issue.ID = id)

/-- The distinct rule ids of a report that occur at least twice. -/
def Report.frequentIds (report : Report) : List Str :=
  (report.allIssues.map Issue.ID).dedup.filter (fun id => 2 ≤ report.occurrences id)

/-- The body of the counting loop of `findCommonIssues` for one issue. -/
def countStep (acc : GoMap Nat × GoMap Str) (issue : Issue) : GoMap Nat × GoMap Str :=
  (acc.1.set issue.ID ((acc.1.get issue.ID).getD 0 + 1), acc.2.set issue.ID issue.Title)

/-- The issues of a report in the order the counting loop of `findCommonIssues` visits
them. -/
def Report.traversal (w : World) (report : Report) : List Issue :=
  (w.range 0 report.IssuesByImpact).flatMap (fun bucket => bucket.2)

/-- The counting maps after the issues `seen`: every rule id seen has its number of
occurrences and the title of an issue of that id, and no id has two entries. -/
def countsOf (acc : GoMap Nat × GoMap Str) (seen : List Issue) : Prop :=
  (∀ id, (acc.1.get id).getD 0 = seen.countP (fun issue => issue.ID = id)) ∧
  (∀ id, id ∈ acc.1.keys ↔ ∃ issue ∈ seen, issue.ID = id) ∧
  acc.1.keys.Nodup ∧
  (∀ id, id ∈ acc.1.keys →
    ∃ title, acc.2.get id = some title ∧ ∃ issue ∈ seen, issue.ID = id ∧ issue.Title = title)

/-- The enrichments the batch loop of `ProcessViolations` works with for the `call`-th
batch: what `TranslateBatch` returns, or one empty string per finding when it fails. -/
def batchDescriptions (p : Processor) (w : World) (call : Nat)
    (batch : List AxeViolation) : List Str :=
  match p.aiClient.TranslateBatch w call (batch.map problemPrompt) with
  | .ok descriptions => descriptions
  | .error _ => List.replicate batch.length []

/-- The findings of one batch, each with the issue made of it and of its enrichment. -/
def batchIssues (p : Processor) (w : World) (call : Nat)
    (batch : List AxeViolation) : List (AxeViolation × Issue) :=
  (batch.zip (batchDescriptions p w call batch)).map
    (fun vd => (vd.1, convertViolationToIssueWithAI vd.1 vd.2))

/-- The findings of all batches from number `k` on, each with its issue, in order. -/
def batchesIssues (p : Processor) (w : World) (k : Nat)
    (batches : List (List AxeViolation)) : List (AxeViolation × Issue) :=
  (batches.enumFrom k).flatMap (fun kb => batchIssues p w kb.1 kb.2)

/-- The findings of a run of `ProcessViolations`, each with its issue, in input order. -/
def expectedIssues (p : Processor) (w : World) (violations : List AxeViolation) :
    List (AxeViolation × Issue) :=
  batchesIssues p w 0 (createBatches violations 10)

/-- A report built for `url` and `jobID` that holds exactly the findings `done`, each
with its issue: counters, scores and buckets agree with `done`, bucket by bucket in
order, and no severity has two buckets. -/
def Report.built (report : Report) (url jobID : Str) (done : List (AxeViolation × Issue)) :
    Prop :=
  report.ID = jobID ∧ report.URL = url ∧
  report.Summary.TotalIssues = done.length ∧
  report.Summary.Critical = done.countP (fun e => e.1.Impact = "critical".toList) ∧
  report.Summary.Serious = done.countP (fun e => e.1.Impact = "serious".toList) ∧
  report.Summary.Moderate = done.countP (fun e => e.1.Impact = "moderate".toList) ∧
  report.Summary.Minor = done.countP (fun e => e.1.Impact = "minor".toList) ∧
  (∀ s, (report.Summary.ImpactScores.get s).getD 0 = done.countP (fun e => e.1.Impact = s)) ∧
  (∀ s, (report.IssuesByImpact.get s).getD []
      = (done.filter (fun e => e.1.Impact = s)).map Prod.snd) ∧
  (∀ s, s ∈ report.IssuesByImpact.keys ↔ s ∈ impactLevels ∨ ∃ e ∈ done, e.1.Impact = s) ∧
  report.IssuesByImpact.keys.Nodup

/-- A finding falls back on an empty message: its rule id is outside the table of
fixes and the first `all` check of its first element has an empty message. -/
def fallsBackOnEmptyMessage (v : AxeViolation) : Bool :=
  (fixes.get v.ID).isNone &&
    match v.Nodes with
    | node :: _ =>
      match node.All with
      | check :: _ => check.Message = []
      | [] => false
    | [] => false

/-! ## `service/job.go` -/

/-- The constant `StatusPending` of `JobStatus`. -/
def StatusPending : Str := "pending".toList

/-- The constant `StatusProcessing` of `JobStatus`. -/
def StatusProcessing : Str := "processing".toList

/-- The constant `StatusCompleted` of `JobStatus`. -/
def StatusCompleted : Str := "completed".toList

/-- The constant `StatusFailed` of `JobStatus`. -/
def StatusFailed : Str := "failed".toList

/-- The struct `Job`. The time stamps `CreatedAt` and `UpdatedAt` are left out: no
modelled code reads them. -/
structure Job where
  ID : Str
  URL : Str
  Status : Str
  Error : Str
  Progress : Int
  deriving DecidableEq, Repr

/-- The value `NewJob` allocates; `id` is the identifier drawn by `uuid.New()`. -/
def NewJob (url id : Str) : Job :=
  { ID := id, URL := url, Status := StatusPending, Error := [], Progress := 0 }

/-- The method `Job.UpdateStatus`. -/
def Job.UpdateStatus (j : Job) (status : Str) : Job := { j with Status := status }

/-- The method `Job.SetError`. -/
def Job.SetError (j : Job) (err : Str) : Job := { j with Error := err, Status := StatusFailed }

/-- The method `Job.SetProgress`. -/
def Job.SetProgress (j : Job) (progress : Int) : Job := { j with Progress := progress }

/-! ## `service/storage.go`

The store keeps `*Job`, the address of a job, not a copy of it: the fields of a
stored job are reached through the heap, where the pipeline writes them. -/

/-- The job objects of the program, by address. -/
abbrev Heap := Nat → Job

/-- A write through the pointer `job`. -/
def Heap.update (heap : Heap) (job : Nat) (f : Job → Job) : Heap :=
  fun a => if a = job then f (heap a) else heap a

/-- Go's `delete(m, k)`. -/
def GoMap.delete {V : Type} (m : GoMap V) (k : Str) : GoMap V :=
  m.filter (fun e => e.1 ≠ k)

/-- The struct `Storage` without its lock: the operations are modelled one at a time.
A stored report is kept by value, since nothing writes to a report once it is stored. -/
structure Storage where
  jobs : GoMap Nat
  reports : GoMap Report
  deriving DecidableEq, Repr

/-- The function `NewStorage`. -/
def NewStorage : Storage := { jobs := [], reports := [] }

/-- The method `Storage.SaveJob`: the new store and the returned error. -/
def Storage.SaveJob (s : Storage) (heap : Heap) (job : Nat) : Storage × Option Str :=
  ({ s with jobs := s.jobs.set (heap job).ID job }, none)

/-- The method `Storage.GetJob`: the address of the job, or the error. -/
def Storage.GetJob (s : Storage) (id : Str) : Except Str Nat :=
  match s.jobs.get id with
  | some job => .ok job
  | none => .error "job not found".toList

/-- The method `Storage.DeleteJob`: the new store and the returned error. -/
def Storage.DeleteJob (s : Storage) (id : Str) : Storage × Option Str :=
  ({ jobs := s.jobs.delete id, reports := s.reports.delete id }, none)

/-- The method `Storage.SaveReport`: the new store and the returned error. -/
def Storage.SaveReport (s : Storage) (report : Report) : Storage × Option Str :=
  ({ s with reports := s.reports.set report.ID report }, none)

/-- The method `Storage.GetReport`. -/
def Storage.GetReport (s : Storage) (id : Str) : Except Str Report :=
  match s.reports.get id with
  | some report => .ok report
  | none => .error "report not found".toList

/-- The memory of the program: the job objects and the store. -/
structure Mem where
  heap : Heap
  storage : Storage

/-- What a reader gets from `GetJob`: the fields of the job behind the returned
address, as they are at the moment of reading. -/
def Mem.readJob (m : Mem) (id : Str) : Except Str Job :=
  match m.storage.GetJob id with
  | .ok job => .ok (m.heap job)
  | .error e => .error e

/-- A write to the fields of the job at address `job`. -/
def Mem.onJob (m : Mem) (job : Nat) (f : Job → Job) : Mem :=
  { m with heap := m.heap.update job f }

/-- A call `t.storage.SaveJob(job)` whose result is dropped. -/
def Mem.SaveJob (m : Mem) (job : Nat) : Mem :=
  { m with storage := (m.storage.SaveJob m.heap job).1 }

/-- A call of `DeleteJob` on the store of the memory. -/
def Mem.DeleteJob (m : Mem) (id : Str) : Mem :=
  { m with storage := (m.storage.DeleteJob id).1 }

/-! ## `translator.go`: `ProcessAnalysis`

The body of the goroutine, one statement at a time, so that other operations on the
store can be placed between two statements. -/

/-- The statements of the goroutine of `ProcessAnalysis`, by line of `translator.go`;
`done` is the end of the goroutine. -/
inductive Line where
  | L29 | L30 | L31 | L34 | L35 | L37 | L39 | L40 | L45 | L46 | L48 | L49 | L50
  | L55 | L56 | L57 | done
  deriving DecidableEq, Repr

/-- The lines that call `SaveJob`. -/
def Line.savesJob : Line → Bool
  | .L31 | .L35 | .L40 | .L46 | .L50 | .L57 => true
  | _ => false

/-- A state of the goroutine: the next statement, the local variables `report` and
`err`, and the memory. -/
structure Run where
  pc : Line
  report : Option Report
  err : Str
  mem : Mem

/-- The state in which the goroutine starts. -/
def Run.start (mem : Mem) : Run := { pc := .L29, report := none, err := [], mem := mem }

/-- One statement of the goroutine of `ProcessAnalysis` on the job at address `job`;
`process` stands for `t.processor.ProcessViolations`. No next state: the goroutine has
ended, or `process` panicked. -/
def pipelineStep (process : Str → List AxeViolation → Str → Option (Report × Option Str))
    (job : Nat) (violations : List AxeViolation) (r : Run) : Option Run :=
  match r.pc with
  | .L29 => some { r with pc := .L30, mem := r.mem.onJob job (Job.UpdateStatus · StatusProcessing) }
  | .L30 => some { r with pc := .L31, mem := r.mem.onJob job (Job.SetProgress · 10) }
  | .L31 => some { r with pc := .L34, mem := r.mem.SaveJob job }
  | .L34 => some { r with pc := .L35, mem := r.mem.onJob job (Job.SetProgress · 50) }
  | .L35 => some { r with pc := .L37, mem := r.mem.SaveJob job }
  | .L37 =>
    match process (r.mem.heap job).URL violations (r.mem.heap job).ID with
    | none => none
    | some (report, some err) => some { r with pc := .L39, report := some report, err := err }
    | some (report, none) => some { r with pc := .L45, report := some report }
  | .L39 => some { r with pc := .L40, mem := r.mem.onJob job (Job.SetError · r.err) }
  | .L40 => some { r with pc := .done, mem := r.mem.SaveJob job }
  | .L45 => some { r with pc := .L46, mem := r.mem.onJob job (Job.SetProgress · 90) }
  | .L46 => some { r with pc := .L48, mem := r.mem.SaveJob job }
  | .L48 =>
    match r.report with
    | none => none
    | some report =>
      match r.mem.storage.SaveReport report with
      | (storage, some err) =>
        some { r with pc := .L49, err := err, mem := { r.mem with storage := storage } }
      | (storage, none) => some { r with pc := .L55, mem := { r.mem with storage := storage } }
  | .L49 => some { r with pc := .L50, mem := r.mem.onJob job (Job.SetError · r.err) }
  | .L50 => some { r with pc := .done, mem := r.mem.SaveJob job }
  | .L55 => some { r with pc := .L56, mem := r.mem.onJob job (Job.UpdateStatus · StatusCompleted) }
  | .L56 => some { r with pc := .L57, mem := r.mem.onJob job (Job.SetProgress · 100) }
  | .L57 => some { r with pc := .done, mem := r.mem.SaveJob job }
  | .done => none

/-- The state after at most `n` statements of the goroutine. -/
def pipelineRun (process : Str → List AxeViolation → Str → Option (Report × Option Str))
    (job : Nat) (violations : List AxeViolation) : Nat → Run → Run
  | 0, r => r
  | n + 1, r =>
    match pipelineStep process job violations r with
    | some next => pipelineRun process job violations n next
    | none => r

/-- The job as each of the first `n` statements that calls `SaveJob` stores it. -/
def pipelineSaves (process : Str → List AxeViolation → Str → Option (Report × Option Str))
    (job : Nat) (violations : List AxeViolation) : Nat → Run → List Job
  | 0, _ => []
  | n + 1, r =>
    match pipelineStep process job violations r with
    | some next =>
      (if r.pc.savesJob then [next.mem.heap job] else [])
        ++ pipelineSaves process job violations n next
    | none => []

/-- The struct `Translator`; its store is part of the memory. -/
structure Translator where
  processor : Processor

/-- The goroutine of `Translator.ProcessAnalysis` after at most `n` statements, in a
world `w`. -/
def Translator.ProcessAnalysisRun (t : Translator) (w : World) (job : Nat)
    (violations : List AxeViolation) (n : Nat) (mem : Mem) : Run :=
  pipelineRun (ProcessViolations t.processor w) job violations n (Run.start mem)

/-- The method `Translator.ProcessAnalysis` with its goroutine run to its end without
any other operation in between: the goroutine has 16 statements. -/
def Translator.ProcessAnalysis (t : Translator) (w : World) (job : Nat)
    (violations : List AxeViolation) (mem : Mem) : Mem :=
  (t.ProcessAnalysisRun w job violations 16 mem).mem

/-- The goroutine of `Translator.ProcessAnalysis` with a call `DeleteJob(id)` after its
first `k` statements, then run to its end. -/
def Translator.ProcessAnalysisWithDelete (t : Translator) (w : World) (job : Nat)
    (violations : List AxeViolation) (k : Nat) (id : Str) (mem : Mem) : Mem :=
  let before := t.ProcessAnalysisRun w job violations k mem
  (pipelineRun (ProcessViolations t.processor w) job violations 16
    { before with mem := before.mem.DeleteJob id }).mem

/-! ## `api/handler.go`: `DeleteJob` -/

/-- The answers of the delete endpoint: `ErrorResponse` and `SuccessResponse` with the
HTTP status code. -/
inductive Response where
  | error (code : Nat) (error message : Str)
  | success (code : Nat) (message : Str)
  deriving DecidableEq, Repr

/-- The handler `Handler.DeleteJob`: the new store and the answer. -/
def Handler.DeleteJob (s : Storage) (jobID : Str) : Storage × Response :=
  match s.DeleteJob jobID with
  | (s', some _) => (s', .error 404 "not_found".toList "Job not found".toList)
  | (s', none) => (s', .success 200 "Job deleted successfully".toList)

/-! ## Notions used to state the properties of the pipeline -/

/-- A list of statuses with repeats collapsed. -/
def collapseRepeats (statuses : List Str) : List Str :=
  statuses.destutter (· ≠ ·)

/-- The snapshots of the job at address `job` over a run of the goroutine from the
memory `mem`: the job as it is at the start, then as each `SaveJob` stores it. -/
def pipelineSnapshots (process : Str → List AxeViolation → Str → Option (Report × Option Str))
    (job : Nat) (violations : List AxeViolation) (mem : Mem) : List Job :=
  mem.heap job :: pipelineSaves process job violations 16 (Run.start mem)

/-! ## Concrete inputs -/

/-- A finding of a rule outside the built-in tables, with one affected element whose
first `all` check carries a message. -/
def customFinding : AxeViolation :=
  { ID := "custom-rule".toList
    Impact := "minor".toList
    Tags := []
    Description := "Custom rule".toList
    Help := "Custom help".toList
    HelpURL := []
    Nodes :=
      [ { Any := []
          All := [ { ID := "check".toList, RelatedNodes := [], Impact := "minor".toList
                     Message := "Fix element #main_nav".toList } ]
          None := []
          Impact := "minor".toList
          HTML := "<nav id=\"main_nav\">".toList
          Target := []
          FailureSummary := [] } ] }

/-- A finding of a rule outside the built-in tables without affected elements. -/
def bareFinding : AxeViolation :=
  { ID := "custom-rule".toList
    Impact := "minor".toList
    Tags := []
    Description := "Custom rule".toList
    Help := "Custom help".toList
    HelpURL := []
    Nodes := [] }

/-- A finding with one affected element whose markup has 104 bytes. -/
def longFinding : AxeViolation :=
  { bareFinding with
    Nodes :=
      [ { Any := [], All := [], None := [], Impact := [], HTML := List.replicate 104 'a'
          Target := [], FailureSummary := [] } ] }

/-- The texts of a reply of two numbered lines. -/
def twoTexts (k : Nat) : Str :=
  if k = 1 then "Нет подписи. Решение: добавьте label.".toList else "  Низкий контраст \r".toList

/-- An enrichment with the delimiter twice. -/
def twoDelimiters : Str := "A Решение: B Решение: C".toList

/-- A world whose service always fails and whose maps are ranged in insertion order. -/
def quietWorld : World :=
  { chat := fun _ _ => .error "unreachable".toList
    order := fun _ _ => 0 }

/-- A report with two critical findings out of three and nothing in its buckets. -/
def twoCritical : Report :=
  { ID := []
    URL := []
    Summary :=
      { TotalIssues := 3, Critical := 2, Serious := 0, Moderate := 0, Minor := 0
        ImpactScores := [] }
    IssuesByImpact := []
    Recommendations := [] }

/-- A world that ranges over every map with the key `rule-d` first. -/
def ruleDFirst : World :=
  { chat := fun _ _ => .error "unreachable".toList
    order := fun _ key => if key = "rule-d".toList then 0 else 1 }

/-- A world that ranges over every map with the key `rule-a` first and `rule-d` second. -/
def ruleDSecond : World :=
  { chat := fun _ _ => .error "unreachable".toList
    order := fun _ key =>
      if key = "rule-a".toList then 0 else if key = "rule-d".toList then 1 else 2 }

/-- An issue of rule `id` with title `title`. -/
def plainIssue (id title : Str) : Issue :=
  { ID := id, Impact := "minor".toList, Title := title, Description := [], HowToFix := []
    AffectedElements := 0, Tags := [], HelpURL := [], Examples := [] }

/-- A report with rules a, b and c twice each and rule d three times. -/
def fourRules : Report :=
  { ID := []
    URL := []
    Summary :=
      { TotalIssues := 9, Critical := 0, Serious := 0, Moderate := 0, Minor := 9
        ImpactScores := [("minor".toList, 9)] }
    IssuesByImpact :=
      [ ("critical".toList, []), ("serious".toList, []), ("moderate".toList, []),
        ("minor".toList,
          [ plainIssue "rule-a".toList "Rule A".toList, plainIssue "rule-a".toList "Rule A".toList,
            plainIssue "rule-b".toList "Rule B".toList, plainIssue "rule-b".toList "Rule B".toList,
            plainIssue "rule-c".toList "Rule C".toList, plainIssue "rule-c".toList "Rule C".toList,
            plainIssue "rule-d".toList "Rule D".toList, plainIssue "rule-d".toList "Rule D".toList,
            plainIssue "rule-d".toList "Rule D".toList ]) ]
    Recommendations := [] }

/-- A processor without API key. -/
def offlineProcessor : Processor := { aiClient := { apiKey := [] } }

/-- A processor with an API key. -/
def onlineProcessor : Processor := { aiClient := { apiKey := "key".toList } }

/-- A finding of a rule outside the built-in tables whose first element has a first
`all` check with an empty message. -/
def silentFinding : AxeViolation :=
  { ID := "custom-rule".toList
    Impact := "minor".toList
    Tags := []
    Description := "Custom rule".toList
    Help := "Custom help".toList
    HelpURL := []
    Nodes :=
      [ { Any := []
          All := [ { ID := "check".toList, RelatedNodes := [], Impact := "minor".toList
                     Message := [] } ]
          None := []
          Impact := "minor".toList
          HTML := "<div>".toList
          Target := []
          FailureSummary := [] } ] }

/-- A memory with one job, created by `NewJob` for `https://example.org` under the
identifier `job-1`, at address 0 and saved in an otherwise empty store, as
`CreateAnalysis` leaves it. -/
def pendingMem : Mem :=
  { heap := fun _ => NewJob "https://example.org".toList "job-1".toList
    storage := (NewStorage.SaveJob (fun _ => NewJob "https://example.org".toList "job-1".toList) 0).1 }

/-- A translator without API key. -/
def offlineTranslator : Translator := { processor := offlineProcessor }

/-- Seven findings. -/
def sevenFindings : List AxeViolation := List.replicate 7 bareFinding

/-! ## Facts about the library functions -/

theorem replaceRunsAux_nil_rep (cls : Char → Bool) (b : Bool) (s : Str) :
    replaceRunsAux cls [] b s = s.filter (fun c => !cls c) := by
  induction s generalizing b with
  | nil => rfl
  | cons c cs ih =>
    by_cases h : cls c <;> cases b <;> simp [replaceRunsAux, h, ih]

theorem replaceRunsAux_append_not (cls : Char → Bool) (rep : Str) (b : Bool) (s : Str)
    (c : Char) (hc : cls c = false) :
    replaceRunsAux cls rep b (s ++ [c]) = replaceRunsAux cls rep b s ++ [c] := by
  induction s generalizing b with
  | nil => simp [replaceRunsAux, hc]
  | cons d ds ih =>
    by_cases h : cls d <;> cases b <;> simp [replaceRunsAux, h, ih]

theorem replaceRunsAux_mem (cls : Char → Bool) (rep : Str) (b : Bool) (s : Str) (x : Char)
    (hx : x ∈ replaceRunsAux cls rep b s) : x ∈ rep ∨ (x ∈ s ∧ cls x = false) := by
  induction s generalizing b with
  | nil => simp [replaceRunsAux] at hx
  | cons d ds ih =>
    by_cases h : cls d <;> cases b <;> simp [replaceRunsAux, h] at hx
    · rcases hx with hx | hx
      · exact Or.inl hx
      · rcases ih _ hx with h1 | h1
        · exact Or.inl h1
        · exact Or.inr ⟨List.mem_cons_of_mem _ h1.1, h1.2⟩
    · rcases ih _ hx with h1 | h1
      · exact Or.inl h1
      · exact Or.inr ⟨List.mem_cons_of_mem _ h1.1, h1.2⟩
    all_goals
      rcases hx with hx | hx
      · subst hx
        exact Or.inr ⟨List.mem_cons_self _ _, by simpa using h⟩
      · rcases ih _ hx with h1 | h1
        · exact Or.inl h1
        · exact Or.inr ⟨List.mem_cons_of_mem _ h1.1, h1.2⟩

/-- Collapsing runs to one code point of the class is stable under a second pass. -/
theorem replaceRunsAux_idem (cls : Char → Bool) (r : Char) (hr : cls r = true) (s : Str) :
    (∀ b, replaceRunsAux cls [r] b (replaceRunsAux cls [r] true s)
        = replaceRunsAux cls [r] true s) ∧
    replaceRunsAux cls [r] false (replaceRunsAux cls [r] false s)
        = replaceRunsAux cls [r] false s := by
  induction s with
  | nil => simp [replaceRunsAux]
  | cons c cs ih =>
    by_cases h : cls c
    · refine ⟨fun b => ?_, ?_⟩
      · simpa [replaceRunsAux, h] using ih.1 b
      · simp [replaceRunsAux, h, hr, ih.1 true]
    · refine ⟨fun b => ?_, ?_⟩
      · cases b <;> simp [replaceRunsAux, h, ih.2]
      · simp [replaceRunsAux, h, ih.2]

theorem replaceRunsAux_head (cls : Char → Bool) (rep : Str) (b : Bool) (c : Char) (s : Str)
    (hc : cls c = false) :
    replaceRunsAux cls rep b (c :: s) = c :: replaceRunsAux cls rep false s := by
  cases b <;> simp [replaceRunsAux, hc]

theorem isReSpace_isSpace (c : Char) (h : isReSpace c = true) : isSpace c = true := by
  simp only [isReSpace, Bool.or_eq_true, decide_eq_true_eq] at h
  simp only [isSpace, Bool.or_eq_true, decide_eq_true_eq]
  tauto

/-- A string is trimmed when it neither starts nor ends with white space. -/
theorem TrimSpace_eq_self_iff (s : Str) :
    TrimSpace s = s ↔
      (∀ h : s ≠ [], isSpace (s.head h) = false) ∧
      (∀ h : s ≠ [], isSpace (s.getLast h) = false) := by
  unfold TrimSpace
  constructor
  · intro h
    have hpre : List.rdropWhile isSpace (List.dropWhile isSpace s) <+: List.dropWhile isSpace s :=
      List.rdropWhile_prefix _ _
    have hsuf : List.dropWhile isSpace s <:+ s := List.dropWhile_suffix _
    rw [h] at hpre
    have hlen1 := hpre.length_le
    have hlen2 := hsuf.length_le
    have hd : List.dropWhile isSpace s = s := hsuf.eq_of_length (le_antisymm hlen2 hlen1)
    rw [hd] at h
    constructor
    · intro hne
      have := List.dropWhile_eq_self_iff.mp hd (List.length_pos.mpr hne)
      simpa [List.head_eq_getElem] using this
    · intro hne
      have := List.rdropWhile_eq_self_iff.mp h hne
      simpa using this
  · rintro ⟨h1, h2⟩
    have hd : List.dropWhile isSpace s = s := by
      apply List.dropWhile_eq_self_iff.mpr
      intro hl
      have := h1 (List.length_pos.mp hl)
      simpa [List.head_eq_getElem] using this
    rw [hd]
    apply List.rdropWhile_eq_self_iff.mpr
    intro hne
    simpa using h2 hne

theorem TrimSpace_head (s : Str) (h : TrimSpace s ≠ []) :
    isSpace ((TrimSpace s).head h) = false := by
  have hpre : TrimSpace s <+: List.dropWhile isSpace s := List.rdropWhile_prefix _ _
  obtain ⟨t, ht⟩ := hpre
  have hne : List.dropWhile isSpace s ≠ [] := by
    intro h0
    rw [h0] at ht
    exact h (List.append_eq_nil.mp ht).1
  have h1 := List.head_dropWhile_not isSpace s hne
  have h2 : ∀ (d : Str) (hd : d ≠ []), TrimSpace s ++ t = d →
      d.head hd = (TrimSpace s).head h := by
    intro d hd e
    subst e
    exact List.head_append_of_ne_nil h
  rw [← h2 _ hne ht]
  simpa using h1

theorem TrimSpace_getLast (s : Str) (h : TrimSpace s ≠ []) :
    isSpace ((TrimSpace s).getLast h) = false := by
  have := List.rdropWhile_last_not isSpace (List.dropWhile isSpace s) h
  simpa [TrimSpace] using this

theorem TrimSpace_idem (s : Str) : TrimSpace (TrimSpace s) = TrimSpace s :=
  (TrimSpace_eq_self_iff _).mpr ⟨TrimSpace_head s, TrimSpace_getLast s⟩

theorem TrimSpace_nil : TrimSpace [] = [] := rfl

theorem TrimSpace_mem (s : Str) (c : Char) (h : c ∈ TrimSpace s) : c ∈ s :=
  ( List.dropWhile_suffix isSpace).subset (( List.rdropWhile_prefix isSpace _).subset h)

/-! ## The formatting sanitizer -/

theorem isReSpace_false_of_isSpace_false (c : Char) (h : isSpace c = false) :
    isReSpace c = false := by
  cases hc : isReSpace c with
  | false => rfl
  | true => rw [isReSpace_isSpace c hc] at h; exact absurd h (by simp)

theorem cleanFormatting_mem (s : Str) (c : Char) (h : c ∈ cleanFormatting s) :
    (c = ' ' ∨ isReSpace c = false) ∧ isStar c = false ∧ isMark c = false := by
  unfold cleanFormatting replaceRuns at h
  rcases replaceRunsAux_mem _ _ _ _ _ h with h1 | h1
  · have : c = ' ' := by simpa using h1
    subst this
    exact ⟨Or.inl rfl, by decide, by decide⟩
  · have h2 := TrimSpace_mem _ _ h1.1
    rw [replaceRunsAux_nil_rep, replaceRunsAux_nil_rep] at h2
    simp only [List.mem_filter, Bool.not_eq_true'] at h2
    exact ⟨Or.inr h1.2, h2.1.2, h2.2⟩

theorem cleanFormatting_eq (s : Str) :
    cleanFormatting s = replaceRunsAux isReSpace [' '] false
      (TrimSpace (replaceRunsAux isMark [] false (replaceRunsAux isStar [] false s))) := rfl

theorem collapse_trim_head (u : Str) (c : Char)
    (h : c ∈ (replaceRunsAux isReSpace [' '] false (TrimSpace u)).head?) :
    isSpace c = false := by
  generalize ht : TrimSpace u = t at h
  cases t with
  | nil => simp [replaceRunsAux] at h
  | cons d ds =>
    have hd : isSpace d = false := by
      have := TrimSpace_head u (by rw [ht]; simp)
      simpa [ht] using this
    rw [replaceRunsAux_head _ _ _ _ _ (isReSpace_false_of_isSpace_false d hd)] at h
    simp at h
    rw [← h]; exact hd

theorem collapse_trim_getLast (u : Str) (c : Char)
    (h : c ∈ (replaceRunsAux isReSpace [' '] false (TrimSpace u)).getLast?) :
    isSpace c = false := by
  generalize ht : TrimSpace u = t at h
  rcases List.eq_nil_or_concat t with h0 | ⟨ds, d, hd⟩
  · subst h0; simp [replaceRunsAux] at h
  · rw [List.concat_eq_append] at hd
    have hsp : isSpace d = false := by
      have := TrimSpace_getLast u (by rw [ht, hd]; simp)
      simpa [ht, hd] using this
    rw [hd, replaceRunsAux_append_not _ _ _ _ _ (isReSpace_false_of_isSpace_false d hsp)] at h
    simp at h
    rw [← h]; exact hsp

theorem cleanFormatting_head (s : Str) (c : Char) (h : c ∈ (cleanFormatting s).head?) :
    isSpace c = false :=
  collapse_trim_head _ c (by rw [cleanFormatting_eq] at h; exact h)

theorem cleanFormatting_getLast (s : Str) (c : Char)
    (h : c ∈ (cleanFormatting s).getLast?) : isSpace c = false :=
  collapse_trim_getLast _ c (by rw [cleanFormatting_eq] at h; exact h)

theorem cleanFormatting_trimmed (s : Str) : TrimSpace (cleanFormatting s) = cleanFormatting s := by
  rw [TrimSpace_eq_self_iff]
  constructor
  · intro h
    apply cleanFormatting_head s
    rw [List.head?_eq_head h]
    exact rfl
  · intro h
    apply cleanFormatting_getLast s
    rw [List.getLast?_eq_getLast _ h]
    exact rfl

/-- After a pass that collapses runs to one space, no two spaces are adjacent. -/
theorem replaceRunsAux_chain (cls : Char → Bool) (r : Char) (hr : cls r = true) (b : Bool)
    (s : Str) :
    List.Chain' (fun x y => ¬(x = r ∧ y = r)) (replaceRunsAux cls [r] b s) ∧
    (b = true → ∀ c ∈ (replaceRunsAux cls [r] b s).head?, c ≠ r) := by
  induction s generalizing b with
  | nil => simp [replaceRunsAux]
  | cons c cs ih =>
    by_cases h : cls c
    · cases b
      · simp only [replaceRunsAux, h, if_true, Bool.false_eq_true, if_false,
          List.singleton_append]
        refine ⟨?_, by simp⟩
        rw [List.chain'_cons']
        refine ⟨?_, (ih true).1⟩
        intro y hy hxy
        exact (ih true).2 rfl y hy hxy.2
      · simpa [replaceRunsAux, h] using ih true
    · have hne : c ≠ r := by
        intro e; subst e; exact h hr
      have hstep : replaceRunsAux cls [r] b (c :: cs) = c :: replaceRunsAux cls [r] false cs :=
        replaceRunsAux_head _ _ _ _ _ (by simpa using h)
      rw [hstep]
      refine ⟨?_, fun _ => by simpa using hne⟩
      rw [List.chain'_cons']
      exact ⟨fun y _ hxy => hne hxy.1, (ih false).1⟩

theorem CleanFormatting_idempotent_aux (s : Str) :
    cleanFormatting (cleanFormatting s) = cleanFormatting s := by
  have hmem := cleanFormatting_mem s
  have h1 : replaceRuns isStar [] (cleanFormatting s) = cleanFormatting s := by
    unfold replaceRuns
    rw [replaceRunsAux_nil_rep, List.filter_eq_self]
    intro c hc
    simp [(hmem c hc).2.1]
  have h2 : replaceRuns isMark [] (cleanFormatting s) = cleanFormatting s := by
    unfold replaceRuns
    rw [replaceRunsAux_nil_rep, List.filter_eq_self]
    intro c hc
    simp [(hmem c hc).2.2]
  have h3 : replaceRuns isReSpace [' '] (cleanFormatting s) = cleanFormatting s := by
    conv_lhs => rw [cleanFormatting]
    conv_rhs => rw [cleanFormatting]
    exact (replaceRunsAux_idem isReSpace ' ' (by decide) _).2
  conv_lhs => rw [cleanFormatting]
  simp only [h1, h2, cleanFormatting_trimmed, h3]

theorem markup_of_class (c : Char) (h1 : isStar c = false) (h2 : isMark c = false) :
    c ≠ '*' ∧ c ≠ '_' ∧ c ≠ '~' ∧ c ≠ backtick ∧ c ≠ '#' := by
  simp only [isStar, decide_eq_false_iff_not] at h1
  simp only [isMark, Bool.or_eq_false_iff, decide_eq_false_iff_not] at h2
  refine ⟨h1, h2.1.1.1, h2.1.1.2, ?_, h2.2⟩
  intro e
  subst e
  exact h2.1.2 (by decide)

/-- C5: the formatting sanitizer is idempotent: sanitizing a sanitized string gives
that string back. -/
theorem cleanFormatting_idempotent (s : Str) :
    cleanFormatting (cleanFormatting s) = cleanFormatting s :=
  CleanFormatting_idempotent_aux s

/-- C6: a sanitized string contains none of `*`, `_`, `~`, backtick, `#`; it neither
starts nor ends with white space; it contains no tab, newline, form feed or carriage
return (the only code point of the class `\s` left in it is the space); and it has no
two consecutive spaces. -/
theorem cleanFormatting_output (s : Str) :
    (∀ c ∈ cleanFormatting s, c ≠ '*' ∧ c ≠ '_' ∧ c ≠ '~' ∧ c ≠ backtick ∧ c ≠ '#') ∧
    (∀ c ∈ (cleanFormatting s).head?, isSpace c = false) ∧
    (∀ c ∈ (cleanFormatting s).getLast?, isSpace c = false) ∧
    (∀ c ∈ cleanFormatting s, c ≠ '\t' ∧ c ≠ '\n' ∧ c ≠ formFeed ∧ c ≠ '\r') ∧
    (∀ c ∈ cleanFormatting s, isReSpace c = true → c = ' ') ∧
    ¬ [' ', ' '] <:+: cleanFormatting s := by
  refine ⟨?_, cleanFormatting_head s, cleanFormatting_getLast s, ?_, ?_, ?_⟩
  · intro c hc
    have h := cleanFormatting_mem s c hc
    exact markup_of_class c h.2.1 h.2.2
  · intro c hc
    rcases (cleanFormatting_mem s c hc).1 with h | h
    · subst h; decide
    · refine ⟨?_, ?_, ?_, ?_⟩ <;> (intro e; subst e; revert h; decide)
  · intro c hc hs
    rcases (cleanFormatting_mem s c hc).1 with h | h
    · exact h
    · rw [h] at hs; exact absurd hs (by simp)
  · intro hinf
    have hch := (replaceRunsAux_chain isReSpace ' ' (by decide) false
      (TrimSpace (replaceRunsAux isMark [] false (replaceRunsAux isStar [] false s)))).1
    rw [← cleanFormatting_eq] at hch
    have := List.Chain'.infix hch hinf
    simp at this

/-! ## Substring search and splitting -/

theorem Index_eq_none_iff (s sub : Str) : Index s sub = none ↔ ¬ sub <:+: s := by
  induction s with
  | nil =>
    cases sub with
    | nil => simp [Index]
    | cons a as => simp [Index]
  | cons c cs ih =>
    unfold Index
    by_cases h : sub.isPrefixOf (c :: cs) = true
    · rw [if_pos h]
      have hp : sub <+: c :: cs := List.isPrefixOf_iff_prefix.mp h
      simp [hp.isInfix]
    · rw [if_neg h]
      have hp : ¬ sub <+: c :: cs := fun hp => h ( List.isPrefixOf_iff_prefix.mpr hp)
      rw [Option.map_eq_none', ih, List.infix_cons_iff]
      tauto

theorem Index_some_spec (s sub : Str) (m : Nat) (h : Index s sub = some m) :
    s = s.take m ++ sub ++ s.drop (m + sub.length) ∧
    ∀ a b, s = a ++ sub ++ b → m ≤ a.length := by
  induction s generalizing m with
  | nil =>
    cases sub with
    | nil =>
      simp [Index] at h
      subst h
      simp
    | cons a as => simp [Index] at h
  | cons c cs ih =>
    unfold Index at h
    by_cases hp : sub.isPrefixOf (c :: cs) = true
    · rw [if_pos hp] at h
      have hm : m = 0 := by simpa using h.symm
      subst hm
      obtain ⟨t, ht⟩ := List.isPrefixOf_iff_prefix.mp hp
      refine ⟨?_, fun _ _ _ => Nat.zero_le _⟩
      rw [← ht]
      simp
    · rw [if_neg hp] at h
      rw [Option.map_eq_some'] at h
      obtain ⟨m', hm', rfl⟩ := h
      obtain ⟨h1, h2⟩ := ih m' hm'
      constructor
      · have e : m' + 1 + sub.length = (m' + sub.length) + 1 := by omega
        rw [e, List.take_succ_cons, List.drop_succ_cons]
        simp only [List.cons_append]
        rw [← h1]
      · intro a b hab
        cases a with
        | nil =>
          exfalso
          apply hp
          apply List.isPrefixOf_iff_prefix.mpr
          exact ⟨b, by simpa using hab.symm⟩
        | cons x xs =>
          simp only [List.cons_append, List.cons.injEq] at hab
          have := h2 xs b hab.2
          simp only [List.length_cons]
          omega

theorem Index_some_le_length (s sub : Str) (m : Nat) (h : Index s sub = some m) :
    m ≤ s.length := by
  induction s generalizing m with
  | nil =>
    unfold Index at h
    split at h
    · simp at h; omega
    · exact absurd h (by simp)
  | cons c cs ih =>
    unfold Index at h
    split at h
    · simp at h; omega
    · rw [Option.map_eq_some'] at h
      obtain ⟨m', hm', rfl⟩ := h
      have := ih m' hm'
      simp only [List.length_cons]
      omega

theorem Index_some_le (s sub : Str) (m : Nat) (h : Index s sub = some m) :
    m + sub.length ≤ s.length := by
  have h0 := Index_some_le_length s sub m h
  have h1 := (Index_some_spec s sub m h).1
  have h2 := congrArg List.length h1
  simp only [List.length_append, List.length_take, List.length_drop] at h2
  omega

/-- The first occurrence: if `a ++ sub ++ b` has no decomposition with a shorter left
part, the search finds offset `a.length`. -/
theorem Index_of_first (a sub b : Str)
    (hfirst : ∀ a' b', a ++ sub ++ b = a' ++ sub ++ b' → a.length ≤ a'.length) :
    Index (a ++ sub ++ b) sub = some a.length := by
  cases hI : Index (a ++ sub ++ b) sub with
  | none =>
    exfalso
    exact (Index_eq_none_iff _ _).mp hI ⟨a, b, rfl⟩
  | some m =>
    obtain ⟨h1, h2⟩ := Index_some_spec _ _ _ hI
    have hle : m ≤ a.length := h2 a b rfl
    have hge : a.length ≤ m := by
      have := hfirst _ _ h1
      simp only [List.length_take] at this
      omega
    rw [le_antisymm hle hge]

theorem splitLoop_none (sep : Str) (fuel : Nat) (s : Str) (h : ¬ sep <:+: s) :
    splitLoop sep fuel s = [s] := by
  cases fuel with
  | zero => rfl
  | succ n => simp [splitLoop, (Index_eq_none_iff s sep).mpr h]

theorem Split_none (s sep : Str) (h : ¬ sep <:+: s) : Split s sep = [s] :=
  splitLoop_none sep _ s h

/-- More fuel than the length of the text does not change the result of the loop of
`Split` (for a non-empty separator). -/
theorem splitLoop_fuel (sep : Str) (hsep : sep ≠ []) (fuel : Nat) (s : Str)
    (h : s.length ≤ fuel) : splitLoop sep fuel s = splitLoop sep s.length s := by
  induction fuel using Nat.strong_induction_on generalizing s with
  | _ fuel ih =>
    cases hI : Index s sep with
    | none =>
      have hn := (Index_eq_none_iff s sep).mp hI
      rw [splitLoop_none sep _ s hn, splitLoop_none sep _ s hn]
    | some m =>
      have hle := Index_some_le s sep m hI
      have hpos : 0 < sep.length := List.length_pos.mpr hsep
      cases fuel with
      | zero => omega
      | succ n =>
        cases hs : s.length with
        | zero => omega
        | succ k =>
          simp only [splitLoop, hI]
          have hd : (s.drop (m + sep.length)).length ≤ k := by
            simp only [List.length_drop]; omega
          rw [ih n (Nat.lt_succ_self n) _ (by omega), ih k (by omega) _ hd]

theorem Split_cut (a sep b : Str) (hsep : sep ≠ [])
    (hfirst : ∀ a' b', a ++ sep ++ b = a' ++ sep ++ b' → a.length ≤ a'.length) :
    Split (a ++ sep ++ b) sep = a :: Split b sep := by
  have hpos : 0 < sep.length := List.length_pos.mpr hsep
  unfold Split
  have hlen : (a ++ sep ++ b).length = (a.length + sep.length - 1 + b.length) + 1 := by
    simp only [List.length_append]; omega
  rw [hlen]
  simp only [splitLoop, Index_of_first a sep b hfirst]
  have e1 : List.take a.length (a ++ sep ++ b) = a := by
    rw [List.append_assoc, List.take_left']
    rfl
  have e2 : List.drop (a.length + sep.length) (a ++ sep ++ b) = b := by
    have : a.length + sep.length = (a ++ sep).length := by simp
    rw [this, List.drop_left']
    rfl
  rw [e1, e2]
  congr 1
  exact splitLoop_fuel sep hsep _ b (by omega)

/-! ## The batch reply parser -/

theorem flush_ok (expectedCount : Nat) (st : ParseState) (h : st.ok expectedCount) :
    (st.flush expectedCount).length = expectedCount ∧
    ∀ r ∈ st.flush expectedCount, TrimSpace r = r := by
  unfold ParseState.flush
  split
  · refine ⟨by simpa using h.1, ?_⟩
    intro r hr
    rcases List.mem_or_eq_of_mem_set hr with h1 | h1
    · exact h.2 r h1
    · rw [h1]; exact TrimSpace_idem _
  · exact h

theorem parseLine_ok (expectedCount : Nat) (st : ParseState) (line : Str)
    (h : st.ok expectedCount) : (parseLine expectedCount st line).ok expectedCount := by
  unfold parseLine
  split
  · exact flush_ok expectedCount st h
  · split
    · exact h
    · exact h

theorem foldl_parseLine_ok (expectedCount : Nat) (lines : List Str) (st : ParseState)
    (h : st.ok expectedCount) :
    (lines.foldl (parseLine expectedCount) st).ok expectedCount := by
  induction lines generalizing st with
  | nil => exact h
  | cons l ls ih => exact ih _ (parseLine_ok expectedCount st l h)

theorem needsAttention_ne_nil : needsAttention ≠ [] := by decide

theorem needsAttention_trimmed : TrimSpace needsAttention = needsAttention := by decide

theorem parseInit_ok (expectedCount : Nat) : (parseInit expectedCount).ok expectedCount :=
  ⟨by simp [parseInit], by
    intro r hr
    rw [List.eq_of_mem_replicate hr]
    rfl⟩

theorem parseBatchResponse_length (content : Str) (expectedCount : Nat) :
    (parseBatchResponse content expectedCount).length = expectedCount := by
  unfold parseBatchResponse
  simp only [List.length_map]
  exact (flush_ok expectedCount _ (foldl_parseLine_ok expectedCount _ _
    (parseInit_ok expectedCount))).1

theorem parseBatchResponse_slot (content : Str) (expectedCount : Nat) (r : Str)
    (hr : r ∈ parseBatchResponse content expectedCount) :
    r ≠ [] ∧ TrimSpace r = r := by
  unfold parseBatchResponse at hr
  simp only [List.mem_map] at hr
  obtain ⟨x, hx, hxr⟩ := hr
  have hok := (flush_ok expectedCount _ (foldl_parseLine_ok expectedCount
    (Split content ['\n']) _ (parseInit_ok expectedCount))).2 x hx
  by_cases h : x = []
  · rw [if_pos h] at hxr
    rw [← hxr]
    exact ⟨needsAttention_ne_nil, needsAttention_trimmed⟩
  · rw [if_neg h] at hxr
    rw [← hxr]
    exact ⟨h, hok⟩

/-- C2: for every reply text and every expected count `N`, the parser returns exactly
`N` slots and every slot is a non-empty string; no slot starts or ends with white
space, so a slot that got no text, or only white space, holds the placeholder. -/
theorem parseBatchResponse_total (content : Str) (N : Nat) :
    (parseBatchResponse content N).length = N ∧
    (∀ r ∈ parseBatchResponse content N, r ≠ []) ∧
    (∀ r ∈ parseBatchResponse content N, TrimSpace r = r) :=
  ⟨parseBatchResponse_length content N,
   fun r hr => (parseBatchResponse_slot content N r hr).1,
   fun r hr => (parseBatchResponse_slot content N r hr).2⟩

/-! ## Stripping reasoning blocks -/

theorem openTag_length : openTag.length = 7 := rfl

theorem closeTag_length : closeTag.length = 8 := rfl

/-- A closing tag cannot start inside an opening tag. -/
theorem Index_close_after_open (rest : Str) :
    Index (openTag ++ rest) closeTag = (Index rest closeTag).map (· + 7) := by
  have e : openTag ++ rest = '<' :: 't' :: 'h' :: 'i' :: 'n' :: 'k' :: '>' :: rest := rfl
  rw [e]
  simp [Index, closeTag, List.isPrefixOf]

theorem removeThinkStep_shorter (text next : Str) (h : removeThinkStep text = .inr next) :
    next.length < text.length := by
  unfold removeThinkStep at h
  split at h
  · exact absurd h (by simp)
  · rename_i startIdx hs
    split at h
    · exact absurd h (by simp)
    · rename_i endIdx he
      have h1 := Index_some_le _ _ _ hs
      have h2 := Index_some_le _ _ _ he
      rw [openTag_length] at h1
      rw [closeTag_length, List.length_drop] at h2
      simp only [Sum.inr.injEq] at h
      rw [← h]
      simp only [List.length_append, List.length_take, List.length_drop, closeTag_length]
      omega

theorem take_Index_free (s sub : Str) (m : Nat) (hsub : sub ≠ [])
    (h : Index s sub = some m) : ¬ sub <:+: s.take m := by
  rintro ⟨x, y, hxy⟩
  have hpos : 0 < sub.length := List.length_pos.mpr hsub
  have hmin := (Index_some_spec s sub m h).2 x (y ++ s.drop m) (by
    rw [← List.append_assoc, hxy, List.take_append_drop])
  have hlen := congrArg List.length hxy
  simp only [List.length_append, List.length_take] at hlen
  omega

theorem removeThinkStep_inl (text out : Str) (h : removeThinkStep text = .inl out) :
    ¬ openTag <:+: out := by
  unfold removeThinkStep at h
  split at h
  · rename_i hs
    simp only [Sum.inl.injEq] at h
    rw [← h]
    exact (Index_eq_none_iff _ _).mp hs
  · rename_i startIdx hs
    split at h
    · simp only [Sum.inl.injEq] at h
      rw [← h]
      exact take_Index_free _ _ _ (by decide) hs
    · exact absurd h (by simp)

theorem removeThinkLoop_no_tag (fuel : Nat) (text : Str) (h : text.length < fuel) :
    ¬ openTag <:+: removeThinkLoop fuel text := by
  induction fuel generalizing text with
  | zero => omega
  | succ n ih =>
    unfold removeThinkLoop
    cases hstep : removeThinkStep text with
    | inl out => exact removeThinkStep_inl text out hstep
    | inr next =>
      have := removeThinkStep_shorter text next hstep
      exact ih next (by omega)

theorem removeThinkLoop_fuel (fuel : Nat) (text : Str) (h : text.length < fuel) :
    removeThinkLoop fuel text = removeThinkLoop (text.length + 1) text := by
  induction fuel using Nat.strong_induction_on generalizing text with
  | _ fuel ih =>
    cases fuel with
    | zero => omega
    | succ n =>
      simp only [removeThinkLoop]
      cases hstep : removeThinkStep text with
      | inl out => rfl
      | inr next =>
        have hlt := removeThinkStep_shorter text next hstep
        simp only
        rw [ih n (Nat.lt_succ_self n) next (by omega),
          ih text.length (by omega) next hlt]

theorem TrimSpace_sub (s : Str) : TrimSpace s <:+: s :=
  ( List.rdropWhile_prefix isSpace _).isInfix.trans ( List.dropWhile_suffix isSpace).isInfix

theorem removeThinkStep_unterminated (pre rest : Str)
    (hfirst : ∀ a b, pre ++ openTag ++ rest = a ++ openTag ++ b → pre.length ≤ a.length)
    (hclose : ¬ closeTag <:+: rest) :
    removeThinkStep (pre ++ openTag ++ rest) = .inl pre := by
  unfold removeThinkStep
  rw [Index_of_first pre openTag rest hfirst]
  have e : List.drop pre.length (pre ++ openTag ++ rest) = openTag ++ rest := by
    rw [List.append_assoc, List.drop_left']
    rfl
  have e2 : List.take pre.length (pre ++ openTag ++ rest) = pre := by
    rw [List.append_assoc, List.take_left']
    rfl
  simp only [e, Index_close_after_open, (Index_eq_none_iff _ _).mpr hclose, Option.map_none', e2]

theorem removeThinkStep_block (pre mid post : Str)
    (hfirst : ∀ a b, pre ++ openTag ++ mid ++ closeTag ++ post = a ++ openTag ++ b →
      pre.length ≤ a.length)
    (hclose : ∀ a b, mid ++ closeTag ++ post = a ++ closeTag ++ b → mid.length ≤ a.length) :
    removeThinkStep (pre ++ openTag ++ mid ++ closeTag ++ post) = .inr (pre ++ post) := by
  have e0 : pre ++ openTag ++ mid ++ closeTag ++ post
      = pre ++ openTag ++ (mid ++ closeTag ++ post) := by simp
  unfold removeThinkStep
  rw [e0] at hfirst ⊢
  rw [Index_of_first pre openTag _ hfirst]
  have e : List.drop pre.length (pre ++ openTag ++ (mid ++ closeTag ++ post))
      = openTag ++ (mid ++ closeTag ++ post) := by
    rw [List.append_assoc, List.drop_left']
    rfl
  have e2 : List.take pre.length (pre ++ openTag ++ (mid ++ closeTag ++ post)) = pre := by
    rw [List.append_assoc, List.take_left']
    rfl
  have e3 : List.drop (mid.length + 7 + (pre.length + closeTag.length))
      (pre ++ openTag ++ (mid ++ closeTag ++ post)) = post := by
    have : mid.length + 7 + (pre.length + closeTag.length)
        = (pre ++ openTag ++ mid ++ closeTag).length := by
      simp only [List.length_append, openTag_length]; omega
    rw [this, ← e0, List.drop_left']
    rfl
  simp only [e, Index_close_after_open, Index_of_first mid closeTag post hclose,
    Option.map_some', e2, e3]

/-- C4: `removeThinkTags` terminates (its loop has broken after at most
`text.length + 1` rounds: more rounds give the same text) and its result contains no
opening tag. A text without opening tag is returned trimmed and otherwise unchanged;
when the first opening tag has no closing tag after it, everything from that tag to
the end is removed; when it has one, the block from the opening tag to the first
closing tag after it is removed and the stripping goes on with the rest. -/
theorem removeThinkTags_strips (text : Str) :
    (∀ fuel, text.length < fuel → TrimSpace (removeThinkLoop fuel text) = removeThinkTags text) ∧
    ¬ openTag <:+: removeThinkTags text ∧
    (¬ openTag <:+: text → removeThinkTags text = TrimSpace text) ∧
    (∀ pre rest, text = pre ++ openTag ++ rest →
      (∀ a b, text = a ++ openTag ++ b → pre.length ≤ a.length) →
      ¬ closeTag <:+: rest → removeThinkTags text = TrimSpace pre) ∧
    (∀ pre mid post, text = pre ++ openTag ++ mid ++ closeTag ++ post →
      (∀ a b, text = a ++ openTag ++ b → pre.length ≤ a.length) →
      (∀ a b, mid ++ closeTag ++ post = a ++ closeTag ++ b → mid.length ≤ a.length) →
      removeThinkTags text = removeThinkTags (pre ++ post)) := by
  refine ⟨?_, ?_, ?_, ?_, ?_⟩
  · intro fuel h
    unfold removeThinkTags
    rw [removeThinkLoop_fuel fuel text h]
  · intro h
    exact removeThinkLoop_no_tag (text.length + 1) text (Nat.lt_succ_self _)
      (h.trans (TrimSpace_sub _))
  · intro h
    unfold removeThinkTags
    simp only [removeThinkLoop, removeThinkStep, (Index_eq_none_iff _ _).mpr h]
  · intro pre rest e hfirst hclose
    subst e
    unfold removeThinkTags
    simp only [removeThinkLoop, removeThinkStep_unterminated pre rest hfirst hclose]
  · intro pre mid post e hfirst hclose
    subst e
    have hstep := removeThinkStep_block pre mid post hfirst hclose
    have hlt := removeThinkStep_shorter _ _ hstep
    have e : removeThinkLoop ((pre ++ openTag ++ mid ++ closeTag ++ post).length + 1)
        (pre ++ openTag ++ mid ++ closeTag ++ post)
        = removeThinkLoop ((pre ++ post).length + 1) (pre ++ post) := by
      simp only [removeThinkLoop, hstep]
      exact removeThinkLoop_fuel _ (pre ++ post) hlt
    show TrimSpace _ = TrimSpace _
    rw [e]

/-! ## Decimal numerals -/

theorem digitChar_props (k : Nat) (h : k < 10) :
    Nat.digitChar k ≠ '.' ∧ isSpace (Nat.digitChar k) = false ∧
    digitVal (Nat.digitChar k) = k := by
  interval_cases k <;> decide

theorem digitChar_isDigit (k : Nat) (h : k < 10) : (Nat.digitChar k).isDigit = true := by
  interval_cases k <;> decide

theorem toDigitsCore_append (fuel n : Nat) (ds : Str) :
    Nat.toDigitsCore 10 fuel n ds = Nat.toDigitsCore 10 fuel n [] ++ ds := by
  induction fuel generalizing n ds with
  | zero => rfl
  | succ f ih =>
    simp only [Nat.toDigitsCore]
    split
    · rfl
    · rw [ih (n / 10) (Nat.digitChar (n % 10) :: ds), ih (n / 10) [Nat.digitChar (n % 10)]]
      simp

theorem digitsVal_concat (l : Str) (c : Char) :
    digitsVal (l ++ [c]) = 10 * digitsVal l + digitVal c := by
  simp [digitsVal, List.foldl_append]

theorem toDigitsCore_val (fuel n : Nat) (h : n < fuel) :
    digitsVal (Nat.toDigitsCore 10 fuel n []) = n := by
  induction fuel generalizing n with
  | zero => omega
  | succ f ih =>
    have hd := (digitChar_props (n % 10) (Nat.mod_lt _ (by decide))).2.2
    simp only [Nat.toDigitsCore]
    split
    · rename_i h0
      have : digitsVal [Nat.digitChar (n % 10)] = digitVal (Nat.digitChar (n % 10)) := by
        simp [digitsVal]
      rw [this, hd]
      omega
    · rename_i h0
      rw [toDigitsCore_append, digitsVal_concat, hd, ih (n / 10) (by omega)]
      omega

theorem toDigitsCore_forall (P : Char → Prop) (hP : ∀ k, k < 10 → P (Nat.digitChar k))
    (fuel n : Nat) (c : Char) (hc : c ∈ Nat.toDigitsCore 10 fuel n []) : P c := by
  induction fuel generalizing n with
  | zero => simp [Nat.toDigitsCore] at hc
  | succ f ih =>
    have hd := hP (n % 10) (Nat.mod_lt _ (by decide))
    simp only [Nat.toDigitsCore] at hc
    split at hc
    · simp only [List.mem_singleton] at hc
      rw [hc]
      exact hd
    · rw [toDigitsCore_append] at hc
      simp only [List.mem_append, List.mem_singleton] at hc
      rcases hc with hc | hc
      · exact ih _ hc
      · rw [hc]
        exact hd

theorem fmtInt_isDigit (n : Nat) (c : Char) (hc : c ∈ fmtInt n) : c.isDigit = true :=
  toDigitsCore_forall (fun c => c.isDigit = true) digitChar_isDigit _ _ c hc

theorem fmtInt_val (n : Nat) : digitsVal (fmtInt n) = n :=
  toDigitsCore_val (n + 1) n (Nat.lt_succ_self n)

theorem fmtInt_injective (i k : Nat) (h : fmtInt i = fmtInt k) : i = k := by
  rw [← fmtInt_val i, ← fmtInt_val k, h]

theorem fmtInt_mem (n : Nat) (c : Char) (hc : c ∈ fmtInt n) :
    c ≠ '.' ∧ isSpace c = false :=
  toDigitsCore_forall (fun c => c ≠ '.' ∧ isSpace c = false)
    (fun k hk => ⟨(digitChar_props k hk).1, (digitChar_props k hk).2.1⟩) _ _ c hc

theorem fmtInt_ne_nil (n : Nat) : fmtInt n ≠ [] := by
  unfold fmtInt Nat.toDigits
  simp only [Nat.toDigitsCore]
  split
  · simp
  · rw [toDigitsCore_append]
    simp

/-- Two strings that agree up to a first occurrence of `x` have the same text before it. -/
theorem eq_of_append_cons (x : Char) (a b u v : Str) (ha : x ∉ a) (hb : x ∉ b)
    (h : a ++ x :: u = b ++ x :: v) : a = b := by
  induction a generalizing b with
  | nil =>
    cases b with
    | nil => rfl
    | cons y ys =>
      simp only [List.nil_append, List.cons_append, List.cons.injEq] at h
      exact absurd (h.1 ▸ List.mem_cons_self _ _) hb
  | cons z zs ih =>
    cases b with
    | nil =>
      simp only [List.nil_append, List.cons_append, List.cons.injEq] at h
      exact absurd (h.1 ▸ List.mem_cons_self _ _) ha
    | cons y ys =>
      simp only [List.cons_append, List.cons.injEq] at h
      rw [h.1, ih ys (fun hm => ha (List.mem_cons_of_mem _ hm))
        (fun hm => hb (List.mem_cons_of_mem _ hm)) h.2]

/-- A text starts with at most one numeral followed by a dot. -/
theorem numeral_unique (s : Str) (i k : Nat) (hi : (fmtInt i ++ ['.']) <+: s)
    (hk : (fmtInt k ++ ['.']) <+: s) : i = k := by
  obtain ⟨u, hu⟩ := hi
  obtain ⟨v, hv⟩ := hk
  apply fmtInt_injective
  apply eq_of_append_cons '.' _ _ u v (fun h => (fmtInt_mem i _ h).1 rfl)
    (fun h => (fmtInt_mem k _ h).1 rfl)
  have := hu.trans hv.symm
  simpa using this

theorem matchNumber_of_opens (N : Nat) (line : Str) (n : Nat) (h1 : 1 ≤ n) (hN : n ≤ N)
    (hp : (fmtInt n ++ ['.']) <+: TrimSpace line) : matchNumber N line = some n := by
  unfold matchNumber
  rw [List.find?_range'_eq_some]
  refine ⟨?_, ?_, ?_⟩
  · exact List.isPrefixOf_iff_prefix.mpr hp
  · rw [List.mem_range'_1]; omega
  · intro j _ hjn
    rw [Bool.not_eq_true', ← Bool.not_eq_true]
    intro hj
    have := numeral_unique _ j n ( List.isPrefixOf_iff_prefix.mp hj) hp
    omega

theorem matchNumber_some (N : Nat) (line : Str) (n : Nat) (h : matchNumber N line = some n) :
    1 ≤ n ∧ n ≤ N ∧ (fmtInt n ++ ['.']) <+: TrimSpace line := by
  unfold matchNumber at h
  rw [List.find?_range'_eq_some] at h
  obtain ⟨hp, hm, _⟩ := h
  rw [List.mem_range'_1] at hm
  exact ⟨hm.1, by omega, List.isPrefixOf_iff_prefix.mp hp⟩

theorem takeWhile_append_stop (p : Char → Bool) (a : Str) (x : Char) (u : Str)
    (ha : ∀ c ∈ a, p c = true) (hx : p x = false) :
    (a ++ x :: u).takeWhile p = a := by
  induction a with
  | nil => simp [List.takeWhile, hx]
  | cons c cs ih =>
    simp only [List.cons_append, List.takeWhile_cons, ha c (List.mem_cons_self _ _), if_true]
    rw [ih (fun d hd => ha d (List.mem_cons_of_mem _ hd))]

/-- The loop over `1..N` finds the item that the pattern of the specification names. -/
theorem matchNumber_eq_specNumber (N : Nat) (line : Str) :
    matchNumber N line = specNumber N line := by
  cases hm : matchNumber N line with
  | some n =>
    obtain ⟨h1, hN, u, hu⟩ := matchNumber_some N line n hm
    have htw : (TrimSpace line).takeWhile Char.isDigit = fmtInt n := by
      rw [← hu, List.append_assoc]
      exact takeWhile_append_stop _ _ '.' u (fmtInt_isDigit n) (by decide)
    have hdrop : ((TrimSpace line).drop (fmtInt n).length).head? = some '.' := by
      rw [← hu, List.append_assoc, List.drop_left']
      · rfl
      · rfl
    unfold specNumber
    simp only [htw, fmtInt_val, hdrop, h1, hN, and_self, if_true]
  | none =>
    unfold specNumber
    simp only
    split
    · rename_i h
      obtain ⟨hdot, hnum, h1, hN⟩ := h
      have hp : (fmtInt (digitsVal ((TrimSpace line).takeWhile Char.isDigit)) ++ ['.'])
          <+: TrimSpace line := by
        rw [hnum]
        generalize hd : List.drop (List.takeWhile Char.isDigit (TrimSpace line)).length
          (TrimSpace line) = d at hdot
        cases d with
        | nil => simp at hdot
        | cons x xs =>
          simp only [List.head?_cons, Option.some.injEq] at hdot
          subst hdot
          refine ⟨xs, ?_⟩
          have := List.take_append_drop
            (List.takeWhile Char.isDigit (TrimSpace line)).length (TrimSpace line)
          rw [hd] at this
          have htk : List.take (List.takeWhile Char.isDigit (TrimSpace line)).length
              (TrimSpace line) = List.takeWhile Char.isDigit (TrimSpace line) := by
            have hpre : List.takeWhile Char.isDigit (TrimSpace line) <+: TrimSpace line :=
              List.takeWhile_prefix _
            exact ( List.prefix_iff_eq_take.mp hpre).symm
          rw [htk] at this
          simpa using this
      rw [matchNumber_of_opens N line _ h1 hN hp] at hm
      exact absurd hm (by simp)
    · rfl

/-! ## The parser against the parsing contract -/

/-- What the loop keeps of `currentIndex`: no item is open, or an item in range. -/
theorem parseLine_index (N : Nat) (st : ParseState) (line : Str)
    (h : st.currentIndex = -1 ∨ (0 ≤ st.currentIndex ∧ st.currentIndex < N)) :
    (parseLine N st line).currentIndex = -1 ∨
    (0 ≤ (parseLine N st line).currentIndex ∧ (parseLine N st line).currentIndex < N) := by
  unfold parseLine
  cases hm : matchNumber N line with
  | some n =>
    obtain ⟨h1, hN, _⟩ := matchNumber_some N line n hm
    right
    simp only
    omega
  | none =>
    simp only
    split
    · exact h
    · exact h

theorem specStore_append (slots : List Str) (xs ys : List (Nat × Str)) :
    specStore slots (xs ++ ys) = specStore (specStore slots xs) ys := by
  simp [specStore, List.foldl_append]

theorem flush_eq_store (N : Nat) (st : ParseState)
    (h : st.currentIndex = -1 ∨ (0 ≤ st.currentIndex ∧ st.currentIndex < N)) :
    st.flush N = specStore st.results (st.pending []) := by
  unfold ParseState.flush ParseState.pending
  rcases h with h | h
  · rw [if_neg (by omega), if_neg (by omega)]
    rfl
  · rw [if_pos h, if_pos h.1]
    simp [specStore]

theorem specItems_some (N : Nat) (l : Str) (ls : List Str) (n : Nat)
    (h : matchNumber N l = some n) :
    specItems N (l :: ls)
      = ([], (n, TrimSpace ((TrimSpace l).drop (fmtInt n ++ ['.']).length)
              ++ (specItems N ls).1) :: (specItems N ls).2) := by
  rw [matchNumber_eq_specNumber] at h
  rw [specItems, h]

theorem specItems_none (N : Nat) (l : Str) (ls : List Str) (h : matchNumber N l = none) :
    specItems N (l :: ls)
      = ([' '] ++ TrimSpace l ++ (specItems N ls).1, (specItems N ls).2) := by
  rw [matchNumber_eq_specNumber] at h
  rw [specItems, h]

/-- The line loop from any state against the items of the remaining lines. -/
theorem foldl_parseLine_eq_store (N : Nat) (lines : List Str) (st : ParseState)
    (h : st.currentIndex = -1 ∨ (0 ≤ st.currentIndex ∧ st.currentIndex < N)) :
    (lines.foldl (parseLine N) st).flush N
      = specStore st.results (st.pending (specItems N lines).1 ++ (specItems N lines).2) := by
  induction lines generalizing st with
  | nil =>
    simp only [List.foldl_nil, specItems, List.append_nil]
    exact flush_eq_store N st h
  | cons l ls ih =>
    rw [List.foldl_cons, ih _ (parseLine_index N st l h)]
    cases hm : matchNumber N l with
    | some n =>
      obtain ⟨h1, hN, hp⟩ := matchNumber_some N l n hm
      have hpl : parseLine N st l =
          { results := st.flush N
            currentIndex := (n : Int) - 1
            currentText := TrimSpace (TrimPrefix (TrimSpace l) (fmtInt n ++ ['.'])) } := by
        unfold parseLine
        rw [hm]
      have htp : TrimPrefix (TrimSpace l) (fmtInt n ++ ['.'])
          = (TrimSpace l).drop (fmtInt n ++ ['.']).length := by
        unfold TrimPrefix HasPrefix
        rw [if_pos ( List.isPrefixOf_iff_prefix.mpr hp)]
      rw [hpl, htp, specItems_some N l ls n hm]
      simp only
      rw [specStore_append st.results, ← flush_eq_store N st h]
      unfold ParseState.pending
      simp only
      rw [if_pos (by omega)]
      have e : ((n : Int) - 1).toNat + 1 = n := by omega
      rw [e]
      rfl
    | none =>
      rw [specItems_none N l ls hm]
      unfold parseLine
      rw [hm]
      simp only
      rcases h with h | h
      · rw [if_neg (by omega)]
        unfold ParseState.pending
        rw [if_neg (by omega), if_neg (by omega)]
      · rw [if_pos h.1]
        unfold ParseState.pending
        simp only
        rw [if_pos h.1, if_pos h.1]
        simp

theorem parseBatchResponse_eq_specParse (content : Str) (N : Nat) :
    parseBatchResponse content N = specParse content N := by
  unfold parseBatchResponse specParse
  simp only
  rw [foldl_parseLine_eq_store N _ (parseInit N) (Or.inl rfl)]
  rfl

/-- Trimming a text that is white space, then a core that neither starts nor ends
with white space, then white space, leaves the core. -/
theorem TrimSpace_sandwich (ws1 core ws2 : Str) (h1 : ∀ c ∈ ws1, isSpace c = true)
    (h2 : ∀ c ∈ ws2, isSpace c = true) (hcore : TrimSpace core = core) :
    TrimSpace (ws1 ++ core ++ ws2) = core := by
  obtain ⟨hh, hl⟩ := (TrimSpace_eq_self_iff core).mp hcore
  unfold TrimSpace
  rw [List.append_assoc, List.dropWhile_append_of_pos h1]
  cases core with
  | nil =>
    have e : List.dropWhile isSpace ([] ++ ws2) = [] := by
      rw [List.nil_append, List.dropWhile_eq_nil_iff]
      exact h2
    rw [e]
    rfl
  | cons c cs =>
    have hc : isSpace c = false := hh (by simp)
    have e : List.dropWhile isSpace (c :: cs ++ ws2) = c :: cs ++ ws2 := by
      simp [List.dropWhile, hc]
    rw [e]
    have e2 : List.rdropWhile isSpace (c :: cs ++ ws2) = List.rdropWhile isSpace (c :: cs) := by
      unfold List.rdropWhile
      rw [List.reverse_append, List.dropWhile_append_of_pos (by
        intro a ha
        exact h2 a (List.mem_reverse.mp ha))]
    rw [e2]
    apply List.rdropWhile_eq_self_iff.mpr
    intro hne
    simpa using hl hne

/-- Every text is white space, its trimmed form, white space. -/
theorem TrimSpace_decompose (t : Str) :
    ∃ ws1 ws2, t = ws1 ++ TrimSpace t ++ ws2 ∧ (∀ c ∈ ws1, isSpace c = true) ∧
      (∀ c ∈ ws2, isSpace c = true) := by
  refine ⟨t.takeWhile isSpace, (t.dropWhile isSpace).rtakeWhile isSpace, ?_, ?_, ?_⟩
  · have e : TrimSpace t ++ (t.dropWhile isSpace).rtakeWhile isSpace = t.dropWhile isSpace := by
      unfold TrimSpace List.rdropWhile List.rtakeWhile
      rw [← List.reverse_append, List.takeWhile_append_dropWhile, List.reverse_reverse]
    rw [List.append_assoc, e, List.takeWhile_append_dropWhile]
  · intro c hc
    exact List.mem_takeWhile_imp hc
  · intro c hc
    exact List.mem_rtakeWhile_imp hc

theorem fmtInt_head_not_space (k : Nat) (rest : Str) (h : fmtInt k ++ rest ≠ []) :
    isSpace ((fmtInt k ++ rest).head h) = false := by
  have hne := fmtInt_ne_nil k
  rw [List.head_append_of_ne_nil hne]
  exact (fmtInt_mem k _ (List.head_mem hne)).2

/-- A line made of a numeral, a dot, a space and a text that is not blank: its trimmed
form, and the fragment the parser keeps of it. -/
theorem numbered_line (k : Nat) (t : Str) (ht : TrimSpace t ≠ []) :
    ∃ ws1, (∀ c ∈ ws1, isSpace c = true) ∧
      TrimSpace (fmtInt k ++ ". ".toList ++ t)
        = (fmtInt k ++ ['.']) ++ (' ' :: ws1 ++ TrimSpace t) := by
  obtain ⟨ws1, ws2, ht2, hw1, hw2⟩ := TrimSpace_decompose t
  refine ⟨ws1, hw1, ?_⟩
  have hcoreTrim : TrimSpace ((fmtInt k ++ ['.']) ++ (' ' :: ws1 ++ TrimSpace t))
      = (fmtInt k ++ ['.']) ++ (' ' :: ws1 ++ TrimSpace t) := by
    rw [TrimSpace_eq_self_iff]
    constructor
    · intro hne
      have := fmtInt_head_not_space k (['.'] ++ (' ' :: ws1 ++ TrimSpace t))
        (by simp)
      simpa [List.append_assoc] using this
    · intro hne
      have hl := TrimSpace_getLast t ht
      have e : ((fmtInt k ++ ['.']) ++ (' ' :: ws1 ++ TrimSpace t)).getLast hne
          = (TrimSpace t).getLast ht := by
        have e0 : (fmtInt k ++ ['.']) ++ (' ' :: ws1 ++ TrimSpace t)
            = (fmtInt k ++ ['.'] ++ ' ' :: ws1) ++ TrimSpace t := by simp
        simp only [e0]
        exact List.getLast_append_of_ne_nil ht
      rw [e]
      exact hl
  have e : fmtInt k ++ ". ".toList ++ t
      = [] ++ ((fmtInt k ++ ['.']) ++ (' ' :: ws1 ++ TrimSpace t)) ++ ws2 := by
    conv_lhs => rw [ht2]
    simp
  rw [e]
  exact TrimSpace_sandwich [] _ ws2 (by simp) hw2 hcoreTrim

theorem numbered_line_match (N k : Nat) (t : Str) (h1 : 1 ≤ k) (hN : k ≤ N)
    (ht : TrimSpace t ≠ []) :
    matchNumber N (fmtInt k ++ ". ".toList ++ t) = some k ∧
    TrimSpace ((TrimSpace (fmtInt k ++ ". ".toList ++ t)).drop (fmtInt k ++ ['.']).length)
      = TrimSpace t := by
  obtain ⟨ws1, hw1, hl⟩ := numbered_line k t ht
  constructor
  · apply matchNumber_of_opens N _ k h1 hN
    rw [hl]
    exact List.prefix_append _ _
  · rw [hl, List.drop_left']
    · have e : ' ' :: ws1 ++ TrimSpace t = (' ' :: ws1) ++ TrimSpace t ++ [] := by simp
      rw [e]
      apply TrimSpace_sandwich _ _ [] _ (by simp) (TrimSpace_idem t)
      intro c hc
      rcases List.mem_cons.mp hc with h | h
      · rw [h]; decide
      · exact hw1 c h
    · rfl

theorem specItems_numbered (N : Nat) (t : Nat → Str) (ks : List Nat)
    (h : ∀ k ∈ ks, 1 ≤ k ∧ k ≤ N ∧ TrimSpace (t k) ≠ []) :
    specItems N (ks.map (fun k => fmtInt k ++ ". ".toList ++ t k))
      = ([], ks.map (fun k => (k, TrimSpace (t k)))) := by
  induction ks with
  | nil => rfl
  | cons k ks ih =>
    obtain ⟨h1, hN, ht⟩ := h k (List.mem_cons_self _ _)
    obtain ⟨hm, hfrag⟩ := numbered_line_match N k (t k) h1 hN ht
    rw [List.map_cons, specItems_some N _ _ k hm, hfrag,
      ih (fun j hj => h j (List.mem_cons_of_mem _ hj))]
    simp

theorem set_at_length (A B : List Str) (x y : Str) :
    (A ++ x :: B).set A.length y = A ++ y :: B := by
  induction A with
  | nil => rfl
  | cons a as ih => simp [ih]

theorem specStore_numbered (N : Nat) (T : Nat → Str) (hT : ∀ k, TrimSpace (T k) = T k)
    (m : Nat) (hm : m ≤ N) :
    specStore (List.replicate N []) ((List.range' 1 m).map (fun k => (k, T k)))
      = (List.range' 1 m).map T ++ List.replicate (N - m) [] := by
  induction m with
  | zero => simp [specStore]
  | succ m ih =>
    rw [List.range'_1_concat, List.map_append, specStore_append, ih (by omega)]
    have e : N - m = (N - (m + 1)) + 1 := by omega
    rw [e, List.replicate_succ]
    simp only [List.map_cons, List.map_nil, specStore, List.foldl_cons, List.foldl_nil,
      List.map_append, hT]
    have hl : (List.map T (List.range' 1 m)).length = 1 + m - 1 := by simp
    rw [← hl, set_at_length]
    simp

theorem intercalate_cons_cons (sep l l' : Str) (ls : List Str) :
    sep.intercalate (l :: l' :: ls) = l ++ sep ++ sep.intercalate (l' :: ls) := by
  simp [List.intercalate, List.intersperse]

theorem Split_lines (ls : List Str) (hne : ls ≠ []) (h : ∀ l ∈ ls, '\n' ∉ l) :
    Split (['\n'].intercalate ls) ['\n'] = ls := by
  induction ls with
  | nil => exact absurd rfl hne
  | cons l rest ih =>
    have hl : '\n' ∉ l := h l (List.mem_cons_self _ _)
    cases rest with
    | nil =>
      have e : ['\n'].intercalate [l] = l := by simp [List.intercalate, List.intersperse]
      rw [e]
      apply Split_none
      rintro ⟨a, b, hab⟩
      apply hl
      rw [← hab]
      simp
    | cons l' rest' =>
      rw [intercalate_cons_cons, Split_cut l ['\n'] _ (by simp), ih (by simp)
        (fun x hx => h x (List.mem_cons_of_mem _ hx))]
      intro a' b' hab
      by_contra hlt
      apply hl
      have hlt' : a'.length < l.length := by omega
      have e1 := congrArg (fun s => s.get? a'.length) hab
      simp only [List.get?_eq_getElem?, List.append_assoc] at e1
      rw [List.getElem?_append_left hlt', List.getElem?_append_right (le_refl _)] at e1
      simp only [Nat.sub_self, List.singleton_append, List.getElem?_cons_zero] at e1
      exact List.getElem?_mem e1

/-- The reply of `N` numbered lines is parsed into the `N` trimmed texts. -/
theorem parse_numberedReply (N : Nat) (t : Nat → Str)
    (h : ∀ k, 1 ≤ k → k ≤ N → '\n' ∉ t k ∧ TrimSpace (t k) ≠ []) :
    parseBatchResponse (numberedReply N t) N
      = (List.range' 1 N).map (fun k => TrimSpace (t k)) := by
  cases N with
  | zero =>
    have := parseBatchResponse_length (numberedReply 0 t) 0
    rw [List.length_eq_zero.mp this]
    rfl
  | succ M =>
    have hmem : ∀ k ∈ List.range' 1 (M + 1), 1 ≤ k ∧ k ≤ M + 1 ∧ TrimSpace (t k) ≠ [] := by
      intro k hk
      rw [List.mem_range'_1] at hk
      exact ⟨hk.1, by omega, (h k hk.1 (by omega)).2⟩
    rw [parseBatchResponse_eq_specParse]
    unfold specParse numberedReply
    rw [Split_lines _ (by simp), specItems_numbered (M + 1) t _ hmem]
    · simp only
      rw [specStore_numbered (M + 1) (fun k => TrimSpace (t k)) (fun k => TrimSpace_idem _)
        (M + 1) (le_refl _)]
      simp only [Nat.sub_self, List.replicate_zero, List.append_nil, List.map_map]
      apply List.map_congr_left
      intro k hk
      simp only [Function.comp_apply, if_neg (hmem k hk).2.2]
    · intro l hl
      rw [List.mem_map] at hl
      obtain ⟨k, hk, rfl⟩ := hl
      rw [List.mem_range'_1] at hk
      intro hmemn
      simp only [List.mem_append] at hmemn
      rcases hmemn with (hd | hd) | hd
      · have := fmtInt_mem k _ hd
        exact absurd this.2 (by decide)
      · revert hd; decide
      · exact (h k hk.1 (by omega)).1 hd

theorem foldl_parseLine_unopened (N : Nat) (pre : List Str) (st : ParseState)
    (hst : st.currentIndex = -1) (h : ∀ l ∈ pre, matchNumber N l = none) :
    pre.foldl (parseLine N) st = st := by
  induction pre with
  | nil => rfl
  | cons l ls ih =>
    have e : parseLine N st l = st := by
      unfold parseLine
      rw [h l (List.mem_cons_self _ _)]
      simp only
      rw [if_neg (by omega)]
    rw [List.foldl_cons, e]
    exact ih (fun x hx => h x (List.mem_cons_of_mem _ hx))

/-- C3: the parser is the line-by-line fold of the parsing contract. It equals the
specification `specParse`: the reply is cut into lines; a line whose trimmed form
starts with the numeral of some `n` in `1..N` and a dot opens item `n` (there is at
most one such `n`, and it is the one the loop finds) with the trimmed remainder as
first fragment; every other line is appended, after one space, to the open item; lines
before the first opening line reach no slot; empty slots get the placeholder. In
particular a reply of exactly `N` lines, line `k` being the numeral of `k`, a dot, a
space and a text `t k` without newline and not blank, gives `TrimSpace (t k)` in slot
`k - 1`. -/
theorem parseBatchResponse_contract :
    (∀ content N, parseBatchResponse content N = specParse content N) ∧
    (∀ N line n, matchNumber N line = some n ↔
      (1 ≤ n ∧ n ≤ N ∧ (fmtInt n ++ ['.']) <+: TrimSpace line)) ∧
    (∀ N line, matchNumber N line = specNumber N line) ∧
    (∀ N (pre rest : List Str), (∀ l ∈ pre, matchNumber N l = none) →
      ((pre ++ rest).foldl (parseLine N) (parseInit N)).flush N
        = (rest.foldl (parseLine N) (parseInit N)).flush N) ∧
    (∀ N (t : Nat → Str), (∀ k, 1 ≤ k → k ≤ N → '\n' ∉ t k ∧ TrimSpace (t k) ≠ []) →
      ∀ k, 1 ≤ k → k ≤ N →
        (parseBatchResponse (numberedReply N t) N).get? (k - 1) = some (TrimSpace (t k))) := by
  refine ⟨parseBatchResponse_eq_specParse, ?_, matchNumber_eq_specNumber, ?_, ?_⟩
  · intro N line n
    exact ⟨matchNumber_some N line n,
      fun h => matchNumber_of_opens N line n h.1 h.2.1 h.2.2⟩
  · intro N pre rest h
    rw [List.foldl_append, foldl_parseLine_unopened N pre (parseInit N) rfl h]
  · intro N t h k h1 hN
    have hr : (List.range' 1 N)[k - 1]? = some k := by
      rw [List.getElem?_range' 1 1 (by omega : k - 1 < N)]
      congr 1
      omega
    rw [parse_numberedReply N t h, List.get?_eq_getElem?, List.getElem?_map, hr]
    rfl

theorem parseBatchResponse_contract_witness :
    parseBatchResponse
        "1. Нет подписи. Решение: добавьте label.\n2.   Низкий контраст \r".toList 2
      = ["Нет подписи. Решение: добавьте label.".toList, "Низкий контраст".toList] ∧
    (parseBatchResponse (numberedReply 2 twoTexts) 2).get? (2 - 1)
      = some (TrimSpace (twoTexts 2)) :=
  ⟨by decide,
   parseBatchResponse_contract.2.2.2.2 2 twoTexts
    (by
      intro k h1 h2
      interval_cases k <;> decide)
    2 (by decide) (by decide)⟩

theorem removeThinkTags_strips_witness :
    removeThinkTags " a <think> b".toList = "a".toList ∧
    removeThinkTags "x<think>y</think>z<think>".toList = "xz".toList :=
  ⟨((removeThinkTags_strips " a <think> b".toList).2.2.2.1 " a ".toList " b".toList rfl
      (Index_some_spec _ _ _ (by decide : Index " a <think> b".toList openTag = some 3)).2
      (by decide)).trans (by decide),
   by decide⟩

/-! ## From a finding to an issue -/

/-- C7 (the code at the failing input): for a rule outside the table of fixes, the
remediation text is the raw message of the first `all` check of the first element,
markup characters included, whether the enrichment is empty or the placeholder. -/
theorem howToFix_keeps_markup :
    (convertViolationToIssueWithAI customFinding []).HowToFix
      = "Fix element #main_nav".toList ∧
    (convertViolationToIssueWithAI customFinding needsAttention).HowToFix
      = "Fix element #main_nav".toList ∧
    '#' ∈ (convertViolationToIssueWithAI customFinding []).HowToFix ∧
    '_' ∈ (convertViolationToIssueWithAI customFinding needsAttention).HowToFix := by
  decide

/-- C8 (counterexample): with the delimiter twice in the enrichment, the description
is not the text before the first delimiter and the remediation is not the text after
it: the whole enrichment is the description and the remediation is the built-in one. -/
theorem two_delimiters_not_split :
    twoDelimiters ≠ [] ∧ delimiter <:+: twoDelimiters ∧
    twoDelimiters = "A ".toList ++ delimiter ++ " B Решение: C".toList ∧
    Index twoDelimiters delimiter = some "A ".toList.length ∧
    (convertViolationToIssueWithAI bareFinding twoDelimiters).Description
      ≠ cleanFormatting (TrimSpace "A ".toList) ∧
    (convertViolationToIssueWithAI bareFinding twoDelimiters).HowToFix
      ≠ cleanFormatting (TrimSpace " B Решение: C".toList) ∧
    (convertViolationToIssueWithAI bareFinding twoDelimiters).Description
      = "A Решение: B Решение: C".toList ∧
    (convertViolationToIssueWithAI bareFinding twoDelimiters).HowToFix = genericFix := by
  decide

theorem delimiter_ne_nil : delimiter ≠ [] := by decide

/-- A text with exactly one way to cut it around the separator splits in two. -/
theorem Split_unique_cut (a sep b : Str) (hsep : sep ≠ [])
    (hone : ∀ a' b', a ++ sep ++ b = a' ++ sep ++ b' → a' = a) :
    Split (a ++ sep ++ b) sep = [a, b] := by
  have hpos : 0 < sep.length := List.length_pos.mpr hsep
  rw [Split_cut a sep b hsep (fun a' b' h => by rw [hone a' b' h])]
  congr 1
  apply Split_none
  rintro ⟨x, y, hxy⟩
  have h := hone (a ++ sep ++ x) y (by rw [← hxy]; simp)
  have hl := congrArg List.length h
  simp only [List.length_append] at hl
  omega

/-- A decidable test for a unique cut: the first occurrence is at `a.length` and there
is none further right. -/
theorem unique_cut_of_Index (s sep a : Str)
    (hI : Index s sep = some a.length) (ha : a = s.take a.length)
    (hlater : ¬ sep <:+: s.drop (a.length + 1)) :
    ∀ a' b', s = a' ++ sep ++ b' → a' = a := by
  intro a' b' h
  have hmin := (Index_some_spec s sep _ hI).2 a' b' h
  have hlen : a'.length = a.length := by
    by_contra hne
    apply hlater
    have hlt : a.length + 1 ≤ a'.length := by omega
    refine ⟨a'.drop (a.length + 1), b', ?_⟩
    rw [h, List.append_assoc a', List.drop_append_of_le_length hlt, List.append_assoc]
  rw [ha, h, List.append_assoc, ← hlen, List.take_left']
  rfl

theorem convert_fields (v : AxeViolation) (ai : Str) :
    (convertViolationToIssueWithAI v ai).Title = translateTitle v.Help v.ID ∧
    (convertViolationToIssueWithAI v ai).Examples = (v.Nodes.take 3).map AxeNode.HTML ∧
    (convertViolationToIssueWithAI v ai).AffectedElements = v.Nodes.length ∧
    (convertViolationToIssueWithAI v ai).ID = v.ID ∧
    (convertViolationToIssueWithAI v ai).Impact = v.Impact :=
  ⟨rfl, rfl, rfl, rfl, rfl⟩

theorem convert_of_split_two (v : AxeViolation) (ai part0 part1 : Str) (hne : ai ≠ [])
    (hs : Split ai delimiter = [part0, part1]) :
    (convertViolationToIssueWithAI v ai).Description = cleanFormatting (TrimSpace part0) ∧
    (convertViolationToIssueWithAI v ai).HowToFix = cleanFormatting (TrimSpace part1) := by
  simp [convertViolationToIssueWithAI, hne, hs]

theorem convert_of_split_one (v : AxeViolation) (ai : Str) (hne : ai ≠ [])
    (hs : Split ai delimiter = [ai]) :
    (convertViolationToIssueWithAI v ai).Description = cleanFormatting ai ∧
    (convertViolationToIssueWithAI v ai).HowToFix = generateHowToFix v := by
  simp [convertViolationToIssueWithAI, hne, hs]

theorem convert_of_empty (v : AxeViolation) :
    (convertViolationToIssueWithAI v []).Description = translateDescription v ∧
    (convertViolationToIssueWithAI v []).HowToFix = generateHowToFix v := by
  simp [convertViolationToIssueWithAI]

/-- C8 (amended): for every finding and every enrichment that contains the delimiter
exactly once (there is exactly one way to cut it as `a ++ delimiter ++ b`), the
description is the sanitized, trimmed text before the delimiter and the remediation is
the sanitized, trimmed text after it. -/
theorem convert_splits_single_delimiter (v : AxeViolation) (a b : Str)
    (hone : ∀ a' b', a ++ delimiter ++ b = a' ++ delimiter ++ b' → a' = a) :
    a ++ delimiter ++ b ≠ [] ∧
    (convertViolationToIssueWithAI v (a ++ delimiter ++ b)).Description
      = cleanFormatting (TrimSpace a) ∧
    (convertViolationToIssueWithAI v (a ++ delimiter ++ b)).HowToFix
      = cleanFormatting (TrimSpace b) := by
  have hne : a ++ delimiter ++ b ≠ [] := by
    intro h
    have := congrArg List.length h
    simp [delimiter] at this
  exact ⟨hne, convert_of_split_two v _ a b hne (Split_unique_cut a delimiter b delimiter_ne_nil hone)⟩

theorem convert_splits_single_delimiter_witness :
    (convertViolationToIssueWithAI customFinding
        ("Нет *подписи*. ".toList ++ delimiter ++ " Добавьте aria-label.".toList)).Description
      = "Нет подписи.".toList ∧
    (convertViolationToIssueWithAI customFinding
        ("Нет *подписи*. ".toList ++ delimiter ++ " Добавьте aria-label.".toList)).HowToFix
      = "Добавьте aria-label.".toList :=
  (convert_splits_single_delimiter customFinding "Нет *подписи*. ".toList
    " Добавьте aria-label.".toList
    (unique_cut_of_Index _ delimiter "Нет *подписи*. ".toList
      (by decide) (by decide) (by decide))).2

/-- C9: for every finding and every non-empty enrichment without the delimiter, the
description is the sanitized whole enrichment and the remediation is what
`generateHowToFix` gives: the built-in fix of a rule id in the table, else the message
of the first `all` check of the first element when there is one, else the generic
fallback sentence. -/
theorem convert_without_delimiter (v : AxeViolation) (ai : Str) (hne : ai ≠ [])
    (hno : ¬ delimiter <:+: ai) :
    (convertViolationToIssueWithAI v ai).Description = cleanFormatting ai ∧
    (convertViolationToIssueWithAI v ai).HowToFix = generateHowToFix v ∧
    (∀ fix, fixes.get v.ID = some fix → generateHowToFix v = fix) ∧
    (fixes.get v.ID = none → ∀ node nodes check checks, v.Nodes = node :: nodes →
      node.All = check :: checks → generateHowToFix v = check.Message) ∧
    (fixes.get v.ID = none → v.Nodes = [] → generateHowToFix v = genericFix) ∧
    (fixes.get v.ID = none → ∀ node nodes, v.Nodes = node :: nodes → node.All = [] →
      generateHowToFix v = genericFix) := by
  obtain ⟨h1, h2⟩ := convert_of_split_one v ai hne (Split_none ai delimiter hno)
  refine ⟨h1, h2, ?_, ?_, ?_, ?_⟩
  · intro fix hf
    simp [generateHowToFix, hf]
  · intro hf node nodes check checks hn ha
    simp [generateHowToFix, hf, hn, ha]
  · intro hf hn
    simp [generateHowToFix, hf, hn]
  · intro hf node nodes hn ha
    simp [generateHowToFix, hf, hn, ha]

theorem convert_without_delimiter_witness :
    (convertViolationToIssueWithAI customFinding needsAttention).Description
      = cleanFormatting needsAttention ∧
    (convertViolationToIssueWithAI customFinding needsAttention).HowToFix
      = "Fix element #main_nav".toList :=
  have h := convert_without_delimiter customFinding needsAttention (by decide) (by decide)
  ⟨h.1, h.2.1.trans (by decide)⟩

/-- C10 (counterexample): the example of an issue is the markup of the element as it
came, here 104 bytes long: longer than 103, and not cut although longer than 100. -/
theorem examples_not_truncated :
    (convertViolationToIssueWithAI longFinding []).Examples = [List.replicate 104 'a'] ∧
    (longFinding.Nodes.map AxeNode.HTML) = [List.replicate 104 'a'] ∧
    ¬ (∀ ex ∈ (convertViolationToIssueWithAI longFinding []).Examples,
        (utf8 ex).length ≤ 103) ∧
    ¬ (∀ ex ∈ (convertViolationToIssueWithAI longFinding []).Examples, ex.length ≤ 103) := by
  decide

theorem marker_length : (utf8 "...".toList).length = 3 := by decide

/-- C10 (amended): the examples of an issue are the markup snippets of the first three
elements, unchanged; the truncation is done when an example is put on the PDF card:
there an example of at most 100 bytes is shown as it is, a longer one is shown as its
first 100 bytes followed by the marker, and what is shown has at most 103 bytes. -/
theorem examples_truncated_on_card (v : AxeViolation) (ai : Str) :
    (convertViolationToIssueWithAI v ai).Examples = (v.Nodes.take 3).map AxeNode.HTML ∧
    ∀ ex ∈ (convertViolationToIssueWithAI v ai).Examples,
      (cardExample (utf8 ex)).length ≤ 103 ∧
      ((utf8 ex).length ≤ 100 → cardExample (utf8 ex) = utf8 ex) ∧
      (100 < (utf8 ex).length →
        cardExample (utf8 ex) = (utf8 ex).take 100 ++ utf8 "...".toList ∧
        (cardExample (utf8 ex)).length = 103) := by
  refine ⟨rfl, ?_⟩
  intro ex _
  have hm := marker_length
  refine ⟨?_, ?_, ?_⟩
  · unfold cardExample
    split
    · simp only [List.length_append, List.length_take, hm]; omega
    · omega
  · intro h
    unfold cardExample
    rw [if_neg (by omega)]
  · intro h
    unfold cardExample
    rw [if_pos (by omega)]
    refine ⟨rfl, ?_⟩
    simp only [List.length_append, List.length_take, hm]; omega

/-! ## Maps -/

theorem GoMap.get_cons {V : Type} (k' : Str) (v' : V) (rest : GoMap V) (k : Str) :
    GoMap.get ((k', v') :: rest) k = if k' = k then some v' else GoMap.get rest k := rfl

theorem GoMap.set_cons {V : Type} (k' : Str) (v' : V) (rest : GoMap V) (k : Str) (v : V) :
    GoMap.set ((k', v') :: rest) k v
      = if k' = k then (k, v) :: rest else (k', v') :: GoMap.set rest k v := rfl

theorem GoMap.keys_cons {V : Type} (k' : Str) (v' : V) (rest : GoMap V) :
    GoMap.keys ((k', v') :: rest) = k' :: GoMap.keys rest := rfl

theorem GoMap.get_set_self {V : Type} (m : GoMap V) (k : Str) (v : V) :
    GoMap.get (GoMap.set m k v) k = some v := by
  induction m with
  | nil => show (if k = k then some v else none) = some v; rw [if_pos rfl]
  | cons e rest ih =>
    obtain ⟨k', v'⟩ := e
    rw [GoMap.set_cons]
    by_cases h : k' = k
    · rw [if_pos h, GoMap.get_cons, if_pos rfl]
    · rw [if_neg h, GoMap.get_cons, if_neg h, ih]

theorem GoMap.get_set_other {V : Type} (m : GoMap V) (k j : Str) (v : V) (hj : j ≠ k) :
    GoMap.get (GoMap.set m k v) j = GoMap.get m j := by
  induction m with
  | nil => show (if k = j then some v else none) = none; rw [if_neg (Ne.symm hj)]
  | cons e rest ih =>
    obtain ⟨k', v'⟩ := e
    rw [GoMap.set_cons]
    by_cases h : k' = k
    · rw [if_pos h, GoMap.get_cons, GoMap.get_cons, if_neg (Ne.symm hj), h,
        if_neg (Ne.symm hj)]
    · rw [if_neg h, GoMap.get_cons, GoMap.get_cons, ih]

theorem GoMap.get_none_iff {V : Type} (m : GoMap V) (k : Str) :
    GoMap.get m k = none ↔ k ∉ GoMap.keys m := by
  induction m with
  | nil => exact ⟨fun _ h => absurd h (List.not_mem_nil k), fun _ => rfl⟩
  | cons e rest ih =>
    obtain ⟨k', v'⟩ := e
    rw [GoMap.get_cons, GoMap.keys_cons, List.mem_cons]
    by_cases h : k' = k
    · rw [if_pos h]
      exact ⟨fun h0 => absurd h0 (by simp), fun h0 => absurd (Or.inl h.symm) h0⟩
    · rw [if_neg h, ih]
      constructor
      · rintro h0 (h1 | h1)
        · exact h h1.symm
        · exact h0 h1
      · intro h0 h1
        exact h0 (Or.inr h1)

theorem GoMap.keys_set {V : Type} (m : GoMap V) (k : Str) (v : V) :
    GoMap.keys (GoMap.set m k v)
      = if k ∈ GoMap.keys m then GoMap.keys m else GoMap.keys m ++ [k] := by
  induction m with
  | nil => rfl
  | cons e rest ih =>
    obtain ⟨k', v'⟩ := e
    rw [GoMap.set_cons, GoMap.keys_cons]
    by_cases h : k' = k
    · rw [if_pos h, if_pos (by rw [h]; exact List.mem_cons_self _ _), GoMap.keys_cons, h]
    · rw [if_neg h, GoMap.keys_cons, ih]
      by_cases h2 : k ∈ GoMap.keys rest
      · rw [if_pos h2, if_pos (List.mem_cons_of_mem _ h2)]
      · rw [if_neg h2, if_neg (by
          intro h3
          rcases List.mem_cons.mp h3 with h4 | h4
          · exact h h4.symm
          · exact h2 h4)]
        rfl

theorem GoMap.keys_set_nodup {V : Type} (m : GoMap V) (k : Str) (v : V)
    (h : (GoMap.keys m).Nodup) : (GoMap.keys (GoMap.set m k v)).Nodup := by
  rw [GoMap.keys_set]
  split
  · exact h
  · rename_i hk
    rw [List.nodup_append]
    refine ⟨h, List.nodup_singleton k, ?_⟩
    intro x hx hy
    rw [List.mem_singleton] at hy
    subst hy
    exact hk hx

theorem bucketSum_cons (k' : Str) (v' : List Issue) (rest : GoMap (List Issue)) :
    bucketSum ((k', v') :: rest) = v'.length + bucketSum rest := rfl

theorem bucketSum_set (m : GoMap (List Issue)) (k : Str) (v : List Issue) :
    bucketSum (GoMap.set m k v) + ((GoMap.get m k).getD []).length
      = bucketSum m + v.length := by
  induction m with
  | nil =>
    show v.length + 0 + 0 = 0 + v.length
    omega
  | cons e rest ih =>
    obtain ⟨k', v'⟩ := e
    rw [GoMap.set_cons, GoMap.get_cons]
    by_cases h : k' = k
    · rw [if_pos h, if_pos h, bucketSum_cons, bucketSum_cons, Option.getD_some]
      omega
    · rw [if_neg h, if_neg h, bucketSum_cons, bucketSum_cons]
      omega

/-! ## The report builder -/

theorem addIssue_counted (report : Report) (violation : AxeViolation) (issue : Issue)
    (n : Nat) (h : report.counted n) : (addIssue report violation issue).counted (n + 1) := by
  obtain ⟨h1, h2, h3⟩ := h
  have h2' : bucketSum report.IssuesByImpact = n := h2
  refine ⟨?_, ?_, ?_⟩
  · unfold addIssue
    simp only
    split_ifs <;> simp [h1]
  · show bucketSum (addIssue report violation issue).IssuesByImpact = n + 1
    unfold addIssue
    simp only
    cases hg : report.IssuesByImpact.get violation.Impact with
    | none =>
      have e1 := bucketSum_set report.IssuesByImpact violation.Impact []
      have e2 := bucketSum_set (report.IssuesByImpact.set violation.Impact [])
        violation.Impact ([] ++ [issue])
      rw [GoMap.get_set_self] at e2
      rw [hg] at e1
      simp only [Option.isNone_none, if_true, GoMap.get_set_self, Option.getD_some]
      simp at e1 e2
      simp
      omega
    | some old =>
      have e1 := bucketSum_set report.IssuesByImpact violation.Impact (old ++ [issue])
      rw [hg] at e1
      simp only [Option.isNone_some, Bool.false_eq_true, if_false, hg, Option.getD_some]
      simp at e1
      omega
  · unfold addIssue
    simp only
    apply GoMap.keys_set_nodup
    split
    · exact GoMap.keys_set_nodup _ _ _ h3
    · exact h3

theorem TranslateBatch_length (c : AIClient) (w : World) (call : Nat) (ps r : List Str)
    (h : c.TranslateBatch w call ps = .ok r) : r.length = ps.length := by
  unfold AIClient.TranslateBatch at h
  split at h
  · rename_i h0
    simp only [Except.ok.injEq] at h
    rw [← h, h0]; rfl
  · split at h
    · simp only [Except.ok.injEq] at h
      rw [← h]; simp
    · split at h
      · exact absurd h (by simp)
      · simp only [Except.ok.injEq] at h
        rw [← h]
        exact parseBatchResponse_length _ _

theorem foldlM_addIssue (ai : List Str) (batch : List AxeViolation) (k : Nat)
    (report : Report) (n : Nat) (h : report.counted n)
    (hlen : k + batch.length ≤ ai.length) :
    ∃ r, (batch.enumFrom k).foldlM
        (fun report iv =>
          match ai.get? iv.1 with
          | some aiDescription =>
            some (addIssue report iv.2 (convertViolationToIssueWithAI iv.2 aiDescription))
          | none => none)
        report = some r ∧ r.counted (n + batch.length) := by
  induction batch generalizing k report n with
  | nil => exact ⟨report, rfl, h⟩
  | cons v vs ih =>
    simp only [List.length_cons] at hlen
    have hk : k < ai.length := by omega
    rw [List.enumFrom_cons, List.foldlM_cons]
    simp only [List.get?_eq_getElem?, List.getElem?_eq_getElem hk]
    obtain ⟨r, hr, hc⟩ := ih (k + 1)
      (addIssue report v (convertViolationToIssueWithAI v ai[k])) (n + 1)
      (addIssue_counted _ _ _ _ h) (by omega)
    refine ⟨r, ?_, ?_⟩
    · simpa using hr
    · simpa [Nat.add_assoc, Nat.add_comm 1] using hc

theorem processBatch_counted (p : Processor) (w : World) (call : Nat) (report : Report)
    (batch : List AxeViolation) (n : Nat) (h : report.counted n) :
    ∃ r, processBatch p w call report batch = some r ∧ r.counted (n + batch.length) := by
  unfold processBatch
  simp only [List.enum]
  apply foldlM_addIssue _ batch 0 report n h
  cases hT : p.aiClient.TranslateBatch w call (List.map problemPrompt batch) with
  | error e => simp
  | ok r => simp [TranslateBatch_length _ _ _ _ _ hT]

theorem foldlM_processBatch (p : Processor) (w : World) (batches : List (List AxeViolation))
    (k : Nat) (report : Report) (n : Nat) (h : report.counted n) :
    ∃ r, (batches.enumFrom k).foldlM (fun report kb => processBatch p w kb.1 report kb.2)
        report = some r ∧ r.counted (n + batches.flatten.length) := by
  induction batches generalizing k report n with
  | nil => exact ⟨report, rfl, h⟩
  | cons b bs ih =>
    rw [List.enumFrom_cons, List.foldlM_cons]
    obtain ⟨r1, hr1, hc1⟩ := processBatch_counted p w k report b n h
    obtain ⟨r, hr, hc⟩ := ih (k + 1) r1 (n + b.length) hc1
    refine ⟨r, ?_, ?_⟩
    · simpa [hr1] using hr
    · simpa [Nat.add_assoc] using hc

theorem createBatchesLoop_flatten (violations : List AxeViolation) (batchSize : Nat)
    (hb : 0 < batchSize) (fuel i : Nat) (hfuel : violations.length ≤ i + fuel) :
    (createBatchesLoop violations batchSize fuel i).flatten = violations.drop i := by
  induction fuel generalizing i with
  | zero =>
    simp only [createBatchesLoop, List.flatten_nil]
    rw [List.drop_eq_nil_of_le (by omega)]
  | succ n ih =>
    unfold createBatchesLoop
    by_cases hi : i < violations.length
    · rw [if_pos hi]
      simp only [List.flatten_cons]
      rw [ih (i + batchSize) (by omega)]
      by_cases hbig : i + batchSize > violations.length
      · rw [if_pos hbig, List.take_of_length_le (le_refl _),
          List.drop_eq_nil_of_le (by omega : violations.length ≤ i + batchSize)]
        simp
      · rw [if_neg hbig]
        have hle : i ≤ (violations.take (i + batchSize)).length := by
          simp only [List.length_take]; omega
        rw [← List.drop_append_of_le_length hle, List.take_append_drop]
    · rw [if_neg hi]
      rw [List.drop_eq_nil_of_le (by omega)]
      rfl

theorem createBatches_flatten (violations : List AxeViolation) (batchSize : Nat)
    (hb : 0 < batchSize) : (createBatches violations batchSize).flatten = violations := by
  unfold createBatches
  rw [createBatchesLoop_flatten violations batchSize hb _ 0 (by omega)]
  rfl

theorem emptyReport_counted (url jobID : Str) : (emptyReport url jobID).counted 0 := by
  refine ⟨rfl, rfl, ?_⟩
  have e : (emptyReport url jobID).IssuesByImpact.keys = impactLevels := rfl
  rw [e]
  decide

/-- C1: for every list of findings, whatever the enrichment calls return, the builder
returns a report whose `Summary.TotalIssues` is the number of findings and is the sum
of the lengths of all buckets of `IssuesByImpact` (no severity has two buckets). -/
theorem ProcessViolations_total (p : Processor) (w : World) (url : Str)
    (violations : List AxeViolation) (jobID : Str) :
    ∃ report, ProcessViolations p w url violations jobID = some (report, none) ∧
      report.Summary.TotalIssues = violations.length ∧
      (report.IssuesByImpact.map (fun bucket => bucket.2.length)).sum = violations.length ∧
      report.IssuesByImpact.keys.Nodup := by
  obtain ⟨r, hr, h1, h2, h3⟩ := foldlM_processBatch p w (createBatches violations 10) 0
    (emptyReport url jobID) 0 (emptyReport_counted url jobID)
  rw [createBatches_flatten violations 10 (by decide), Nat.zero_add] at h1 h2
  refine ⟨{ r with Recommendations := generateRecommendations w r }, ?_, h1, h2, h3⟩
  unfold ProcessViolations
  simp only [List.enum]
  rw [hr]

theorem GoMap.mem_of_get {V : Type} (m : GoMap V) (k : Str) (v : V)
    (h : GoMap.get m k = some v) : (k, v) ∈ m := by
  induction m with
  | nil => exact absurd h (by simp [GoMap.get])
  | cons e rest ih =>
    obtain ⟨k', v'⟩ := e
    rw [GoMap.get_cons] at h
    by_cases hk : k' = k
    · rw [if_pos hk] at h
      simp only [Option.some.injEq] at h
      rw [hk, h]
      exact List.mem_cons_self _ _
    · rw [if_neg hk] at h
      exact List.mem_cons_of_mem _ (ih h)

theorem titleTranslations_clean :
    ∀ e ∈ titleTranslations, ∀ c ∈ e.2, isStar c = false ∧ isMark c = false := by
  decide

theorem fixes_clean :
    ∀ e ∈ fixes, ∀ c ∈ e.2, isStar c = false ∧ isMark c = false := by
  decide

/-- The title and the description of an issue are always free of markup characters;
so is the remediation text when the rule id is in the table of fixes and the
enrichment is empty. -/
theorem title_description_clean (v : AxeViolation) (ai : Str) :
    (∀ c ∈ (convertViolationToIssueWithAI v ai).Title,
      c ≠ '*' ∧ c ≠ '_' ∧ c ≠ '~' ∧ c ≠ backtick ∧ c ≠ '#') ∧
    (∀ c ∈ (convertViolationToIssueWithAI v ai).Description,
      c ≠ '*' ∧ c ≠ '_' ∧ c ≠ '~' ∧ c ≠ backtick ∧ c ≠ '#') := by
  constructor
  · intro c hc
    rw [(convert_fields v ai).1] at hc
    unfold translateTitle at hc
    split at hc
    · rename_i t ht
      have := titleTranslations_clean _ (GoMap.mem_of_get _ _ _ ht) c hc
      exact markup_of_class c this.1 this.2
    · have := cleanFormatting_mem _ c hc
      exact markup_of_class c this.2.1 this.2.2
  · intro c hc
    have key : ∃ s, (convertViolationToIssueWithAI v ai).Description = cleanFormatting s := by
      unfold convertViolationToIssueWithAI translateDescription
      simp only
      split_ifs
      · split <;> exact ⟨_, rfl⟩
      · split <;> exact ⟨_, rfl⟩
    obtain ⟨s, hs⟩ := key
    rw [hs] at hc
    have := cleanFormatting_mem _ c hc
    exact markup_of_class c this.2.1 this.2.2

/-! ## Examples and offline enrichment -/

/-- C11: for every finding with `n` affected elements and every enrichment, the issue
has exactly `min 3 n` examples, the `i`-th example is the markup snippet of the `i`-th
element, and `AffectedElements` is `n`, not capped. -/
theorem convert_examples (v : AxeViolation) (ai : Str) :
    (convertViolationToIssueWithAI v ai).Examples.length = min 3 v.Nodes.length ∧
    (∀ i, i < min 3 v.Nodes.length →
      (convertViolationToIssueWithAI v ai).Examples.get? i
        = (v.Nodes.get? i).map AxeNode.HTML) ∧
    (convertViolationToIssueWithAI v ai).AffectedElements = v.Nodes.length := by
  obtain ⟨_, hex, haff, _, _⟩ := convert_fields v ai
  refine ⟨?_, ?_, haff⟩
  · rw [hex, List.length_map, List.length_take]
  · intro i hi
    rw [hex, List.get?_eq_getElem?, List.get?_eq_getElem?, List.getElem?_map,
      List.getElem?_take_of_lt (by omega)]

theorem mockTranslate_ne_nil (c : AIClient) (prompt : Str) : c.mockTranslate prompt ≠ [] := by
  unfold AIClient.mockTranslate
  decide

/-- C18: with an empty API key, `Translate` returns the placeholder, which is not
empty, and no error, for every prompt and every call; `TranslateBatch` returns no
error and one placeholder per prompt, the same for every prompt. -/
theorem offline_enrichment (c : AIClient) (w : World) (call : Nat) (hkey : c.apiKey = []) :
    (∀ prompt, c.Translate w call prompt = .ok (c.mockTranslate []) ∧
      c.mockTranslate [] ≠ []) ∧
    (∀ prompts, ∃ results, c.TranslateBatch w call prompts = .ok results ∧
      results.length = prompts.length ∧ ∀ r ∈ results, r = c.mockTranslate []) := by
  constructor
  · intro prompt
    refine ⟨?_, mockTranslate_ne_nil c []⟩
    unfold AIClient.Translate
    rw [if_pos hkey]
    rfl
  · intro prompts
    unfold AIClient.TranslateBatch
    by_cases h0 : prompts.length = 0
    · rw [if_pos h0]
      exact ⟨[], rfl, h0.symm, by simp⟩
    · rw [if_neg h0, if_pos hkey]
      refine ⟨_, rfl, by simp, ?_⟩
      intro r hr
      rw [List.mem_map] at hr
      obtain ⟨_, _, rfl⟩ := hr
      rfl

theorem offline_enrichment_witness :
    AIClient.Translate { apiKey := [] } quietWorld 0 "test prompt".toList
      = .ok (AIClient.mockTranslate { apiKey := [] } []) ∧
    AIClient.mockTranslate { apiKey := [] } [] ≠ [] :=
  (offline_enrichment { apiKey := [] } quietWorld 0 rfl).1 "test prompt".toList

/-! ## Recommendations -/

theorem generateRecommendations_eq (w : World) (report : Report) :
    generateRecommendations w report =
      if recommendationNotes report (findCommonIssues w report) = [] then [positiveMessage]
      else recommendationNotes report (findCommonIssues w report) := by
  unfold generateRecommendations recommendationNotes criticalWarning seriousWarning expertNote
    frequentNote
  simp only [gt_iff_lt]
  by_cases h1 : 0 < report.Summary.Critical <;>
  by_cases h2 : 0 < report.Summary.Serious <;>
  by_cases h3 : 10 < report.Summary.TotalIssues <;>
  by_cases h4 : 0 < (findCommonIssues w report).length <;>
  simp [h1, h2, h3, h4]

theorem criticalWarning_take (n : Nat) : (criticalWarning n).take 3 = "[!]".toList := rfl

theorem seriousWarning_take (n : Nat) : (seriousWarning n).take 3 = "[!!".toList := rfl

theorem expertNote_take : expertNote.take 3 = "[i]".toList := rfl

theorem frequentNote_take (common : List Str) :
    (frequentNote common).take 3 = "[*]".toList := rfl

theorem positiveMessage_take : positiveMessage.take 3 = "[OK".toList := rfl

theorem criticalWarning_injective (n m : Nat) (h : criticalWarning n = criticalWarning m) :
    n = m := by
  unfold criticalWarning at h
  rw [List.append_assoc, List.append_assoc, List.append_cancel_left_eq] at h
  exact fmtInt_injective n m (List.append_cancel_right h)

theorem seriousWarning_injective (n m : Nat) (h : seriousWarning n = seriousWarning m) :
    n = m := by
  unfold seriousWarning at h
  rw [List.append_assoc, List.append_assoc, List.append_cancel_left_eq] at h
  exact fmtInt_injective n m (List.append_cancel_right h)

theorem tag_ne (a b : Str) (h : a.take 3 ≠ b.take 3) : a ≠ b :=
  fun e => h (congrArg (List.take 3) e)

theorem recommendationNotes_nil (report : Report) (common : List Str) :
    recommendationNotes report common = [] ↔
      report.Summary.Critical = 0 ∧ report.Summary.Serious = 0 ∧
      report.Summary.TotalIssues ≤ 10 ∧ common = [] := by
  unfold recommendationNotes
  by_cases h1 : 0 < report.Summary.Critical <;>
  by_cases h2 : 0 < report.Summary.Serious <;>
  by_cases h3 : 10 < report.Summary.TotalIssues <;>
  by_cases h4 : 0 < common.length <;>
  simp [h1, h2, h3, h4] <;> first | omega | (try simp_all [List.length_pos]) 

/-- Which strings are among the warnings and notes. -/
theorem mem_recommendationNotes (report : Report) (common : List Str) (s : Str) :
    s ∈ recommendationNotes report common ↔
      (0 < report.Summary.Critical ∧ s = criticalWarning report.Summary.Critical) ∨
      (0 < report.Summary.Serious ∧ s = seriousWarning report.Summary.Serious) ∨
      (10 < report.Summary.TotalIssues ∧ s = expertNote) ∨
      (0 < common.length ∧ s = frequentNote common) := by
  unfold recommendationNotes
  by_cases h1 : 0 < report.Summary.Critical <;>
  by_cases h2 : 0 < report.Summary.Serious <;>
  by_cases h3 : 10 < report.Summary.TotalIssues <;>
  by_cases h4 : 0 < common.length <;>
  simp [h1, h2, h3, h4]

theorem positiveMessage_not_note (report : Report) (common : List Str) :
    positiveMessage ∉ recommendationNotes report common := by
  rw [mem_recommendationNotes]
  rintro (⟨_, h⟩ | ⟨_, h⟩ | ⟨_, h⟩ | ⟨_, h⟩)
  · exact tag_ne _ _ (by rw [criticalWarning_take, positiveMessage_take]; decide) h
  · exact tag_ne _ _ (by rw [seriousWarning_take, positiveMessage_take]; decide) h
  · exact tag_ne _ _ (by rw [expertNote_take, positiveMessage_take]; decide) h
  · exact tag_ne _ _ (by rw [frequentNote_take, positiveMessage_take]; decide) h

/-- Which strings are among the recommendations. -/
theorem mem_generateRecommendations (w : World) (report : Report) (s : Str) :
    s ∈ generateRecommendations w report ↔
      s ∈ recommendationNotes report (findCommonIssues w report) ∨
      (recommendationNotes report (findCommonIssues w report) = [] ∧ s = positiveMessage) := by
  rw [generateRecommendations_eq]
  by_cases h : recommendationNotes report (findCommonIssues w report) = []
  · rw [if_pos h, h]
    simp
  · rw [if_neg h]
    simp [h]

/-- C13: for every report, the recommendations are, in this order, the critical
warning, the serious warning, the expert-audit note and then at most one more
recommendation (the frequent-issues note or the positive message); the critical
warning is present iff `Critical > 0` and states that count, the serious warning is
present iff `Serious > 0` and states that count, and the expert-audit note is present
iff `TotalIssues > 10`. -/
theorem generateRecommendations_order (w : World) (report : Report) :
    (∃ last, generateRecommendations w report =
        (if 0 < report.Summary.Critical then [criticalWarning report.Summary.Critical]
          else []) ++
        (if 0 < report.Summary.Serious then [seriousWarning report.Summary.Serious]
          else []) ++
        (if 10 < report.Summary.TotalIssues then [expertNote] else []) ++ last ∧
      (last = [] ∨ last = [frequentNote (findCommonIssues w report)] ∨
        last = [positiveMessage])) ∧
    (∀ n, criticalWarning n ∈ generateRecommendations w report ↔
      0 < report.Summary.Critical ∧ n = report.Summary.Critical) ∧
    (∀ n, seriousWarning n ∈ generateRecommendations w report ↔
      0 < report.Summary.Serious ∧ n = report.Summary.Serious) ∧
    (expertNote ∈ generateRecommendations w report ↔ 10 < report.Summary.TotalIssues) := by
  refine ⟨?_, ?_, ?_, ?_⟩
  · rw [generateRecommendations_eq]
    by_cases h : recommendationNotes report (findCommonIssues w report) = []
    · rw [if_pos h]
      obtain ⟨h1, h2, h3, _⟩ := (recommendationNotes_nil _ _).mp h
      refine ⟨[positiveMessage], ?_, Or.inr (Or.inr rfl)⟩
      rw [if_neg (by omega), if_neg (by omega), if_neg (by omega)]
      rfl
    · rw [if_neg h]
      by_cases h4 : 0 < (findCommonIssues w report).length
      · exact ⟨[frequentNote (findCommonIssues w report)],
          by unfold recommendationNotes; rw [if_pos h4], Or.inr (Or.inl rfl)⟩
      · exact ⟨[], by unfold recommendationNotes; rw [if_neg h4], Or.inl rfl⟩
  · intro n
    rw [mem_generateRecommendations, mem_recommendationNotes]
    constructor
    · rintro ((⟨h0, h⟩ | ⟨_, h⟩ | ⟨_, h⟩ | ⟨_, h⟩) | ⟨_, h⟩)
      · exact ⟨h0, criticalWarning_injective _ _ h⟩
      · exact absurd h (tag_ne _ _ (by rw [criticalWarning_take, seriousWarning_take]; decide))
      · exact absurd h (tag_ne _ _ (by rw [criticalWarning_take, expertNote_take]; decide))
      · exact absurd h (tag_ne _ _ (by rw [criticalWarning_take, frequentNote_take]; decide))
      · exact absurd h (tag_ne _ _ (by rw [criticalWarning_take, positiveMessage_take]; decide))
    · rintro ⟨h0, rfl⟩
      exact Or.inl (Or.inl ⟨h0, rfl⟩)
  · intro n
    rw [mem_generateRecommendations, mem_recommendationNotes]
    constructor
    · rintro ((⟨_, h⟩ | ⟨h0, h⟩ | ⟨_, h⟩ | ⟨_, h⟩) | ⟨_, h⟩)
      · exact absurd h (tag_ne _ _ (by rw [criticalWarning_take, seriousWarning_take]; decide))
      · exact ⟨h0, seriousWarning_injective _ _ h⟩
      · exact absurd h (tag_ne _ _ (by rw [seriousWarning_take, expertNote_take]; decide))
      · exact absurd h (tag_ne _ _ (by rw [seriousWarning_take, frequentNote_take]; decide))
      · exact absurd h (tag_ne _ _ (by rw [seriousWarning_take, positiveMessage_take]; decide))
    · rintro ⟨h0, rfl⟩
      exact Or.inl (Or.inr (Or.inl ⟨h0, rfl⟩))
  · rw [mem_generateRecommendations, mem_recommendationNotes]
    constructor
    · rintro ((⟨_, h⟩ | ⟨_, h⟩ | ⟨h0, _⟩ | ⟨_, h⟩) | ⟨_, h⟩)
      · exact absurd h (tag_ne _ _ (by rw [criticalWarning_take, expertNote_take]; decide))
      · exact absurd h (tag_ne _ _ (by rw [seriousWarning_take, expertNote_take]; decide))
      · exact h0
      · exact absurd h (tag_ne _ _ (by rw [expertNote_take, frequentNote_take]; decide))
      · exact absurd h (tag_ne _ _ (by rw [expertNote_take, positiveMessage_take]; decide))
    · intro h0
      exact Or.inl (Or.inr (Or.inr (Or.inl ⟨h0, rfl⟩)))

theorem generateRecommendations_order_witness :
    generateRecommendations quietWorld twoCritical = [criticalWarning 2] ∧
    (criticalWarning 2 ∈ generateRecommendations quietWorld twoCritical ↔
      0 < twoCritical.Summary.Critical ∧ 2 = twoCritical.Summary.Critical) ∧
    (∀ n, ¬ seriousWarning n ∈ generateRecommendations quietWorld twoCritical) :=
  ⟨by decide,
   (generateRecommendations_order quietWorld twoCritical).2.1 2,
   fun n h => absurd (((generateRecommendations_order quietWorld twoCritical).2.2.1 n).mp h).1
    (by decide)⟩

/-! ## The report builder, finding by finding -/

theorem addIssue_buckets (report : Report) (v : AxeViolation) (issue : Issue) :
    (addIssue report v issue).IssuesByImpact =
      GoMap.set
        (if (GoMap.get report.IssuesByImpact v.Impact).isNone then
          GoMap.set report.IssuesByImpact v.Impact [] else report.IssuesByImpact)
        v.Impact
        ((GoMap.get
          (if (GoMap.get report.IssuesByImpact v.Impact).isNone then
            GoMap.set report.IssuesByImpact v.Impact [] else report.IssuesByImpact)
          v.Impact).getD [] ++ [issue]) := rfl

theorem addIssue_get (report : Report) (v : AxeViolation) (issue : Issue) (s : Str) :
    (GoMap.get (addIssue report v issue).IssuesByImpact s).getD [] =
      (GoMap.get report.IssuesByImpact s).getD [] ++ (if v.Impact = s then [issue] else []) := by
  rw [addIssue_buckets]
  by_cases hs : v.Impact = s
  · subst hs
    rw [GoMap.get_set_self, if_pos rfl, Option.getD_some]
    cases hg : GoMap.get report.IssuesByImpact v.Impact with
    | none =>
      simp only [Option.isNone_none, if_true, GoMap.get_set_self, Option.getD_some,
        Option.getD_none]
    | some old =>
      simp only [Option.isNone_some, Bool.false_eq_true, if_false, hg, Option.getD_some]
  · rw [GoMap.get_set_other _ _ _ _ (Ne.symm hs), if_neg hs, List.append_nil]
    split
    · rw [GoMap.get_set_other _ _ _ _ (Ne.symm hs)]
    · rfl

theorem addIssue_keys (report : Report) (v : AxeViolation) (issue : Issue) (s : Str) :
    s ∈ GoMap.keys (addIssue report v issue).IssuesByImpact ↔
      s ∈ GoMap.keys report.IssuesByImpact ∨ s = v.Impact := by
  rw [addIssue_buckets, GoMap.keys_set]
  have hinner : ∀ t, t ∈ GoMap.keys
      (if (GoMap.get report.IssuesByImpact v.Impact).isNone then
        GoMap.set report.IssuesByImpact v.Impact [] else report.IssuesByImpact) ↔
      t ∈ GoMap.keys report.IssuesByImpact ∨ t = v.Impact := by
    intro t
    cases hg : GoMap.get report.IssuesByImpact v.Impact with
    | none =>
      have hk := (GoMap.get_none_iff _ _).mp hg
      simp only [Option.isNone_none, if_true]
      rw [GoMap.keys_set, if_neg hk, List.mem_append, List.mem_singleton]
    | some old =>
      have hk : v.Impact ∈ GoMap.keys report.IssuesByImpact := by
        by_contra hk
        rw [(GoMap.get_none_iff _ _).mpr hk] at hg
        exact absurd hg (by simp)
      simp only [Option.isNone_some, Bool.false_eq_true, if_false]
      constructor
      · exact Or.inl
      · rintro (h | h)
        · exact h
        · rw [h]; exact hk
  rw [if_pos ((hinner v.Impact).mpr (Or.inr rfl))]
  exact hinner s

theorem addIssue_nodup (report : Report) (v : AxeViolation) (issue : Issue)
    (h : (GoMap.keys report.IssuesByImpact).Nodup) :
    (GoMap.keys (addIssue report v issue).IssuesByImpact).Nodup := by
  rw [addIssue_buckets]
  apply GoMap.keys_set_nodup
  split
  · exact GoMap.keys_set_nodup _ _ _ h
  · exact h

theorem addIssue_scores (report : Report) (v : AxeViolation) (issue : Issue) (s : Str) :
    (GoMap.get (addIssue report v issue).Summary.ImpactScores s).getD 0 =
      (GoMap.get report.Summary.ImpactScores s).getD 0 + (if v.Impact = s then 1 else 0) := by
  have e : (addIssue report v issue).Summary.ImpactScores =
      GoMap.set report.Summary.ImpactScores v.Impact
        ((GoMap.get report.Summary.ImpactScores v.Impact).getD 0 + 1) := by
    unfold addIssue
    simp only
    split_ifs <;> rfl
  rw [e]
  by_cases hs : v.Impact = s
  · subst hs
    rw [GoMap.get_set_self, if_pos rfl, Option.getD_some]
  · rw [GoMap.get_set_other _ _ _ _ (Ne.symm hs), if_neg hs, Nat.add_zero]

theorem addIssue_summary (report : Report) (v : AxeViolation) (issue : Issue) :
    (addIssue report v issue).Summary.TotalIssues = report.Summary.TotalIssues + 1 ∧
    (addIssue report v issue).Summary.Critical =
      report.Summary.Critical + (if v.Impact = "critical".toList then 1 else 0) ∧
    (addIssue report v issue).Summary.Serious =
      report.Summary.Serious + (if v.Impact = "serious".toList then 1 else 0) ∧
    (addIssue report v issue).Summary.Moderate =
      report.Summary.Moderate + (if v.Impact = "moderate".toList then 1 else 0) ∧
    (addIssue report v issue).Summary.Minor =
      report.Summary.Minor + (if v.Impact = "minor".toList then 1 else 0) := by
  have d01 : "critical".toList ≠ "serious".toList := by decide
  have d02 : "critical".toList ≠ "moderate".toList := by decide
  have d03 : "critical".toList ≠ "minor".toList := by decide
  have d10 : "serious".toList ≠ "critical".toList := by decide
  have d12 : "serious".toList ≠ "moderate".toList := by decide
  have d13 : "serious".toList ≠ "minor".toList := by decide
  have d20 : "moderate".toList ≠ "critical".toList := by decide
  have d21 : "moderate".toList ≠ "serious".toList := by decide
  have d23 : "moderate".toList ≠ "minor".toList := by decide
  have d30 : "minor".toList ≠ "critical".toList := by decide
  have d31 : "minor".toList ≠ "serious".toList := by decide
  have d32 : "minor".toList ≠ "moderate".toList := by decide
  unfold addIssue
  simp only
  by_cases h1 : v.Impact = "critical".toList
  · simp [h1, d01, d02, d03, d10, d12, d13, d20, d21, d23, d30, d31, d32]
  · by_cases h2 : v.Impact = "serious".toList
    · simp [h2, d01, d02, d03, d10, d12, d13, d20, d21, d23, d30, d31, d32]
    · by_cases h3 : v.Impact = "moderate".toList
      · simp [h3, d01, d02, d03, d10, d12, d13, d20, d21, d23, d30, d31, d32]
      · by_cases h4 : v.Impact = "minor".toList
        · simp [h4, d01, d02, d03, d10, d12, d13, d20, d21, d23, d30, d31, d32]
        · simp only [if_neg h1, if_neg h2, if_neg h3, if_neg h4]
          simp

theorem addIssue_built (report : Report) (url jobID : Str)
    (done : List (AxeViolation × Issue)) (v : AxeViolation) (issue : Issue)
    (h : report.built url jobID done) :
    (addIssue report v issue).built url jobID (done ++ [(v, issue)]) := by
  obtain ⟨hid, hurl, ht, hc, hs, hmo, hmi, hsc, hb, hk, hn⟩ := h
  obtain ⟨st, sc, ss, smo, smi⟩ := addIssue_summary report v issue
  refine ⟨hid, hurl, ?_, ?_, ?_, ?_, ?_, ?_, ?_, ?_, addIssue_nodup report v issue hn⟩
  · rw [st, ht]; simp
  · rw [sc, hc, List.countP_append]
    by_cases e : v.Impact = "critical".toList <;> simp [List.countP_cons, e]
  · rw [ss, hs, List.countP_append]
    by_cases e : v.Impact = "serious".toList <;> simp [List.countP_cons, e]
  · rw [smo, hmo, List.countP_append]
    by_cases e : v.Impact = "moderate".toList <;> simp [List.countP_cons, e]
  · rw [smi, hmi, List.countP_append]
    by_cases e : v.Impact = "minor".toList <;> simp [List.countP_cons, e]
  · intro s
    rw [addIssue_scores, hsc s, List.countP_append]
    by_cases e : v.Impact = s <;> simp [List.countP_cons, e]
  · intro s
    rw [addIssue_get, hb s, List.filter_append, List.map_append]
    by_cases e : v.Impact = s <;> simp [List.filter_cons, e]
  · intro s
    rw [addIssue_keys, hk s]
    constructor
    · rintro ((h1 | ⟨e, he, hes⟩) | h1)
      · exact Or.inl h1
      · exact Or.inr ⟨e, List.mem_append_left _ he, hes⟩
      · exact Or.inr ⟨(v, issue), List.mem_append_right _ (List.mem_singleton_self _), h1.symm⟩
    · rintro (h1 | ⟨e, he, hes⟩)
      · exact Or.inl (Or.inl h1)
      · rcases List.mem_append.mp he with h2 | h2
        · exact Or.inl (Or.inr ⟨e, h2, hes⟩)
        · rw [List.mem_singleton] at h2
          rw [h2] at hes
          exact Or.inr hes.symm

theorem foldlM_addIssue_built (ai : List Str) (batch : List AxeViolation) (k : Nat)
    (report : Report) (url jobID : Str) (done : List (AxeViolation × Issue))
    (h : report.built url jobID done) (hlen : k + batch.length ≤ ai.length) :
    ∃ r, (batch.enumFrom k).foldlM
        (fun report iv =>
          match ai.get? iv.1 with
          | some aiDescription =>
            some (addIssue report iv.2 (convertViolationToIssueWithAI iv.2 aiDescription))
          | none => none)
        report = some r ∧
      r.built url jobID (done ++ (batch.zip (ai.drop k)).map
        (fun vd => (vd.1, convertViolationToIssueWithAI vd.1 vd.2))) := by
  induction batch generalizing k report done with
  | nil => exact ⟨report, rfl, by simpa using h⟩
  | cons v vs ih =>
    simp only [List.length_cons] at hlen
    have hk : k < ai.length := by omega
    rw [List.enumFrom_cons, List.foldlM_cons]
    simp only [List.get?_eq_getElem?, List.getElem?_eq_getElem hk]
    obtain ⟨r, hr, hb⟩ := ih (k + 1)
      (addIssue report v (convertViolationToIssueWithAI v ai[k]))
      (done ++ [(v, convertViolationToIssueWithAI v ai[k])])
      (addIssue_built _ _ _ _ _ _ h) (by omega)
    refine ⟨r, ?_, ?_⟩
    · simpa using hr
    · rw [List.drop_eq_getElem_cons hk, List.zip_cons_cons, List.map_cons]
      rw [List.append_assoc] at hb
      exact hb

theorem batchDescriptions_length (p : Processor) (w : World) (call : Nat)
    (batch : List AxeViolation) : (batchDescriptions p w call batch).length = batch.length := by
  unfold batchDescriptions
  cases hT : p.aiClient.TranslateBatch w call (List.map problemPrompt batch) with
  | error e => simp
  | ok r => simp [TranslateBatch_length _ _ _ _ _ hT]

theorem processBatch_built (p : Processor) (w : World) (call : Nat) (report : Report)
    (batch : List AxeViolation) (url jobID : Str) (done : List (AxeViolation × Issue))
    (h : report.built url jobID done) :
    ∃ r, processBatch p w call report batch = some r ∧
      r.built url jobID (done ++ batchIssues p w call batch) := by
  have hl := batchDescriptions_length p w call batch
  obtain ⟨r, hr, hb⟩ := foldlM_addIssue_built (batchDescriptions p w call batch) batch 0
    report url jobID done h (by omega)
  exact ⟨r, hr, hb⟩

theorem foldlM_processBatch_built (p : Processor) (w : World)
    (batches : List (List AxeViolation)) (k : Nat) (report : Report) (url jobID : Str)
    (done : List (AxeViolation × Issue)) (h : report.built url jobID done) :
    ∃ r, (batches.enumFrom k).foldlM (fun report kb => processBatch p w kb.1 report kb.2)
        report = some r ∧ r.built url jobID (done ++ batchesIssues p w k batches) := by
  induction batches generalizing k report done with
  | nil => exact ⟨report, rfl, by simpa [batchesIssues] using h⟩
  | cons b bs ih =>
    rw [List.enumFrom_cons, List.foldlM_cons]
    obtain ⟨r1, hr1, hb1⟩ := processBatch_built p w k report b url jobID done h
    obtain ⟨r, hr, hb⟩ := ih (k + 1) r1 (done ++ batchIssues p w k b) hb1
    refine ⟨r, ?_, ?_⟩
    · simpa [hr1] using hr
    · simpa [batchesIssues, List.enumFrom_cons, List.flatMap_cons] using hb

theorem emptyReport_eq (url jobID : Str) :
    emptyReport url jobID =
      { ID := jobID
        URL := url
        Summary :=
          { TotalIssues := 0, Critical := 0, Serious := 0, Moderate := 0, Minor := 0
            ImpactScores := [] }
        IssuesByImpact :=
          [("critical".toList, []), ("serious".toList, []), ("moderate".toList, []),
           ("minor".toList, [])]
        Recommendations := [] } := rfl

theorem emptyReport_built (url jobID : Str) : (emptyReport url jobID).built url jobID [] := by
  rw [emptyReport_eq]
  have hnd : List.Nodup impactLevels := by decide
  refine ⟨rfl, rfl, rfl, rfl, rfl, rfl, rfl, fun s => rfl, ?_, ?_, hnd⟩
  · intro s
    simp only [GoMap.get_cons]
    split_ifs <;> rfl
  · intro s
    simp [GoMap.keys, impactLevels]

/-- The run of the builder: it returns a report and no error, and the report holds
exactly the expected issues. -/
theorem ProcessViolations_built (p : Processor) (w : World) (url : Str)
    (violations : List AxeViolation) (jobID : Str) :
    ∃ r : Report, ProcessViolations p w url violations jobID
        = some ({ r with Recommendations := generateRecommendations w r }, none) ∧
      r.built url jobID (expectedIssues p w violations) := by
  obtain ⟨r, hr, hb⟩ := foldlM_processBatch_built p w (createBatches violations 10) 0
    (emptyReport url jobID) url jobID [] (emptyReport_built url jobID)
  refine ⟨r, ?_, by simpa [expectedIssues] using hb⟩
  unfold ProcessViolations
  simp only [List.enum]
  rw [hr]

theorem batchIssues_fst (p : Processor) (w : World) (call : Nat) (batch : List AxeViolation) :
    (batchIssues p w call batch).map Prod.fst = batch := by
  unfold batchIssues
  rw [List.map_map]
  have e : (Prod.fst ∘ fun vd : AxeViolation × Str =>
      (vd.1, convertViolationToIssueWithAI vd.1 vd.2)) = Prod.fst := rfl
  rw [e]
  exact List.map_fst_zip _ _ (by rw [batchDescriptions_length])

theorem batchesIssues_fst (p : Processor) (w : World) (k : Nat)
    (batches : List (List AxeViolation)) :
    (batchesIssues p w k batches).map Prod.fst = batches.flatten := by
  induction batches generalizing k with
  | nil => rfl
  | cons b bs ih =>
    have e : batchesIssues p w k (b :: bs) = batchIssues p w k b ++ batchesIssues p w (k + 1) bs := by
      simp [batchesIssues, List.enumFrom_cons, List.flatMap_cons]
    rw [e, List.map_append, batchIssues_fst, ih, List.flatten_cons]

theorem expectedIssues_fst (p : Processor) (w : World) (violations : List AxeViolation) :
    (expectedIssues p w violations).map Prod.fst = violations := by
  unfold expectedIssues
  rw [batchesIssues_fst, createBatches_flatten violations 10 (by decide)]

theorem countP_fst (done : List (AxeViolation × Issue)) (q : AxeViolation → Bool) :
    done.countP (fun e => q e.1) = (done.map Prod.fst).countP q := by
  rw [List.countP_map]
  rfl

/-- Every finding has one of the four known severities or another one. -/
theorem count_by_severity (vs : List AxeViolation) :
    vs.length =
      vs.countP (fun v => v.Impact = "critical".toList) +
      vs.countP (fun v => v.Impact = "serious".toList) +
      vs.countP (fun v => v.Impact = "moderate".toList) +
      vs.countP (fun v => v.Impact = "minor".toList) +
      vs.countP (fun v => v.Impact ∉ impactLevels) := by
  induction vs with
  | nil => rfl
  | cons v vs ih =>
    simp only [List.length_cons, List.countP_cons, ih]
    by_cases h1 : v.Impact = "critical".toList
    · simp [h1, impactLevels]; omega
    · by_cases h2 : v.Impact = "serious".toList
      · simp [h2, impactLevels]; omega
      · by_cases h3 : v.Impact = "moderate".toList
        · simp [h3, impactLevels]; omega
        · by_cases h4 : v.Impact = "minor".toList
          · simp [h4, impactLevels]; omega
          · have hn : v.Impact ∉ impactLevels := by
              unfold impactLevels
              simp only [List.mem_cons, List.mem_singleton, List.not_mem_nil, or_false]
              tauto
            have e1 : decide (v.Impact = "critical".toList) = false := decide_eq_false h1
            have e2 : decide (v.Impact = "serious".toList) = false := decide_eq_false h2
            have e3 : decide (v.Impact = "moderate".toList) = false := decide_eq_false h3
            have e4 : decide (v.Impact = "minor".toList) = false := decide_eq_false h4
            have e5 : decide (v.Impact ∉ impactLevels) = true := decide_eq_true hn
            simp only [e1, e2, e3, e4, e5, Bool.false_eq_true, if_false, if_true]
            omega

/-- C12: for every list of findings the named counters count the findings of exactly
that severity; for every severity string, the impact score (0 for a missing key) is the
number of findings of that severity and is the length of that bucket (empty for a
missing key); so `TotalIssues` is the sum of the four named counters plus the number of
findings with another severity. -/
theorem ProcessViolations_counters (p : Processor) (w : World) (url : Str)
    (violations : List AxeViolation) (jobID : Str) :
    ∃ report, ProcessViolations p w url violations jobID = some (report, none) ∧
      report.Summary.Critical = violations.countP (fun v => v.Impact = "critical".toList) ∧
      report.Summary.Serious = violations.countP (fun v => v.Impact = "serious".toList) ∧
      report.Summary.Moderate = violations.countP (fun v => v.Impact = "moderate".toList) ∧
      report.Summary.Minor = violations.countP (fun v => v.Impact = "minor".toList) ∧
      (∀ s, (report.Summary.ImpactScores.get s).getD 0
          = violations.countP (fun v => v.Impact = s) ∧
        ((report.IssuesByImpact.get s).getD []).length
          = violations.countP (fun v => v.Impact = s)) ∧
      report.Summary.TotalIssues =
        report.Summary.Critical + report.Summary.Serious + report.Summary.Moderate +
          report.Summary.Minor + violations.countP (fun v => v.Impact ∉ impactLevels) ∧
      report.Summary.TotalIssues -
          (report.Summary.Critical + report.Summary.Serious + report.Summary.Moderate +
            report.Summary.Minor)
        = violations.countP (fun v => v.Impact ∉ impactLevels) := by
  obtain ⟨r, hr, hid, hurl, ht, hc, hs, hmo, hmi, hsc, hb, hk, hn⟩ :=
    ProcessViolations_built p w url violations jobID
  have hf := expectedIssues_fst p w violations
  have hcnt : ∀ q : AxeViolation → Bool,
      (expectedIssues p w violations).countP (fun e => q e.1) = violations.countP q := by
    intro q
    rw [countP_fst, hf]
  have hc' : r.Summary.Critical = violations.countP (fun v => v.Impact = "critical".toList) :=
    hc.trans (hcnt (fun v => decide (v.Impact = "critical".toList)))
  have hs' : r.Summary.Serious = violations.countP (fun v => v.Impact = "serious".toList) :=
    hs.trans (hcnt (fun v => decide (v.Impact = "serious".toList)))
  have hmo' : r.Summary.Moderate = violations.countP (fun v => v.Impact = "moderate".toList) :=
    hmo.trans (hcnt (fun v => decide (v.Impact = "moderate".toList)))
  have hmi' : r.Summary.Minor = violations.countP (fun v => v.Impact = "minor".toList) :=
    hmi.trans (hcnt (fun v => decide (v.Impact = "minor".toList)))
  have ht' : r.Summary.TotalIssues = violations.length := by
    rw [ht, ← List.length_map (expectedIssues p w violations) Prod.fst, hf]
  have hpart := count_by_severity violations
  refine ⟨_, hr, hc', hs', hmo', hmi', ?_, ?_, ?_⟩
  · intro s
    refine ⟨(hsc s).trans (hcnt (fun v => decide (v.Impact = s))), ?_⟩
    show ((GoMap.get r.IssuesByImpact s).getD []).length = _
    rw [hb s, List.length_map, ← List.countP_eq_length_filter]
    exact hcnt (fun v => decide (v.Impact = s))
  · show r.Summary.TotalIssues = _
    rw [ht', hc', hs', hmo', hmi']
    exact hpart
  · show r.Summary.TotalIssues - _ = _
    rw [ht', hc', hs', hmo', hmi']
    omega

/-! ## Frequent issues -/

theorem foldl_flatMap_buckets (entries : List (Str × List Issue))
    (acc : GoMap Nat × GoMap Str) :
    entries.foldl (fun acc entry => entry.2.foldl countStep acc) acc
      = (entries.flatMap (fun bucket => bucket.2)).foldl countStep acc := by
  induction entries generalizing acc with
  | nil => rfl
  | cons e es ih =>
    rw [List.foldl_cons, ih, List.flatMap_cons, List.foldl_append]

theorem countIssues_eq (w : World) (report : Report) :
    countIssues w report = (report.traversal w).foldl countStep ([], []) :=
  foldl_flatMap_buckets _ _

theorem World.range_perm {V : Type} (w : World) (k : Nat) (m : GoMap V) :
    (w.range k m).Perm m :=
  List.perm_insertionSort _ _

theorem traversal_perm (w : World) (report : Report) :
    (report.traversal w).Perm report.allIssues :=
  List.Perm.flatMap_right _ (w.range_perm 0 _)

theorem GoMap.get_of_mem {V : Type} (m : GoMap V) (k : Str) (v : V)
    (hn : (GoMap.keys m).Nodup) (h : (k, v) ∈ m) : GoMap.get m k = some v := by
  induction m with
  | nil => exact absurd h (List.not_mem_nil _)
  | cons e rest ih =>
    obtain ⟨k', v'⟩ := e
    rw [GoMap.keys_cons, List.nodup_cons] at hn
    rw [GoMap.get_cons]
    rcases List.mem_cons.mp h with h1 | h1
    · simp only [Prod.mk.injEq] at h1
      rw [if_pos h1.1.symm, h1.2]
    · have hk : k' ≠ k := by
        intro e
        apply hn.1
        rw [e]
        exact List.mem_map.mpr ⟨(k, v), h1, rfl⟩
      rw [if_neg hk]
      exact ih hn.2 h1

theorem GoMap.mem_keys_of_get {V : Type} (m : GoMap V) (k : Str) (v : V)
    (h : GoMap.get m k = some v) : k ∈ GoMap.keys m := by
  by_contra hk
  rw [(GoMap.get_none_iff m k).mpr hk] at h
  exact absurd h (by simp)

theorem countStep_countsOf (acc : GoMap Nat × GoMap Str) (seen : List Issue) (x : Issue)
    (h : countsOf acc seen) : countsOf (countStep acc x) (seen ++ [x]) := by
  obtain ⟨hc, hk, hn, ht⟩ := h
  have hkeys : ∀ id, id ∈ GoMap.keys (countStep acc x).1 ↔ ∃ issue ∈ seen ++ [x], issue.ID = id := by
    intro id
    show id ∈ GoMap.keys (GoMap.set acc.1 x.ID _) ↔ _
    rw [GoMap.keys_set]
    constructor
    · intro hmem
      split at hmem
      · obtain ⟨i, hi, hid⟩ := (hk id).mp hmem
        exact ⟨i, List.mem_append_left _ hi, hid⟩
      · rcases List.mem_append.mp hmem with h1 | h1
        · obtain ⟨i, hi, hid⟩ := (hk id).mp h1
          exact ⟨i, List.mem_append_left _ hi, hid⟩
        · rw [List.mem_singleton] at h1
          exact ⟨x, List.mem_append_right _ (List.mem_singleton_self _), h1.symm⟩
    · rintro ⟨i, hi, hid⟩
      have hcase : id ∈ GoMap.keys acc.1 ∨ id = x.ID := by
        rcases List.mem_append.mp hi with h1 | h1
        · exact Or.inl ((hk id).mpr ⟨i, h1, hid⟩)
        · rw [List.mem_singleton] at h1
          rw [h1] at hid
          exact Or.inr hid.symm
      split
      · rename_i hx
        rcases hcase with h1 | h1
        · exact h1
        · rw [h1]; exact hx
      · rcases hcase with h1 | h1
        · exact List.mem_append_left _ h1
        · rw [h1]; exact List.mem_append_right _ (List.mem_singleton_self _)
  refine ⟨?_, hkeys, GoMap.keys_set_nodup _ _ _ hn, ?_⟩
  · intro id
    show (GoMap.get (GoMap.set acc.1 x.ID _) id).getD 0 = _
    rw [List.countP_append]
    by_cases e : x.ID = id
    · subst e
      rw [GoMap.get_set_self, Option.getD_some, hc x.ID]
      simp [List.countP_cons]
    · rw [GoMap.get_set_other _ _ _ _ (Ne.symm e), hc id]
      simp [List.countP_cons, e]
  · intro id hid
    show ∃ title, GoMap.get (GoMap.set acc.2 x.ID x.Title) id = some title ∧ _
    by_cases e : x.ID = id
    · subst e
      exact ⟨x.Title, GoMap.get_set_self _ _ _,
        x, List.mem_append_right _ (List.mem_singleton_self _), rfl, rfl⟩
    · rw [GoMap.get_set_other _ _ _ _ (Ne.symm e)]
      have hid' : id ∈ GoMap.keys acc.1 := by
        obtain ⟨i, hi, hii⟩ := (hkeys id).mp hid
        rcases List.mem_append.mp hi with h1 | h1
        · exact (hk id).mpr ⟨i, h1, hii⟩
        · rw [List.mem_singleton] at h1
          rw [h1] at hii
          exact absurd hii e
      obtain ⟨title, hg, i, hi, hii, hit⟩ := ht id hid'
      exact ⟨title, hg, i, List.mem_append_left _ hi, hii, hit⟩

theorem foldl_countStep (l seen : List Issue) (acc : GoMap Nat × GoMap Str)
    (h : countsOf acc seen) : countsOf (l.foldl countStep acc) (seen ++ l) := by
  induction l generalizing seen acc with
  | nil => simpa using h
  | cons x xs ih =>
    rw [List.foldl_cons]
    have := ih (seen ++ [x]) (countStep acc x) (countStep_countsOf acc seen x h)
    simpa using this

theorem countIssues_countsOf (w : World) (report : Report) :
    countsOf (countIssues w report) (report.traversal w) := by
  rw [countIssues_eq]
  have h0 : countsOf ([], []) [] :=
    ⟨fun _ => rfl, fun id => by simp [GoMap.keys], List.nodup_nil,
      fun id hid => absurd hid (List.not_mem_nil _)⟩
  simpa using foldl_countStep (report.traversal w) [] ([], []) h0

theorem foldl_common (names : GoMap Str) (entries : List (Str × Nat)) (acc : List Str) :
    entries.foldl
        (fun common entry =>
          if entry.2 ≥ 2 then
            common ++ [(names.get entry.1).getD [] ++ " (".toList ++ fmtInt entry.2 ++ [')']]
          else common)
        acc
      = acc ++ (entries.filter (fun entry => 2 ≤ entry.2)).map
          (fun entry => commonEntry ((names.get entry.1).getD []) entry.2) := by
  induction entries generalizing acc with
  | nil => simp
  | cons e es ih =>
    rw [List.foldl_cons, ih]
    by_cases h : 2 ≤ e.2
    · simp [List.filter_cons, h, commonEntry]
    · simp [List.filter_cons, h]

/-- The entries of the frequent-issues note: the first three, in the order the map of
counts is ranged over, of the rule ids counted at least twice. -/
theorem findCommonIssues_eq (w : World) (report : Report) :
    findCommonIssues w report =
      (((w.range 1 (countIssues w report).1).filter (fun entry => 2 ≤ entry.2)).map
        (fun entry => commonEntry (((countIssues w report).2.get entry.1).getD []) entry.2)).take
          3 := by
  unfold findCommonIssues
  simp only
  rw [foldl_common, List.nil_append]
  split
  · rfl
  · rename_i h
    rw [List.take_of_length_le (by omega)]

theorem occurrences_traversal (w : World) (report : Report) (id : Str) :
    (report.traversal w).countP (fun issue => issue.ID = id) = report.occurrences id :=
  (traversal_perm w report).countP_eq _

theorem counts_entry (w : World) (report : Report) (e : Str × Nat)
    (he : e ∈ (countIssues w report).1) : e.2 = report.occurrences e.1 := by
  obtain ⟨hc, _, hn, _⟩ := countIssues_countsOf w report
  have hg := GoMap.get_of_mem _ e.1 e.2 hn he
  have := hc e.1
  rw [hg, Option.getD_some, occurrences_traversal] at this
  exact this

theorem counts_keys_perm (w : World) (report : Report) :
    (GoMap.keys (countIssues w report).1).Perm (report.allIssues.map Issue.ID).dedup := by
  obtain ⟨_, hk, hn, _⟩ := countIssues_countsOf w report
  rw [List.perm_ext_iff_of_nodup hn (List.nodup_dedup _)]
  intro id
  rw [hk id, List.mem_dedup, List.mem_map]
  constructor
  · rintro ⟨i, hi, hid⟩
    exact ⟨i, (traversal_perm w report).mem_iff.mp hi, hid⟩
  · rintro ⟨i, hi, hid⟩
    exact ⟨i, (traversal_perm w report).mem_iff.mpr hi, hid⟩

/-- The rule ids counted at least twice are the frequent ids of the report. -/
theorem counts_frequent_length (w : World) (report : Report) :
    ((w.range 1 (countIssues w report).1).filter (fun entry => 2 ≤ entry.2)).length
      = report.frequentIds.length := by
  have h1 : ((w.range 1 (countIssues w report).1).filter (fun entry => 2 ≤ entry.2)).length
      = ((countIssues w report).1.filter (fun entry => 2 ≤ entry.2)).length :=
    ((w.range_perm 1 _).filter _).length_eq
  have h2 : (countIssues w report).1.filter (fun entry => decide (2 ≤ entry.2))
      = (countIssues w report).1.filter
          ((fun id => decide (2 ≤ report.occurrences id)) ∘ Prod.fst) := by
    apply List.filter_congr
    intro e he
    simp only [Function.comp_apply]
    rw [counts_entry w report e he]
  have h3 : (((countIssues w report).1.filter
      ((fun id => decide (2 ≤ report.occurrences id)) ∘ Prod.fst)).map Prod.fst)
      = (GoMap.keys (countIssues w report).1).filter
          (fun id => decide (2 ≤ report.occurrences id)) :=
    (List.filter_map Prod.fst _).symm
  rw [h1, h2, ← List.length_map _ Prod.fst, h3]
  exact ((counts_keys_perm w report).filter _).length_eq

theorem findCommonIssues_length (w : World) (report : Report) :
    (findCommonIssues w report).length = min 3 report.frequentIds.length := by
  rw [findCommonIssues_eq, List.length_take, List.length_map, counts_frequent_length]

theorem mem_frequentIds (report : Report) (id : Str) :
    id ∈ report.frequentIds ↔ 2 ≤ report.occurrences id := by
  unfold Report.frequentIds
  rw [List.mem_filter, List.mem_dedup, List.mem_map]
  simp only [decide_eq_true_eq]
  constructor
  · exact fun h => h.2
  · intro h
    refine ⟨?_, h⟩
    have hpos : 0 < report.allIssues.countP (fun issue => issue.ID = id) := by
      unfold Report.occurrences at h
      omega
    obtain ⟨i, hi, hid⟩ := List.countP_pos_iff.mp hpos
    exact ⟨i, hi, by simpa using hid⟩

theorem findCommonIssues_nil_iff (w : World) (report : Report) :
    findCommonIssues w report = [] ↔ ∀ id, report.occurrences id < 2 := by
  rw [← List.length_eq_zero, findCommonIssues_length]
  constructor
  · intro h id
    by_contra hge
    have hm := (mem_frequentIds report id).mpr (by omega)
    have := List.length_pos_of_mem hm
    omega
  · intro h
    have : report.frequentIds = [] := by
      rw [List.eq_nil_iff_forall_not_mem]
      intro id hid
      have := (mem_frequentIds report id).mp hid
      have := h id
      omega
    rw [this]
    rfl

/-- Every entry of the frequent-issues note is made of the title of an issue of some
rule id and of the number of occurrences of that id, which is at least 2. -/
theorem findCommonIssues_entry (w : World) (report : Report) (entry : Str)
    (h : entry ∈ findCommonIssues w report) :
    ∃ id, 2 ≤ report.occurrences id ∧
      ∃ issue ∈ report.allIssues, issue.ID = id ∧
        entry = commonEntry issue.Title (report.occurrences id) := by
  rw [findCommonIssues_eq] at h
  have h' := List.mem_of_mem_take h
  rw [List.mem_map] at h'
  obtain ⟨e, he, hee⟩ := h'
  rw [List.mem_filter] at he
  obtain ⟨hmem, h2⟩ := he
  have hmem' : e ∈ (countIssues w report).1 := (w.range_perm 1 _).mem_iff.mp hmem
  have hocc := counts_entry w report e hmem'
  obtain ⟨_, _, hn, ht⟩ := countIssues_countsOf w report
  have hkey : e.1 ∈ GoMap.keys (countIssues w report).1 :=
    List.mem_map.mpr ⟨e, hmem', rfl⟩
  obtain ⟨title, hg, i, hi, hid, hit⟩ := ht e.1 hkey
  refine ⟨e.1, ?_, i, (traversal_perm w report).mem_iff.mp hi, hid, ?_⟩
  · rw [← hocc]
    simpa using h2
  · rw [← hee, hg, Option.getD_some, hit, hocc]

theorem mem_frequentNote (w : World) (report : Report) (common : List Str) :
    frequentNote common ∈ generateRecommendations w report ↔
      0 < (findCommonIssues w report).length ∧
        frequentNote common = frequentNote (findCommonIssues w report) := by
  rw [mem_generateRecommendations, mem_recommendationNotes]
  constructor
  · rintro ((⟨_, h⟩ | ⟨_, h⟩ | ⟨_, h⟩ | h) | ⟨_, h⟩)
    · exact absurd h.symm
        (tag_ne _ _ (by rw [criticalWarning_take, frequentNote_take]; decide))
    · exact absurd h.symm
        (tag_ne _ _ (by rw [seriousWarning_take, frequentNote_take]; decide))
    · exact absurd h.symm (tag_ne _ _ (by rw [expertNote_take, frequentNote_take]; decide))
    · exact h
    · exact absurd h (tag_ne _ _ (by rw [frequentNote_take, positiveMessage_take]; decide))
  · intro h
    exact Or.inl (Or.inr (Or.inr (Or.inr h)))

/-- C14: for every report, a frequent-issues note is among the recommendations if and
only if some rule id occurs at least twice over all buckets, and then it is the note of
the entries of `findCommonIssues`; these are exactly `min 3 k` entries, `k` being the
number of distinct rule ids that occur at least twice, and each entry carries the
number of occurrences, at least 2, of a rule id of the report. -/
theorem frequentNote_threshold (w : World) (report : Report) :
    ((∃ common, frequentNote common ∈ generateRecommendations w report) ↔
      ∃ id, 2 ≤ report.occurrences id) ∧
    (∀ common, frequentNote common ∈ generateRecommendations w report →
      frequentNote common = frequentNote (findCommonIssues w report)) ∧
    (findCommonIssues w report).length = min 3 report.frequentIds.length ∧
    (∀ id, id ∈ report.frequentIds ↔ 2 ≤ report.occurrences id) ∧
    report.frequentIds.Nodup ∧
    (∀ entry ∈ findCommonIssues w report, ∃ id title,
      2 ≤ report.occurrences id ∧ entry = commonEntry title (report.occurrences id)) := by
  refine ⟨?_, ?_, findCommonIssues_length w report, mem_frequentIds report, ?_, ?_⟩
  · constructor
    · rintro ⟨common, h⟩
      have hpos := ((mem_frequentNote w report common).mp h).1
      by_contra hno
      have hnil : findCommonIssues w report = [] := by
        rw [findCommonIssues_nil_iff]
        intro id
        by_contra hge
        exact hno ⟨id, by omega⟩
      rw [hnil] at hpos
      exact absurd hpos (by simp)
    · rintro ⟨id, hid⟩
      refine ⟨findCommonIssues w report, (mem_frequentNote w report _).mpr ⟨?_, rfl⟩⟩
      rw [List.length_pos]
      intro hnil
      have := (findCommonIssues_nil_iff w report).mp hnil id
      omega
  · intro common h
    exact ((mem_frequentNote w report common).mp h).2
  · exact (List.nodup_dedup _).filter _
  · intro entry h
    obtain ⟨id, h2, issue, _, _, he⟩ := findCommonIssues_entry w report entry h
    exact ⟨id, issue.Title, h2, he⟩

/-- C15: the frequent-issues note is not the top 3. Rules a, b and c occur twice and
rule d three times. Ranged over in insertion order, the note lists a, b and c and omits
d, the most frequent; ranged over with d first, it lists d, a and b: the same report
has two notes; ranged over with a first and d second, it lists a before d, the less
frequent before the more frequent. Every entry names its rule by the title, not by the
rule id. -/
theorem frequentNote_not_top3 :
    findCommonIssues quietWorld fourRules
      = ["Rule A (2)".toList, "Rule B (2)".toList, "Rule C (2)".toList] ∧
    fourRules.occurrences "rule-d".toList = 3 ∧
    fourRules.occurrences "rule-c".toList = 2 ∧
    findCommonIssues ruleDFirst fourRules
      = ["Rule D (3)".toList, "Rule A (2)".toList, "Rule B (2)".toList] ∧
    findCommonIssues quietWorld fourRules ≠ findCommonIssues ruleDFirst fourRules ∧
    commonEntry "rule-d".toList 3 ∉ findCommonIssues ruleDFirst fourRules ∧
    findCommonIssues ruleDSecond fourRules
      = ["Rule A (2)".toList, "Rule D (3)".toList, "Rule B (2)".toList] := by
  decide

/-- What the frequent-issues note does hold for every report and every order of
ranging: its entries stand for at most 3 distinct rule ids, each occurring at least
twice; the entry of a rule id is the title of an issue of that id followed by the
number of occurrences of the id in parentheses. -/
theorem frequentNote_entries (w : World) (report : Report) :
    ∃ ids : List Str, ids.Nodup ∧ ids.length ≤ 3 ∧
      List.Forall₂
        (fun id entry => 2 ≤ report.occurrences id ∧
          ∃ issue ∈ report.allIssues, issue.ID = id ∧
            entry = commonEntry issue.Title (report.occurrences id))
        ids (findCommonIssues w report) := by
  obtain ⟨_, _, hn, ht⟩ := countIssues_countsOf w report
  refine ⟨(((w.range 1 (countIssues w report).1).filter
    (fun entry => 2 ≤ entry.2)).take 3).map Prod.fst, ?_, ?_, ?_⟩
  · have hsub : ((((w.range 1 (countIssues w report).1).filter
        (fun entry => 2 ≤ entry.2)).take 3).map Prod.fst).Sublist
        ((w.range 1 (countIssues w report).1).map Prod.fst) :=
      ((List.take_sublist _ _).trans (List.filter_sublist _)).map _
    have hnd : ((w.range 1 (countIssues w report).1).map Prod.fst).Nodup :=
      ((w.range_perm 1 _).map Prod.fst).nodup_iff.mpr hn
    exact hnd.sublist hsub
  · rw [List.length_map, List.length_take]
    omega
  · rw [findCommonIssues_eq, ← List.map_take, List.forall₂_map_left_iff,
      List.forall₂_map_right_iff, List.forall₂_same]
    intro e he
    have he' := List.mem_of_mem_take he
    rw [List.mem_filter] at he'
    obtain ⟨hmem, h2⟩ := he'
    have hmem' : e ∈ (countIssues w report).1 := (w.range_perm 1 _).mem_iff.mp hmem
    have hocc := counts_entry w report e hmem'
    have hkey : e.1 ∈ GoMap.keys (countIssues w report).1 :=
      List.mem_map.mpr ⟨e, hmem', rfl⟩
    obtain ⟨title, hg, i, hi, hid, hit⟩ := ht e.1 hkey
    refine ⟨?_, i, (traversal_perm w report).mem_iff.mp hi, hid, ?_⟩
    · rw [← hocc]
      simpa using h2
    · rw [hg, Option.getD_some, hit, hocc]

theorem generateRecommendations_positive (w : World) (report : Report) :
    generateRecommendations w report ≠ [] ∧
    (generateRecommendations w report = [positiveMessage] ↔
      report.Summary.Critical = 0 ∧ report.Summary.Serious = 0 ∧
        report.Summary.TotalIssues ≤ 10 ∧ ∀ id, report.occurrences id < 2) ∧
    (positiveMessage ∈ generateRecommendations w report →
      generateRecommendations w report = [positiveMessage]) := by
  have hnil := recommendationNotes_nil report (findCommonIssues w report)
  rw [findCommonIssues_nil_iff] at hnil
  have hnot := positiveMessage_not_note report (findCommonIssues w report)
  rw [generateRecommendations_eq]
  by_cases h : recommendationNotes report (findCommonIssues w report) = []
  · rw [if_pos h]
    exact ⟨by simp, ⟨fun _ => hnil.mp h, fun _ => rfl⟩, fun _ => rfl⟩
  · rw [if_neg h]
    refine ⟨h, ⟨?_, ?_⟩, ?_⟩
    · intro he
      rw [he] at hnot
      exact absurd (List.mem_singleton_self _) hnot
    · intro hc
      exact absurd (hnil.mpr hc) h
    · intro hm
      exact absurd hm hnot

/-- C16: for every list of findings, the recommendations of the report are never
empty; they are exactly the one positive message if and only if `Critical = 0`,
`Serious = 0`, `TotalIssues ≤ 10` and no rule id occurs twice or more over the buckets;
and the positive message never comes with another recommendation. -/
theorem ProcessViolations_recommendations (p : Processor) (w : World) (url : Str)
    (violations : List AxeViolation) (jobID : Str) :
    ∃ report, ProcessViolations p w url violations jobID = some (report, none) ∧
      report.Recommendations ≠ [] ∧
      (report.Recommendations = [positiveMessage] ↔
        report.Summary.Critical = 0 ∧ report.Summary.Serious = 0 ∧
          report.Summary.TotalIssues ≤ 10 ∧ ∀ id, report.occurrences id < 2) ∧
      (positiveMessage ∈ report.Recommendations →
        report.Recommendations = [positiveMessage]) := by
  obtain ⟨r, hr, _⟩ := ProcessViolations_built p w url violations jobID
  exact ⟨_, hr, generateRecommendations_positive w r⟩

/-- C17: for an empty list of findings there is no batch, hence no enrichment call,
and the builder returns, without error, the report with `TotalIssues = 0`, the four
named counters 0, the four buckets critical, serious, moderate, minor, all empty, and
the positive message as only recommendation. -/
theorem ProcessViolations_empty (p : Processor) (w : World) (url jobID : Str) :
    createBatches [] 10 = [] ∧
    ProcessViolations p w url [] jobID =
      some
        ({ ID := jobID
           URL := url
           Summary :=
             { TotalIssues := 0, Critical := 0, Serious := 0, Moderate := 0, Minor := 0
               ImpactScores := [] }
           IssuesByImpact :=
             [("critical".toList, []), ("serious".toList, []), ("moderate".toList, []),
              ("minor".toList, [])]
           Recommendations := [positiveMessage] }, none) := by
  refine ⟨rfl, ?_⟩
  have hrec : generateRecommendations w (emptyReport url jobID) = [positiveMessage] := by
    rw [(generateRecommendations_positive w _).2.1]
    rw [emptyReport_eq]
    exact ⟨rfl, rfl, Nat.zero_le 10, fun _ => Nat.zero_lt_two⟩
  have e : ProcessViolations p w url [] jobID =
      some ({ emptyReport url jobID with
        Recommendations := generateRecommendations w (emptyReport url jobID) }, none) := rfl
  rw [e, hrec, emptyReport_eq]

/-! ## The issues of a run -/

theorem mem_batchIssues (p : Processor) (w : World) (call : Nat) (batch : List AxeViolation)
    (e : AxeViolation × Issue) (h : e ∈ batchIssues p w call batch) :
    ∃ d, d ∈ batchDescriptions p w call batch ∧ e.1 ∈ batch ∧
      e.2 = convertViolationToIssueWithAI e.1 d := by
  unfold batchIssues at h
  rw [List.mem_map] at h
  obtain ⟨vd, hvd, rfl⟩ := h
  obtain ⟨h1, h2⟩ := List.of_mem_zip hvd
  exact ⟨vd.2, h2, h1, rfl⟩

theorem mem_batchesIssues (p : Processor) (w : World) (k : Nat)
    (batches : List (List AxeViolation)) (e : AxeViolation × Issue)
    (h : e ∈ batchesIssues p w k batches) :
    ∃ call batch, batch ∈ batches ∧ e ∈ batchIssues p w call batch := by
  induction batches generalizing k with
  | nil => exact absurd h (List.not_mem_nil _)
  | cons b bs ih =>
    have eq : batchesIssues p w k (b :: bs)
        = batchIssues p w k b ++ batchesIssues p w (k + 1) bs := by
      simp [batchesIssues, List.enumFrom_cons, List.flatMap_cons]
    rw [eq, List.mem_append] at h
    rcases h with h | h
    · exact ⟨k, b, List.mem_cons_self _ _, h⟩
    · obtain ⟨call, batch, hb, he⟩ := ih (k + 1) h
      exact ⟨call, batch, List.mem_cons_of_mem _ hb, he⟩

/-- Every issue in a bucket of a built report is the issue of one of the findings. -/
theorem built_bucket_mem (report : Report) (url jobID : Str)
    (done : List (AxeViolation × Issue)) (h : report.built url jobID done)
    (bucket : Str × List Issue) (hb : bucket ∈ report.IssuesByImpact) (issue : Issue)
    (hi : issue ∈ bucket.2) : ∃ e ∈ done, e.2 = issue := by
  obtain ⟨_, _, _, _, _, _, _, _, hbk, _, hn⟩ := h
  have hg := GoMap.get_of_mem report.IssuesByImpact bucket.1 bucket.2 hn hb
  have := hbk bucket.1
  rw [hg, Option.getD_some] at this
  rw [this, List.mem_map] at hi
  obtain ⟨e, he, hei⟩ := hi
  exact ⟨e, List.mem_of_mem_filter he, hei⟩

theorem offline_batchDescriptions (p : Processor) (w : World) (call : Nat)
    (batch : List AxeViolation) (hkey : p.aiClient.apiKey = []) (d : Str)
    (hd : d ∈ batchDescriptions p w call batch) : d = p.aiClient.mockTranslate [] := by
  unfold batchDescriptions AIClient.TranslateBatch at hd
  by_cases h0 : (List.map problemPrompt batch).length = 0
  · rw [if_pos h0] at hd
    exact absurd hd (List.not_mem_nil _)
  · rw [if_neg h0, if_pos hkey] at hd
    simp only [List.mem_map] at hd
    obtain ⟨_, _, rfl⟩ := hd
    rfl

theorem fixes_nonempty : ∀ e ∈ fixes, e.2 ≠ [] := by decide

theorem genericFix_ne_nil : genericFix ≠ [] := by decide

/-- The built-in remediation is empty exactly when it falls back on an empty message. -/
theorem generateHowToFix_nil_iff (v : AxeViolation) :
    generateHowToFix v = [] ↔ fallsBackOnEmptyMessage v = true := by
  unfold generateHowToFix fallsBackOnEmptyMessage
  cases hf : GoMap.get fixes v.ID with
  | some fix =>
    have := fixes_nonempty _ (GoMap.mem_of_get _ _ _ hf)
    simp [this]
  | none =>
    cases hn : v.Nodes with
    | nil => simp [genericFix_ne_nil]
    | cons node nodes =>
      cases ha : node.All with
      | nil => simp [ha, genericFix_ne_nil]
      | cons check checks => simp [ha]

set_option maxRecDepth 100000 in
theorem convert_offline (c : AIClient) (v : AxeViolation) :
    (convertViolationToIssueWithAI v (c.mockTranslate [])).Description ≠ [] ∧
    (convertViolationToIssueWithAI v (c.mockTranslate [])).HowToFix = generateHowToFix v := by
  have hne : c.mockTranslate [] ≠ [] := mockTranslate_ne_nil c []
  have hs : Split (c.mockTranslate []) delimiter = [c.mockTranslate []] := by
    unfold AIClient.mockTranslate
    decide
  obtain ⟨h1, h2⟩ := convert_of_split_one v _ hne hs
  refine ⟨?_, h2⟩
  rw [h1]
  unfold AIClient.mockTranslate
  decide

theorem zip_replicate_map (batch : List AxeViolation) (d : Str) :
    (batch.zip (List.replicate batch.length d)).map
        (fun vd => (vd.1, convertViolationToIssueWithAI vd.1 vd.2))
      = batch.map (fun v => (v, convertViolationToIssueWithAI v d)) := by
  induction batch with
  | nil => rfl
  | cons v vs ih =>
    rw [List.length_cons, List.replicate_succ, List.zip_cons_cons, List.map_cons, ih,
      List.map_cons]

theorem offline_batchIssues (p : Processor) (w : World) (call : Nat)
    (batch : List AxeViolation) (hkey : p.aiClient.apiKey = []) :
    batchIssues p w call batch
      = batch.map (fun v => (v, convertViolationToIssueWithAI v (p.aiClient.mockTranslate []))) := by
  have hd : batchDescriptions p w call batch
      = List.replicate batch.length (p.aiClient.mockTranslate []) := by
    unfold batchDescriptions AIClient.TranslateBatch
    by_cases h0 : (List.map problemPrompt batch).length = 0
    · rw [if_pos h0]
      rw [List.length_map] at h0
      rw [h0]
      rfl
    · rw [if_neg h0, if_pos hkey]
      show List.map p.aiClient.mockTranslate (List.map problemPrompt batch) = _
      rw [List.map_map]
      apply List.eq_replicate_iff.mpr
      refine ⟨by rw [List.length_map], ?_⟩
      intro d hd
      obtain ⟨_, _, rfl⟩ := List.mem_map.mp hd
      rfl
  unfold batchIssues
  rw [hd]
  exact zip_replicate_map batch _

theorem offline_batchesIssues (p : Processor) (w : World) (k : Nat)
    (batches : List (List AxeViolation)) (hkey : p.aiClient.apiKey = []) :
    batchesIssues p w k batches
      = batches.flatten.map
          (fun v => (v, convertViolationToIssueWithAI v (p.aiClient.mockTranslate []))) := by
  induction batches generalizing k with
  | nil => rfl
  | cons b bs ih =>
    have e : batchesIssues p w k (b :: bs) = batchIssues p w k b ++ batchesIssues p w (k + 1) bs := by
      simp [batchesIssues, List.enumFrom_cons, List.flatMap_cons]
    rw [e, offline_batchIssues p w k b hkey, ih, List.flatten_cons, List.map_append]

/-- Without API key, the run makes the issue of every finding of the finding itself
and the fixed mock text. -/
theorem offline_expectedIssues (p : Processor) (w : World) (violations : List AxeViolation)
    (hkey : p.aiClient.apiKey = []) :
    expectedIssues p w violations
      = violations.map
          (fun v => (v, convertViolationToIssueWithAI v (p.aiClient.mockTranslate []))) := by
  unfold expectedIssues
  rw [offline_batchesIssues p w 0 _ hkey, createBatches_flatten violations 10 (by decide)]

set_option maxRecDepth 100000 in
/-- C19 (counterexample): without API key, a finding of a rule outside the table of
fixes whose first `all` check has an empty message gives an issue with an empty
remediation text. -/
theorem offline_howToFix_empty :
    (ProcessViolations offlineProcessor quietWorld [] [silentFinding] []).map
        (fun r => (r.1.IssuesByImpact.get "minor".toList).map (List.map Issue.HowToFix))
      = some (some [[]]) ∧
    (convertViolationToIssueWithAI silentFinding
      (offlineProcessor.aiClient.mockTranslate [])).HowToFix = [] := by
  decide

/-- C19 (amended): without API key, for every list of findings every bucket of the
report holds, in input order, one issue for each finding of its severity, made of that
finding and the fixed mock text. Such an issue has a non-empty description, and its
remediation text is the built-in one of its own finding: non-empty unless the rule id of
the finding is outside the table of fixes and the first `all` check of its first element
has an empty message. -/
theorem offline_issues_texts (p : Processor) (w : World) (url : Str)
    (violations : List AxeViolation) (jobID : Str) (hkey : p.aiClient.apiKey = []) :
    ∃ report, ProcessViolations p w url violations jobID = some (report, none) ∧
      (∀ bucket ∈ report.IssuesByImpact,
        bucket.2 = (violations.filter (fun v => v.Impact = bucket.1)).map
          (fun v => convertViolationToIssueWithAI v (p.aiClient.mockTranslate []))) ∧
      (∀ v : AxeViolation,
        (convertViolationToIssueWithAI v (p.aiClient.mockTranslate [])).Description ≠ [] ∧
        (convertViolationToIssueWithAI v (p.aiClient.mockTranslate [])).HowToFix
          = generateHowToFix v ∧
        ((convertViolationToIssueWithAI v (p.aiClient.mockTranslate [])).HowToFix = [] ↔
          fallsBackOnEmptyMessage v = true)) ∧
      ∀ bucket ∈ report.IssuesByImpact, ∀ issue ∈ bucket.2,
        issue.Description ≠ [] ∧
        ∃ v ∈ violations, v.Impact = bucket.1 ∧
          issue = convertViolationToIssueWithAI v (p.aiClient.mockTranslate []) ∧
          issue.HowToFix = generateHowToFix v ∧
          (issue.HowToFix = [] ↔ fallsBackOnEmptyMessage v = true) := by
  obtain ⟨r, hr, hb⟩ := ProcessViolations_built p w url violations jobID
  have hbucket : ∀ bucket ∈ r.IssuesByImpact,
      bucket.2 = (violations.filter (fun v => v.Impact = bucket.1)).map
        (fun v => convertViolationToIssueWithAI v (p.aiClient.mockTranslate [])) := by
    intro bucket hmem
    obtain ⟨_, _, _, _, _, _, _, _, hbk, _, hn⟩ := hb
    have hg := GoMap.get_of_mem r.IssuesByImpact bucket.1 bucket.2 hn hmem
    have := hbk bucket.1
    rw [hg, Option.getD_some, offline_expectedIssues p w violations hkey] at this
    rw [this, List.filter_map, List.map_map]
    simp only [Function.comp_def]
  have hconv : ∀ v : AxeViolation,
      (convertViolationToIssueWithAI v (p.aiClient.mockTranslate [])).Description ≠ [] ∧
      (convertViolationToIssueWithAI v (p.aiClient.mockTranslate [])).HowToFix
        = generateHowToFix v ∧
      ((convertViolationToIssueWithAI v (p.aiClient.mockTranslate [])).HowToFix = [] ↔
        fallsBackOnEmptyMessage v = true) := by
    intro v
    obtain ⟨h1, h2⟩ := convert_offline p.aiClient v
    exact ⟨h1, h2, by rw [h2]; exact generateHowToFix_nil_iff v⟩
  refine ⟨_, hr, hbucket, hconv, ?_⟩
  intro bucket hmem issue hissue
  rw [hbucket bucket hmem, List.mem_map] at hissue
  obtain ⟨v, hv, rfl⟩ := hissue
  obtain ⟨hv1, hv2⟩ := List.mem_filter.mp hv
  obtain ⟨h1, h2, h3⟩ := hconv v
  exact ⟨h1, v, hv1, by simpa using hv2, rfl, h2, h3⟩

/-- C19 (amended) at a custom finding followed by a silent one, both minor: the bucket
holds the issue of the first, then the issue of the second. -/
theorem offline_issues_texts_witness :
    offlineProcessor.aiClient.apiKey = [] ∧
    ∃ report, ProcessViolations offlineProcessor quietWorld [] [customFinding, silentFinding] []
        = some (report, none) ∧
      ∀ bucket ∈ report.IssuesByImpact,
        bucket.2 = ([customFinding, silentFinding].filter (fun v => v.Impact = bucket.1)).map
          (fun v => convertViolationToIssueWithAI v (offlineProcessor.aiClient.mockTranslate [])) :=
  ⟨rfl, by
    obtain ⟨report, h1, h2, _⟩ := offline_issues_texts offlineProcessor quietWorld []
      [customFinding, silentFinding] [] rfl
    exact ⟨report, h1, h2⟩⟩

theorem TranslateBatch_congr (c : AIClient) (w w' : World) (call : Nat) (ps : List Str)
    (h : ∀ prompt, w'.chat call prompt = w.chat call prompt) :
    c.TranslateBatch w' call ps = c.TranslateBatch w call ps := by
  unfold AIClient.TranslateBatch
  rw [h]

/-- C20: the builder never fails. For every url, job id, list of findings and outcome
of the enrichment calls it returns a report and no error; the report carries the job
id and the url, and every bucket holds, in input order, the issues of the findings of
that severity. The issues of a batch are made with the enrichments of its own call
only: with the empty string for every finding when the call fails, with the aligned
result when it succeeds, and they are the same in any world that answers this call in
the same way. -/
theorem ProcessViolations_never_fails (p : Processor) (w : World) (url : Str)
    (violations : List AxeViolation) (jobID : Str) :
    (∃ report, ProcessViolations p w url violations jobID = some (report, none) ∧
      report.ID = jobID ∧ report.URL = url ∧
      ∀ s, (report.IssuesByImpact.get s).getD []
        = ((expectedIssues p w violations).filter (fun e => e.1.Impact = s)).map Prod.snd) ∧
    (expectedIssues p w violations).map Prod.fst = violations ∧
    expectedIssues p w violations
      = (createBatches violations 10).enum.flatMap (fun kb => batchIssues p w kb.1 kb.2) ∧
    (∀ call batch err,
      p.aiClient.TranslateBatch w call (batch.map problemPrompt) = .error err →
      batchIssues p w call batch
        = batch.map (fun v => (v, convertViolationToIssueWithAI v []))) ∧
    (∀ call batch descriptions,
      p.aiClient.TranslateBatch w call (batch.map problemPrompt) = .ok descriptions →
      descriptions.length = batch.length ∧
      batchIssues p w call batch
        = (batch.zip descriptions).map
            (fun vd => (vd.1, convertViolationToIssueWithAI vd.1 vd.2))) ∧
    (∀ (w' : World) call batch, (∀ prompt, w'.chat call prompt = w.chat call prompt) →
      batchIssues p w' call batch = batchIssues p w call batch) := by
  refine ⟨?_, expectedIssues_fst p w violations, rfl, ?_, ?_, ?_⟩
  · obtain ⟨r, hr, hid, hurl, _, _, _, _, _, _, hb, _, _⟩ :=
      ProcessViolations_built p w url violations jobID
    exact ⟨_, hr, hid, hurl, hb⟩
  · intro call batch err h
    unfold batchIssues batchDescriptions
    rw [h]
    exact zip_replicate_map batch []
  · intro call batch descriptions h
    refine ⟨by simpa using TranslateBatch_length _ _ _ _ _ h, ?_⟩
    unfold batchIssues batchDescriptions
    rw [h]
  · intro w' call batch h
    unfold batchIssues batchDescriptions
    rw [TranslateBatch_congr p.aiClient w w' call _ h]

theorem ProcessViolations_never_fails_witness :
    batchIssues onlineProcessor quietWorld 0 [customFinding, silentFinding]
      = [(customFinding, convertViolationToIssueWithAI customFinding []),
         (silentFinding, convertViolationToIssueWithAI silentFinding [])] :=
  (ProcessViolations_never_fails onlineProcessor quietWorld [] [] []).2.2.2.1 0
    [customFinding, silentFinding] "unreachable".toList rfl

/-! ## The batches of `createBatches` -/

theorem createBatchesLoop_fuel (violations : List AxeViolation) (batchSize : Nat)
    (hb : 0 < batchSize) (fuel : Nat) :
    ∀ (fuel' i : Nat), violations.length ≤ i + fuel → violations.length ≤ i + fuel' →
      createBatchesLoop violations batchSize fuel i
        = createBatchesLoop violations batchSize fuel' i := by
  induction fuel with
  | zero =>
    intro fuel' i h _
    cases fuel' with
    | zero => rfl
    | succ fuel' =>
      have hi : ¬ i < violations.length := by omega
      simp only [createBatchesLoop, if_neg hi]
  | succ fuel ih =>
    intro fuel' i h h'
    cases fuel' with
    | zero =>
      have hi : ¬ i < violations.length := by omega
      simp only [createBatchesLoop, if_neg hi]
    | succ fuel' =>
      by_cases hi : i < violations.length
      · simp only [createBatchesLoop, if_pos hi]
        rw [ih fuel' (i + batchSize) (by omega) (by omega)]
      · simp only [createBatchesLoop, if_neg hi]

theorem createBatchesLoop_sizes (violations : List AxeViolation) (batchSize : Nat)
    (hb : 0 < batchSize) (fuel : Nat) :
    ∀ i : Nat, violations.length ≤ i + fuel →
      (∀ batch ∈ createBatchesLoop violations batchSize fuel i,
        0 < batch.length ∧ batch.length ≤ batchSize) ∧
      (∀ (k : Nat) (batch : List AxeViolation),
        k + 1 < (createBatchesLoop violations batchSize fuel i).length →
        (createBatchesLoop violations batchSize fuel i)[k]? = some batch →
        batch.length = batchSize) ∧
      (createBatchesLoop violations batchSize fuel i).length
        = (violations.length - i + batchSize - 1) / batchSize := by
  induction fuel with
  | zero =>
    intro i h
    have h0 : violations.length - i + batchSize - 1 < batchSize := by omega
    refine ⟨fun batch hm => ?_, fun k batch hk => ?_, ?_⟩
    · simp [createBatchesLoop] at hm
    · simp [createBatchesLoop] at hk
    · simp only [createBatchesLoop, List.length_nil]
      exact (Nat.div_eq_of_lt h0).symm
  | succ fuel ih =>
    intro i h
    by_cases hi : i < violations.length
    · obtain ⟨ih1, ih2, ih3⟩ := ih (i + batchSize) (by omega)
      have hstep : createBatchesLoop violations batchSize (fuel + 1) i
          = (violations.take (if i + batchSize > violations.length then violations.length
                else i + batchSize)).drop i
            :: createBatchesLoop violations batchSize fuel (i + batchSize) := by
        simp only [createBatchesLoop, if_pos hi]
      rw [hstep]
      have hlen : ((violations.take (if i + batchSize > violations.length then violations.length
                else i + batchSize)).drop i).length
          = min batchSize (violations.length - i) := by
        rw [List.length_drop, List.length_take]
        split <;> omega
      refine ⟨fun batch hm => ?_, fun k batch hk hget => ?_, ?_⟩
      · rcases List.mem_cons.mp hm with h1 | h1
        · rw [h1, hlen]; omega
        · exact ih1 batch h1
      · cases k with
        | zero =>
          have hrest : 0 < (createBatchesLoop violations batchSize fuel (i + batchSize)).length := by
            simpa using hk
          rw [ih3] at hrest
          have hbig : ¬ violations.length - (i + batchSize) + batchSize - 1 < batchSize := by
            intro hlt
            rw [Nat.div_eq_of_lt hlt] at hrest
            exact Nat.lt_irrefl 0 hrest
          have hb' : batch = (violations.take (if i + batchSize > violations.length then
              violations.length else i + batchSize)).drop i := by
            simpa using hget.symm
          rw [hb', hlen]; omega
        | succ k =>
          have hk' : k + 1 < (createBatchesLoop violations batchSize fuel (i + batchSize)).length := by
            simpa using hk
          exact ih2 k batch hk' (by simpa using hget)
      · rw [List.length_cons, ih3]
        by_cases hfull : i + batchSize ≤ violations.length
        · have : violations.length - i + batchSize - 1
              = (violations.length - (i + batchSize) + batchSize - 1) + batchSize := by omega
          rw [this, Nat.add_div_right _ hb]
        · have h1 : violations.length - (i + batchSize) + batchSize - 1 < batchSize := by omega
          rw [Nat.div_eq_of_lt h1]
          have h2 : violations.length - i + batchSize - 1 = (violations.length - i - 1) + batchSize := by
            omega
          rw [h2, Nat.add_div_right _ hb, Nat.div_eq_of_lt (by omega)]
    · have h0 : violations.length - i + batchSize - 1 < batchSize := by omega
      refine ⟨fun batch hm => ?_, fun k batch hk => ?_, ?_⟩
      · simp [createBatchesLoop, hi] at hm
      · simp [createBatchesLoop, hi] at hk
      · simp only [createBatchesLoop, if_neg hi, List.length_nil]
        exact (Nat.div_eq_of_lt h0).symm

/-! ## The store -/

theorem GoMap.get_delete_self {V : Type} (m : GoMap V) (k : Str) :
    (GoMap.delete m k).get k = none := by
  induction m with
  | nil => rfl
  | cons e rest ih =>
    obtain ⟨k', v⟩ := e
    by_cases h : k' = k
    · have : GoMap.delete ((k', v) :: rest) k = GoMap.delete rest k := by
        simp [GoMap.delete, List.filter_cons, h]
      rw [this]; exact ih
    · have : GoMap.delete ((k', v) :: rest) k = (k', v) :: GoMap.delete rest k := by
        simp [GoMap.delete, List.filter_cons, h]
      rw [this, GoMap.get_cons, if_neg h]; exact ih

/-- C26: for every list of findings and every batch size b > 0 the loop of
`createBatches` ends by its own condition (more rounds than the number of findings
change nothing) and the batches are an ordered partition of the input: their
concatenation is the input, every batch is non-empty with at most b findings, every
batch but the last has exactly b, there are ceil(len/b) batches, and an empty input
gives no batch. `ProcessViolations` runs over the batches of size 10. -/
theorem createBatches_partition (violations : List AxeViolation) (b : Nat) (hb : 0 < b) :
    (∀ fuel, violations.length ≤ fuel →
      createBatchesLoop violations b fuel 0 = createBatches violations b) ∧
    (createBatches violations b).flatten = violations ∧
    (∀ batch ∈ createBatches violations b, 0 < batch.length ∧ batch.length ≤ b) ∧
    (∀ (k : Nat) (batch : List AxeViolation), k + 1 < (createBatches violations b).length →
      (createBatches violations b)[k]? = some batch → batch.length = b) ∧
    (createBatches violations b).length = (violations.length + b - 1) / b ∧
    createBatches [] b = [] ∧
    ∀ (p : Processor) (w : World) (url jobID : Str),
      ProcessViolations p w url violations jobID
        = match (createBatches violations 10).enum.foldlM
            (fun report kb => processBatch p w kb.1 report kb.2) (emptyReport url jobID) with
          | none => none
          | some report =>
            some ({ report with Recommendations := generateRecommendations w report }, none) := by
  obtain ⟨h1, h2, h3⟩ := createBatchesLoop_sizes violations b hb violations.length 0 (by omega)
  refine ⟨fun fuel hf => ?_, ?_, h1, h2, ?_, rfl, fun p w url jobID => rfl⟩
  · exact createBatchesLoop_fuel violations b hb fuel violations.length 0 (by omega) (by omega)
  · unfold createBatches
    rw [createBatchesLoop_flatten violations b hb _ 0 (by omega)]
    rfl
  · rw [show createBatches violations b
        = createBatchesLoop violations b violations.length 0 from rfl, h3, Nat.sub_zero]

/-- C26 at seven findings and batches of three: batches of 3, 3 and 1. -/
theorem createBatches_partition_witness :
    0 < 3 ∧ (createBatches sevenFindings 3).map List.length = [3, 3, 1] ∧
      (createBatches sevenFindings 3).flatten = sevenFindings :=
  ⟨by decide, by decide, (createBatches_partition sevenFindings 3 (by decide)).2.1⟩

/-- C23: for every store and every id, after `DeleteJob(id)` both `GetJob(id)` and
`GetReport(id)` return their not-found error, whatever was stored under the id. -/
theorem DeleteJob_then_not_found (s : Storage) (id : Str) :
    (s.DeleteJob id).1.GetJob id = .error "job not found".toList ∧
    (s.DeleteJob id).1.GetReport id = .error "report not found".toList := by
  constructor
  · show (match (GoMap.delete s.jobs id).get id with
      | some job => Except.ok job
      | none => Except.error "job not found".toList) = _
    rw [GoMap.get_delete_self]
  · show (match (GoMap.delete s.reports id).get id with
      | some report => Except.ok report
      | none => Except.error "report not found".toList) = _
    rw [GoMap.get_delete_self]

/-- C24: `DeleteJob` returns no error for any store and id, so the delete endpoint
answers 200 with "Job deleted successfully" also for an id under which nothing is
stored, such as any id on the empty store. -/
theorem DeleteJob_unknown_id_succeeds (s : Storage) (id : Str) :
    (s.DeleteJob id).2 = none ∧
    (Handler.DeleteJob s id).2 = .success 200 "Job deleted successfully".toList ∧
    NewStorage.GetJob id = .error "job not found".toList ∧
    (Handler.DeleteJob NewStorage id).2 = .success 200 "Job deleted successfully".toList :=
  ⟨rfl, rfl, rfl, rfl⟩

/-! ## The goroutine of `ProcessAnalysis` -/

theorem pipelineRun_halt (process : Str → List AxeViolation → Str → Option (Report × Option Str))
    (job : Nat) (violations : List AxeViolation) (r : Run)
    (h : pipelineStep process job violations r = none) (n : Nat) :
    pipelineRun process job violations n r = r := by
  cases n with
  | zero => rfl
  | succ n => simp only [pipelineRun, h]

theorem pipelineRun_add (process : Str → List AxeViolation → Str → Option (Report × Option Str))
    (job : Nat) (violations : List AxeViolation) (a b : Nat) :
    ∀ r : Run, pipelineRun process job violations (a + b) r
      = pipelineRun process job violations b (pipelineRun process job violations a r) := by
  induction a with
  | zero => intro r; rw [Nat.zero_add]; rfl
  | succ a ih =>
    intro r
    rw [Nat.add_right_comm]
    cases h : pipelineStep process job violations r with
    | none =>
      simp only [pipelineRun, h]
      exact (pipelineRun_halt process job violations r h b).symm
    | some next =>
      simp only [pipelineRun, h]
      exact ih next

theorem pipelineSaves_halt (process : Str → List AxeViolation → Str → Option (Report × Option Str))
    (job : Nat) (violations : List AxeViolation) (r : Run)
    (h : pipelineStep process job violations r = none) (n : Nat) :
    pipelineSaves process job violations n r = [] := by
  cases n with
  | zero => rfl
  | succ n => simp only [pipelineSaves, h]

theorem pipelineSaves_add (process : Str → List AxeViolation → Str → Option (Report × Option Str))
    (job : Nat) (violations : List AxeViolation) (a b : Nat) :
    ∀ r : Run, pipelineSaves process job violations (a + b) r
      = pipelineSaves process job violations a r
        ++ pipelineSaves process job violations b (pipelineRun process job violations a r) := by
  induction a with
  | zero => intro r; rw [Nat.zero_add]; rfl
  | succ a ih =>
    intro r
    rw [Nat.add_right_comm]
    cases h : pipelineStep process job violations r with
    | none =>
      simp only [pipelineSaves, pipelineRun, h, List.nil_append]
      exact (pipelineSaves_halt process job violations r h b).symm
    | some next =>
      simp only [pipelineSaves, pipelineRun, h, List.append_assoc]
      rw [ih next]

theorem status_facts :
    StatusPending ≠ StatusCompleted ∧ StatusProcessing ≠ StatusCompleted ∧
    StatusPending ≠ StatusFailed ∧ StatusProcessing ≠ StatusFailed ∧
    StatusCompleted ≠ StatusFailed ∧ StatusPending ≠ StatusProcessing := by decide

/-- The goroutine of a run in which the builder returns a report and no error stops
after twelve statements. -/
theorem pipelineRun_stable (process : Str → List AxeViolation → Str → Option (Report × Option Str))
    (job : Nat) (violations : List AxeViolation) (m : Mem) (report : Report)
    (hp : process (m.heap job).URL violations (m.heap job).ID = some (report, none)) (n : Nat) :
    (pipelineRun process job violations 12 (Run.start m)).pc = .done ∧
    pipelineRun process job violations n (Run.start m)
      = pipelineRun process job violations (min n 12) (Run.start m) := by
  have hpc : (pipelineRun process job violations 12 (Run.start m)).pc = .done := by
    simp [pipelineRun, pipelineStep, Run.start, Mem.onJob, Mem.SaveJob, Heap.update,
      Job.UpdateStatus, Job.SetProgress, hp, Storage.SaveReport]
  refine ⟨hpc, ?_⟩
  by_cases hn : n ≤ 12
  · rw [Nat.min_eq_left hn]
  · rw [Nat.min_eq_right (by omega)]
    have hsplit : n = 12 + (n - 12) := by omega
    rw [hsplit, pipelineRun_add]
    apply pipelineRun_halt
    unfold pipelineStep
    rw [hpc]

/-- C21: the state machine of the pipeline. For every job created by `NewJob` and every
outcome of the builder (a report, an error or a panic), the snapshots formed by the
initial job and each `SaveJob` of the goroutine of `ProcessAnalysis` have statuses that,
repeats collapsed, are a beginning of pending, processing, completed or of pending,
processing, failed, have non-decreasing progress values within 0..100, and have no
snapshot after one with status completed or failed; statements beyond the sixteen of
the goroutine add no snapshot. -/
theorem pipeline_state_machine
    (process : Str → List AxeViolation → Str → Option (Report × Option Str))
    (job : Nat) (violations : List AxeViolation) (m : Mem) (url id : Str)
    (h0 : m.heap job = NewJob url id) :
    (collapseRepeats ((pipelineSnapshots process job violations m).map Job.Status)
        <+: [StatusPending, StatusProcessing, StatusCompleted] ∨
      collapseRepeats ((pipelineSnapshots process job violations m).map Job.Status)
        <+: [StatusPending, StatusProcessing, StatusFailed]) ∧
    ((pipelineSnapshots process job violations m).map Job.Progress).Chain' (· ≤ ·) ∧
    (∀ j ∈ pipelineSnapshots process job violations m, 0 ≤ j.Progress ∧ j.Progress ≤ 100) ∧
    (∀ j ∈ (pipelineSnapshots process job violations m).dropLast,
      j.Status ≠ StatusCompleted ∧ j.Status ≠ StatusFailed) ∧
    ∀ n, 16 ≤ n →
      pipelineSaves process job violations n (Run.start m)
        = pipelineSaves process job violations 16 (Run.start m) := by
  have hsnap :
      ((pipelineSnapshots process job violations m).map (fun j => (j.Status, j.Progress))
          = [(StatusPending, 0), (StatusProcessing, 10), (StatusProcessing, 50)] ∨
        (pipelineSnapshots process job violations m).map (fun j => (j.Status, j.Progress))
          = [(StatusPending, 0), (StatusProcessing, 10), (StatusProcessing, 50),
              (StatusFailed, 50)] ∨
        (pipelineSnapshots process job violations m).map (fun j => (j.Status, j.Progress))
          = [(StatusPending, 0), (StatusProcessing, 10), (StatusProcessing, 50),
              (StatusProcessing, 90), (StatusCompleted, 100)]) ∧
      pipelineStep process job violations
        (pipelineRun process job violations 16 (Run.start m)) = none := by
    cases hp : process url violations id with
    | none =>
      constructor
      · left
        simp [pipelineSnapshots, pipelineSaves, pipelineStep, Run.start, Mem.onJob, Mem.SaveJob,
          Heap.update, Job.UpdateStatus, Job.SetProgress, Job.SetError, Line.savesJob, hp,
          Storage.SaveReport, h0, NewJob]
      · simp [pipelineRun, pipelineStep, Run.start, Mem.onJob, Mem.SaveJob,
          Heap.update, Job.UpdateStatus, Job.SetProgress, Job.SetError, hp,
          Storage.SaveReport, h0, NewJob]
    | some res =>
      obtain ⟨report, err⟩ := res
      cases err with
      | some err =>
        constructor
        · right; left
          simp [pipelineSnapshots, pipelineSaves, pipelineStep, Run.start, Mem.onJob,
            Mem.SaveJob, Heap.update, Job.UpdateStatus, Job.SetProgress, Job.SetError,
            Line.savesJob, hp, Storage.SaveReport, h0, NewJob]
        · simp [pipelineRun, pipelineStep, Run.start, Mem.onJob, Mem.SaveJob,
            Heap.update, Job.UpdateStatus, Job.SetProgress, Job.SetError, hp,
            Storage.SaveReport, h0, NewJob]
      | none =>
        constructor
        · right; right
          simp [pipelineSnapshots, pipelineSaves, pipelineStep, Run.start, Mem.onJob,
            Mem.SaveJob, Heap.update, Job.UpdateStatus, Job.SetProgress, Job.SetError,
            Line.savesJob, hp, Storage.SaveReport, h0, NewJob]
        · simp [pipelineRun, pipelineStep, Run.start, Mem.onJob, Mem.SaveJob,
            Heap.update, Job.UpdateStatus, Job.SetProgress, Job.SetError, hp,
            Storage.SaveReport, h0, NewJob]
  obtain ⟨hlist, hhalt⟩ := hsnap
  have hst : (pipelineSnapshots process job violations m).map Job.Status
      = ((pipelineSnapshots process job violations m).map
          (fun j => (j.Status, j.Progress))).map Prod.fst := by
    rw [List.map_map]; rfl
  have hpr : (pipelineSnapshots process job violations m).map Job.Progress
      = ((pipelineSnapshots process job violations m).map
          (fun j => (j.Status, j.Progress))).map Prod.snd := by
    rw [List.map_map]; rfl
  have hmem : ∀ j ∈ pipelineSnapshots process job violations m,
      (j.Status, j.Progress) ∈ (pipelineSnapshots process job violations m).map
        (fun j => (j.Status, j.Progress)) :=
    fun j hj => List.mem_map_of_mem _ hj
  have hlast : ∀ j ∈ (pipelineSnapshots process job violations m).dropLast,
      (j.Status, j.Progress) ∈ ((pipelineSnapshots process job violations m).map
        (fun j => (j.Status, j.Progress))).dropLast := by
    intro j hj
    rw [← List.map_dropLast]
    exact List.mem_map_of_mem _ hj
  refine ⟨?_, ?_, fun j hj => ?_, fun j hj => ?_, fun n hn => ?_⟩
  · rw [hst]
    rcases hlist with h | h | h <;> rw [h]
    · left; decide
    · right; decide
    · left; decide
  · rw [hpr]
    rcases hlist with h | h | h <;> rw [h] <;> simp
  · have := hmem j hj
    generalize j.Status = s at this
    generalize j.Progress = p at this
    rcases hlist with h | h | h <;> rw [h] at this <;> simp at this <;>
      omega
  · have := hlast j hj
    generalize j.Status = s at this ⊢
    generalize j.Progress = p at this
    obtain ⟨f1, f2, f3, f4, f5, f6⟩ := status_facts
    rcases hlist with h | h | h <;> rw [h] at this <;> simp at this
    · rcases this with q | q <;> rw [q.1] <;> simp [f1, f2, f3, f4]
    · rcases this with q | q | q <;> rw [q.1] <;> simp [f1, f2, f3, f4]
    · rcases this with q | q | q | q <;> rw [q.1] <;> simp [f1, f2, f3, f4]
  · have hsplit : n = 16 + (n - 16) := by omega
    rw [hsplit, pipelineSaves_add, pipelineSaves_halt _ _ _ _ hhalt, List.append_nil]

/-- C21 at the job `job-1` with no findings and a service that never answers: the
snapshots are (pending, 0), (processing, 10), (processing, 50), (processing, 90) and
(completed, 100). -/
theorem pipeline_state_machine_witness :
    pendingMem.heap 0 = NewJob "https://example.org".toList "job-1".toList ∧
    (pipelineSnapshots (ProcessViolations offlineProcessor quietWorld) 0 [] pendingMem).map
        (fun j => (j.Status, j.Progress))
      = [(StatusPending, 0), (StatusProcessing, 10), (StatusProcessing, 50),
          (StatusProcessing, 90), (StatusCompleted, 100)] ∧
    ((pipelineSnapshots (ProcessViolations offlineProcessor quietWorld) 0 []
        pendingMem).map Job.Progress).Chain' (· ≤ ·) :=
  ⟨rfl, by decide,
    (pipeline_state_machine (ProcessViolations offlineProcessor quietWorld) 0 [] pendingMem
      "https://example.org".toList "job-1".toList rfl).2.1⟩

/-- C22 (counterexample): on the job `job-1` with no findings, after the first nine
statements of the goroutine (`SaveReport` has just returned) `GetReport` gives a report
while `GetJob` gives the job with status processing. -/
theorem report_stored_while_processing :
    (offlineTranslator.ProcessAnalysisRun quietWorld 0 [] 9 pendingMem).mem.readJob
        "job-1".toList
      = .ok { ID := "job-1".toList, URL := "https://example.org".toList,
              Status := StatusProcessing, Error := [], Progress := 90 } ∧
    (offlineTranslator.ProcessAnalysisRun quietWorld 0 [] 9 pendingMem).mem.storage.GetReport
        "job-1".toList
      = .ok { emptyReport "https://example.org".toList "job-1".toList with
              Recommendations := [positiveMessage] } := by
  constructor <;> rfl

/-- C22 (amended): on a store that starts with the job pending and without a report
under its id, after every number n of statements of the goroutine of `ProcessAnalysis`
`GetJob` gives the job, whose status is completed exactly when n is at least 10, and
`GetReport` gives a report exactly when n is at least 9. So a completed job always has
its report, and a report exists for a job that is not completed only in the one state
between `SaveReport` and the change of status. -/
theorem report_exists_from_SaveReport (t : Translator) (w : World) (job : Nat)
    (violations : List AxeViolation) (m : Mem) (url id : Str)
    (h0 : m.heap job = NewJob url id) (hjob : m.storage.jobs.get id = some job)
    (hrep : m.storage.reports.get id = none) (n : Nat) :
    (∃ j : Job, (t.ProcessAnalysisRun w job violations n m).mem.readJob id = .ok j ∧
      (j.Status = StatusCompleted ↔ 10 ≤ n)) ∧
    ((∃ report : Report,
        (t.ProcessAnalysisRun w job violations n m).mem.storage.GetReport id = .ok report)
      ↔ 9 ≤ n) := by
  obtain ⟨r, hr, hb⟩ := ProcessViolations_built t.processor w url violations id
  have hid : r.ID = id := hb.1
  have hp : ProcessViolations t.processor w (m.heap job).URL violations (m.heap job).ID
      = some ({ r with Recommendations := generateRecommendations w r }, none) := by
    rw [h0]; exact hr
  obtain ⟨f1, f2, f3, f4, f5, f6⟩ := status_facts
  obtain ⟨_, hstable⟩ :=
    pipelineRun_stable (ProcessViolations t.processor w) job violations m _ hp n
  unfold Translator.ProcessAnalysisRun
  rw [hstable]
  have h10 : 10 ≤ n ↔ 10 ≤ min n 12 := by omega
  have h9 : 9 ≤ n ↔ 9 ≤ min n 12 := by omega
  rw [h10, h9]
  have hk : min n 12 ≤ 12 := Nat.min_le_right n 12
  generalize min n 12 = k at hk
  interval_cases k <;>
    simp [Mem.readJob, Storage.GetJob, Storage.GetReport, pipelineRun, pipelineStep, Run.start,
      Mem.onJob, Mem.SaveJob, Heap.update, Job.UpdateStatus, Job.SetProgress, hr,
      Storage.SaveReport, Storage.SaveJob, GoMap.get_set_self, hid, hjob, hrep, h0, NewJob,
      f1, f2]

/-- C22 (amended) at the job `job-1` with no findings, after nine statements. -/
theorem report_exists_from_SaveReport_witness :
    pendingMem.heap 0 = NewJob "https://example.org".toList "job-1".toList ∧
    pendingMem.storage.jobs.get "job-1".toList = some 0 ∧
    pendingMem.storage.reports.get "job-1".toList = none ∧
    ((∃ report : Report,
        (offlineTranslator.ProcessAnalysisRun quietWorld 0 [] 9 pendingMem).mem.storage.GetReport
          "job-1".toList = .ok report) ↔ 9 ≤ 9) :=
  ⟨rfl, rfl, rfl,
    (report_exists_from_SaveReport offlineTranslator quietWorld 0 [] pendingMem
      "https://example.org".toList "job-1".toList rfl rfl rfl 9).2⟩

/-- C25: a reader between two statements of the goroutine sees a job that no `SaveJob`
has stored. On the job `job-1` with no findings, `GetJob` gives status processing with
progress 0 after the first statement and status completed with progress 90 after the
first ten, and neither record is among the snapshots of the run. -/
theorem reader_sees_unsaved_job :
    (offlineTranslator.ProcessAnalysisRun quietWorld 0 [] 1 pendingMem).mem.readJob
        "job-1".toList
      = .ok { ID := "job-1".toList, URL := "https://example.org".toList,
              Status := StatusProcessing, Error := [], Progress := 0 } ∧
    (offlineTranslator.ProcessAnalysisRun quietWorld 0 [] 10 pendingMem).mem.readJob
        "job-1".toList
      = .ok { ID := "job-1".toList, URL := "https://example.org".toList,
              Status := StatusCompleted, Error := [], Progress := 90 } ∧
    (pipelineSnapshots (ProcessViolations offlineProcessor quietWorld) 0 [] pendingMem).map
        (fun j => (j.Status, j.Progress))
      = [(StatusPending, 0), (StatusProcessing, 10), (StatusProcessing, 50),
          (StatusProcessing, 90), (StatusCompleted, 100)] := by
  refine ⟨rfl, rfl, by decide⟩

/-- C27 (counterexample): on the job `job-1` with no findings, a `DeleteJob` after the
first five statements of the goroutine is undone by the rest of the run: at the end
`GetJob` gives the job, completed, and `GetReport` gives its report. -/
theorem deleted_job_stored_again :
    (offlineTranslator.ProcessAnalysisWithDelete quietWorld 0 [] 5 "job-1".toList
        pendingMem).readJob "job-1".toList
      = .ok { ID := "job-1".toList, URL := "https://example.org".toList,
              Status := StatusCompleted, Error := [], Progress := 100 } ∧
    (offlineTranslator.ProcessAnalysisWithDelete quietWorld 0 [] 5 "job-1".toList
        pendingMem).storage.GetReport "job-1".toList
      = .ok { emptyReport "https://example.org".toList "job-1".toList with
              Recommendations := [positiveMessage] } := by
  constructor <;> rfl

/-- C27 (amended): a `DeleteJob(id)` after the first k statements of the goroutine of
`ProcessAnalysis` does not stop it, and its remaining writes store the records again.
At the end of the run `GetJob(id)` gives the job, completed with progress 100, when the
last `SaveJob` was still to come (k < 12) and not-found otherwise; `GetReport(id)`
gives the report when `SaveReport` was still to come (k < 9) and not-found otherwise. -/
theorem delete_in_flight (t : Translator) (w : World) (job : Nat)
    (violations : List AxeViolation) (m : Mem) (url id : Str)
    (h0 : m.heap job = NewJob url id) (k : Nat) :
    ∃ report : Report,
      ProcessViolations t.processor w url violations id = some (report, none) ∧
      (k < 12 → (t.ProcessAnalysisWithDelete w job violations k id m).readJob id
        = .ok { ID := id, URL := url, Status := StatusCompleted, Error := [], Progress := 100 }) ∧
      (12 ≤ k → (t.ProcessAnalysisWithDelete w job violations k id m).readJob id
        = .error "job not found".toList) ∧
      (k < 9 → (t.ProcessAnalysisWithDelete w job violations k id m).storage.GetReport id
        = .ok report) ∧
      (9 ≤ k → (t.ProcessAnalysisWithDelete w job violations k id m).storage.GetReport id
        = .error "report not found".toList) := by
  obtain ⟨r, hr, hb⟩ := ProcessViolations_built t.processor w url violations id
  have hid : r.ID = id := hb.1
  have hp : ProcessViolations t.processor w (m.heap job).URL violations (m.heap job).ID
      = some ({ r with Recommendations := generateRecommendations w r }, none) := by
    rw [h0]; exact hr
  obtain ⟨_, hstable⟩ :=
    pipelineRun_stable (ProcessViolations t.processor w) job violations m _ hp k
  refine ⟨_, hr, ?_⟩
  unfold Translator.ProcessAnalysisWithDelete Translator.ProcessAnalysisRun
  rw [hstable]
  have h12 : k < 12 ↔ min k 12 < 12 := by omega
  have h12' : 12 ≤ k ↔ 12 ≤ min k 12 := by omega
  have h9 : k < 9 ↔ min k 12 < 9 := by omega
  have h9' : 9 ≤ k ↔ 9 ≤ min k 12 := by omega
  rw [h12, h12', h9, h9']
  have hk : min k 12 ≤ 12 := Nat.min_le_right k 12
  generalize min k 12 = c at hk
  interval_cases c <;>
    simp [Mem.readJob, Storage.GetJob, Storage.GetReport, pipelineRun, pipelineStep, Run.start,
      Mem.onJob, Mem.SaveJob, Mem.DeleteJob, Heap.update, Job.UpdateStatus, Job.SetProgress, hr,
      Storage.SaveReport, Storage.SaveJob, Storage.DeleteJob, GoMap.get_set_self,
      GoMap.get_delete_self, hid, h0, NewJob]

/-- C27 (amended) at the job `job-1` with no findings and a delete after five
statements. -/
theorem delete_in_flight_witness :
    pendingMem.heap 0 = NewJob "https://example.org".toList "job-1".toList ∧
    ∃ report : Report,
      (5 < 9 → (offlineTranslator.ProcessAnalysisWithDelete quietWorld 0 [] 5 "job-1".toList
          pendingMem).storage.GetReport "job-1".toList = .ok report) :=
  ⟨rfl, by
    obtain ⟨report, _, _, _, h, _⟩ := delete_in_flight offlineTranslator quietWorld 0 []
      pendingMem "https://example.org".toList "job-1".toList rfl 5
    exact ⟨report, h⟩⟩

/-- C28: the failed state is unreachable through the pipeline. For every job created by
`NewJob`, every list of findings and every world, the builder returns a report and no
error, and the run of `ProcessAnalysis` without other operations in between ends with
`GetJob(job id)` giving the job with status completed, progress 100 and empty error
message and `GetReport(job id)` giving that report; the goroutine has ended after twelve
statements, and the job never has status failed. -/
theorem ProcessAnalysis_completes (t : Translator) (w : World) (job : Nat)
    (violations : List AxeViolation) (m : Mem) (url id : Str)
    (h0 : m.heap job = NewJob url id) :
    ∃ report : Report,
      ProcessViolations t.processor w url violations id = some (report, none) ∧
      (t.ProcessAnalysis w job violations m).readJob id
        = .ok { ID := id, URL := url, Status := StatusCompleted, Error := [], Progress := 100 } ∧
      (t.ProcessAnalysis w job violations m).storage.GetReport id = .ok report ∧
      (∀ n, 12 ≤ n →
        (t.ProcessAnalysisRun w job violations n m).pc = .done ∧
        t.ProcessAnalysisRun w job violations n m = t.ProcessAnalysisRun w job violations 12 m) ∧
      ∀ n, ((t.ProcessAnalysisRun w job violations n m).mem.heap job).Status ≠ StatusFailed := by
  obtain ⟨r, hr, hb⟩ := ProcessViolations_built t.processor w url violations id
  have hid : r.ID = id := hb.1
  have hp : ProcessViolations t.processor w (m.heap job).URL violations (m.heap job).ID
      = some ({ r with Recommendations := generateRecommendations w r }, none) := by
    rw [h0]; exact hr
  obtain ⟨f1, f2, f3, f4, f5, f6⟩ := status_facts
  refine ⟨_, hr, ?_, ?_, fun n hn => ?_, fun n => ?_⟩
  · simp [Translator.ProcessAnalysis, Translator.ProcessAnalysisRun, Mem.readJob,
      Storage.GetJob, pipelineRun, pipelineStep, Run.start, Mem.onJob, Mem.SaveJob, Heap.update,
      Job.UpdateStatus, Job.SetProgress, hr, Storage.SaveReport, Storage.SaveJob,
      GoMap.get_set_self, h0, NewJob]
  · simp [Translator.ProcessAnalysis, Translator.ProcessAnalysisRun,
      Storage.GetReport, pipelineRun, pipelineStep, Run.start, Mem.onJob, Mem.SaveJob, Heap.update,
      Job.UpdateStatus, Job.SetProgress, hr, Storage.SaveReport, Storage.SaveJob,
      GoMap.get_set_self, hid, h0, NewJob]
  · obtain ⟨hpc, hstable⟩ := pipelineRun_stable (ProcessViolations t.processor w) job violations m _ hp
      n
    unfold Translator.ProcessAnalysisRun
    rw [hstable, Nat.min_eq_right hn]
    exact ⟨hpc, rfl⟩
  · obtain ⟨_, hstable⟩ :=
      pipelineRun_stable (ProcessViolations t.processor w) job violations m _ hp n
    unfold Translator.ProcessAnalysisRun
    rw [hstable]
    have hk : min n 12 ≤ 12 := Nat.min_le_right n 12
    generalize min n 12 = k at hk
    interval_cases k <;>
      simp [pipelineRun, pipelineStep, Run.start, Mem.onJob, Mem.SaveJob, Heap.update,
        Job.UpdateStatus, Job.SetProgress, hr, Storage.SaveReport, Storage.SaveJob, h0, NewJob,
        f1, f2, f3, f4, f5, f6]

/-- C28 at the job `job-1` with no findings and a service that never answers. -/
theorem ProcessAnalysis_completes_witness :
    pendingMem.heap 0 = NewJob "https://example.org".toList "job-1".toList ∧
    ∃ report : Report,
      (offlineTranslator.ProcessAnalysis quietWorld 0 [] pendingMem).storage.GetReport
        "job-1".toList = .ok report :=
  ⟨rfl, by
    obtain ⟨report, _, _, h, _⟩ := ProcessAnalysis_completes offlineTranslator quietWorld 0 []
      pendingMem "https://example.org".toList "job-1".toList rfl
    exact ⟨report, h⟩⟩

end A11y
